import Mathlib

/-! Block scanner of tree-sitter-djot: a shallow embedding of `src/scanner.c`.

Conventions of the embedding.

* `uint8_t` values are natural numbers; every place where the C code stores an
  arithmetic result into a `uint8_t` is written with an explicit `% 256`.
* Characters are the code points the lexer hands out (`int32_t lookahead`),
  written as numbers: 9 tab, 10 newline, 32 space, 40 `(`, 41 `)`, 42 `*`,
  43 `+`, 45 `-`, 46 `.`, 58 `:`, 96 backtick.
* The open-block stack (`open_blocks.items[0 .. size-1]`) is a list whose head
  is the top of the stack, `items[size-1]`.
* A C function `bool f(Scanner *s, TSLexer *lexer, ...)` becomes a function
  returning `Option (Bool × Scanner × TSLexer)`: the returned flag and the two
  mutated objects; `none` is a failed `assert`.
* A run of statements `if (cond && f(s, lexer)) return true;` is the list of
  those statements, run in order by `cascade`; the body of
  `tree_sitter_djot_external_scanner_scan` is the list `scan_rules`.
* The `printf` calls of the source write to the standard output only and are
  left out.
-/

namespace Djot

/-- Capacity of `open_blocks.items` (scanner.c line 7). -/
def STACK_SIZE : Nat := 512

/-- The token kinds (scanner.c lines 11-49), in declaration order. -/
inductive TokenType where
  | BLOCK_CLOSE
  | EOF_OR_BLANKLINE
  | DIV_START
  | DIV_END
  | CODE_BLOCK_START
  | CODE_BLOCK_END
  | LIST_MARKER_DASH
  | LIST_MARKER_STAR
  | LIST_MARKER_PLUS
  | LIST_MARKER_DEFINITION
  | LIST_MARKER_DECIMAL_PERIOD
  | LIST_MARKER_LOWER_ALPHA_PERIOD
  | LIST_MARKER_UPPER_ALPHA_PERIOD
  | LIST_MARKER_LOWER_ROMAN_PERIOD
  | LIST_MARKER_UPPER_ROMAN_PERIOD
  | LIST_MARKER_DECIMAL_PAREN
  | LIST_MARKER_LOWER_ALPHA_PAREN
  | LIST_MARKER_UPPER_ALPHA_PAREN
  | LIST_MARKER_LOWER_ROMAN_PAREN
  | LIST_MARKER_UPPER_ROMAN_PAREN
  | LIST_MARKER_DECIMAL_PARENS
  | LIST_MARKER_LOWER_ALPHA_PARENS
  | LIST_MARKER_UPPER_ALPHA_PARENS
  | LIST_MARKER_LOWER_ROMAN_PARENS
  | LIST_MARKER_UPPER_ROMAN_PARENS
  | LIST_ITEM_END
  | CLOSE_PARAGRAPH
  | THEMATIC_BREAK_DASH
  | THEMATIC_BREAK_STAR
  | VERBATIM_START
  | VERBATIM_END
  | VERBATIM_CONTENT
  | ERROR
  | IGNORED
  deriving DecidableEq, Repr

/-- The block kinds (scanner.c lines 51-73), in declaration order. -/
inductive BlockType where
  | DIV
  | CODE_BLOCK
  | LIST_DASH
  | LIST_STAR
  | LIST_PLUS
  | LIST_DEFINITION
  | LIST_DECIMAL_PERIOD
  | LIST_LOWER_ALPHA_PERIOD
  | LIST_UPPER_ALPHA_PERIOD
  | LIST_LOWER_ROMAN_PERIOD
  | LIST_UPPER_ROMAN_PERIOD
  | LIST_DECIMAL_PAREN
  | LIST_LOWER_ALPHA_PAREN
  | LIST_UPPER_ALPHA_PAREN
  | LIST_LOWER_ROMAN_PAREN
  | LIST_UPPER_ROMAN_PAREN
  | LIST_DECIMAL_PARENS
  | LIST_LOWER_ALPHA_PARENS
  | LIST_UPPER_ALPHA_PARENS
  | LIST_LOWER_ROMAN_PARENS
  | LIST_UPPER_ROMAN_PARENS
  deriving DecidableEq, Repr

/-- The enumerator alphabets (scanner.c lines 75-81). -/
inductive OrderedListType where
  | DECIMAL
  | LOWER_ALPHA
  | UPPER_ALPHA
  | LOWER_ROMAN
  | UPPER_ROMAN
  deriving DecidableEq, Repr

/-- One open block (scanner.c lines 83-88); `level` is a `uint8_t`. -/
structure Block where
  type : BlockType
  level : Nat
  deriving DecidableEq, Repr

/-- The scanner state (scanner.c lines 90-109). `open_blocks` lists the stack
from the top (`items[size-1]`) down to the bottom (`items[0]`); the four
counters are `uint8_t`. -/
structure Scanner where
  open_blocks : List Block
  blocks_to_close : Nat
  delayed_token : TokenType
  delayed_token_width : Nat
  verbatim_tick_count : Nat
  whitespace : Nat
  deriving DecidableEq, Repr

/-- Modelled from the spec: the input cursor of the hosting runtime
(`TSLexer`, declared in `tree_sitter/parser.h`, which is not among the
sources). "peek current character (or end-of-input), advance by one character,
mark the current position as the candidate token's end, query end-of-input".
`input` is the text from the cursor to the end of the document, `marked` is the
text from the last marked token end, `result_symbol` the token kind written by
the scanner. -/
structure TSLexer where
  input : List Nat
  marked : List Nat
  result_symbol : TokenType
  deriving DecidableEq, Repr

/-- Reading `lexer->lookahead`: the character at the cursor, 0 at end of input. -/
def TSLexer.lookahead (lexer : TSLexer) : Nat := lexer.input.headD 0

/-- Calling `lexer->eof(lexer)`. -/
def TSLexer.eof (lexer : TSLexer) : Bool := lexer.input.isEmpty

/-- Calling `lexer->advance(lexer, false)`: one character forward; at end of
input the cursor stays. -/
def TSLexer.advance (lexer : TSLexer) : TSLexer :=
  { lexer with input := lexer.input.tail }

/-- Calling `lexer->mark_end(lexer)`. -/
def TSLexer.mark_end (lexer : TSLexer) : TSLexer :=
  { lexer with marked := lexer.input }

/-- Assigning `lexer->result_symbol = t`. -/
def TSLexer.set_result (lexer : TSLexer) (t : TokenType) : TSLexer :=
  { lexer with result_symbol := t }

/-- The cursor the runtime hands to a scan call at text `input`. -/
def TSLexer.start (input : List Nat) : TSLexer :=
  { input := input, marked := input, result_symbol := TokenType.IGNORED }

/-- scanner.c lines 120-145. -/
def is_list : BlockType → Bool
  | .DIV => false
  | .CODE_BLOCK => false
  | _ => true

/-- scanner.c lines 147-190; `none` is the `assert(false)` of the default case. -/
def list_marker_to_block : TokenType → Option BlockType
  | .LIST_MARKER_DASH => some .LIST_DASH
  | .LIST_MARKER_STAR => some .LIST_STAR
  | .LIST_MARKER_PLUS => some .LIST_PLUS
  | .LIST_MARKER_DEFINITION => some .LIST_DEFINITION
  | .LIST_MARKER_DECIMAL_PERIOD => some .LIST_DECIMAL_PERIOD
  | .LIST_MARKER_LOWER_ALPHA_PERIOD => some .LIST_LOWER_ALPHA_PERIOD
  | .LIST_MARKER_UPPER_ALPHA_PERIOD => some .LIST_UPPER_ALPHA_PERIOD
  | .LIST_MARKER_LOWER_ROMAN_PERIOD => some .LIST_LOWER_ROMAN_PERIOD
  | .LIST_MARKER_UPPER_ROMAN_PERIOD => some .LIST_UPPER_ROMAN_PERIOD
  | .LIST_MARKER_DECIMAL_PAREN => some .LIST_DECIMAL_PAREN
  | .LIST_MARKER_LOWER_ALPHA_PAREN => some .LIST_LOWER_ALPHA_PAREN
  | .LIST_MARKER_UPPER_ALPHA_PAREN => some .LIST_UPPER_ALPHA_PAREN
  | .LIST_MARKER_LOWER_ROMAN_PAREN => some .LIST_LOWER_ROMAN_PAREN
  | .LIST_MARKER_UPPER_ROMAN_PAREN => some .LIST_UPPER_ROMAN_PAREN
  | .LIST_MARKER_DECIMAL_PARENS => some .LIST_DECIMAL_PARENS
  | .LIST_MARKER_LOWER_ALPHA_PARENS => some .LIST_LOWER_ALPHA_PARENS
  | .LIST_MARKER_UPPER_ALPHA_PARENS => some .LIST_UPPER_ALPHA_PARENS
  | .LIST_MARKER_LOWER_ROMAN_PARENS => some .LIST_LOWER_ROMAN_PARENS
  | .LIST_MARKER_UPPER_ROMAN_PARENS => some .LIST_UPPER_ROMAN_PARENS
  | _ => none

/-- The loop of `consume_chars` (scanner.c lines 193-197) over the text at the
cursor: returns the `uint8_t` count and the text left. At end of input the
lookahead is 0, which differs from the `c` of both callers (58 and 96). -/
def consume_chars_loop (c : Nat) : List Nat → Nat → Nat × List Nat
  | [], count => (count, [])
  | x :: xs, count =>
    if x = c then consume_chars_loop c xs ((count + 1) % 256) else (count, x :: xs)

/-- scanner.c lines 192-199. -/
def consume_chars (lexer : TSLexer) (c : Nat) : Nat × TSLexer :=
  let r := consume_chars_loop c lexer.input 0
  (r.1, { lexer with input := r.2 })

/-- The loop of `consume_whitespace` (scanner.c lines 203-213). -/
def consume_whitespace_loop : List Nat → Nat → Nat × List Nat
  | [], indent => (indent, [])
  | x :: xs, indent =>
    if x = 32 then consume_whitespace_loop xs ((indent + 1) % 256)
    else if x = 9 then consume_whitespace_loop xs ((indent + 4) % 256)
    else (indent, x :: xs)

/-- scanner.c lines 201-215. -/
def consume_whitespace (lexer : TSLexer) : Nat × TSLexer :=
  let r := consume_whitespace_loop lexer.input 0
  (r.1, { lexer with input := r.2 })

/-- scanner.c lines 217-222. -/
def create_block (type : BlockType) (level : Nat) : Block :=
  { type := type, level := level }

/-- scanner.c lines 224-226: `items[size++] = create_block(type, level)`. The
code compares `size` with nothing, so the list simply grows; a push at
`size = STACK_SIZE` is the store to `items[STACK_SIZE]`, which lies outside the
array. The list is the stack of the code as long as no more than `STACK_SIZE`
blocks have been open: what the code holds after a store outside the array the
list does not show, so statements over runs of calls are made for runs that
stay within `STACK_SIZE` (see `ReachableInCapacity`). -/
def push_block (s : Scanner) (type : BlockType) (level : Nat) : Scanner :=
  { s with open_blocks := create_block type level :: s.open_blocks }

/-- scanner.c lines 228-237; `none` is the `assert(false)` on an empty stack. -/
def pop_block (s : Scanner) : Option Scanner :=
  match s.open_blocks with
  | [] => none
  | _ :: rest =>
    some { s with
      open_blocks := rest
      blocks_to_close := if s.blocks_to_close > 0 then s.blocks_to_close - 1
                         else s.blocks_to_close }

/-- scanner.c line 239. -/
def any_block (s : Scanner) : Bool := decide (s.open_blocks.length > 0)

/-- scanner.c lines 241-244; `none` is the failed `assert(size > 0)`. -/
def peek_block (s : Scanner) : Option Block := s.open_blocks.head?

/-- scanner.c lines 246-249. -/
def set_delayed_token (s : Scanner) (token : TokenType) (token_width : Nat) : Scanner :=
  { s with delayed_token := token, delayed_token_width := token_width }

/-- The loop `while (s->delayed_token_width--) advance` (scanner.c lines
256-258): `w` advances, and the post-decrement that reads 0 leaves the
`uint8_t` field at 255. -/
def output_delayed_token_loop : Nat → TSLexer → Nat × TSLexer
  | 0, lexer => (255, lexer)
  | w + 1, lexer => output_delayed_token_loop w lexer.advance

/-- scanner.c lines 251-264. -/
def output_delayed_token (s : Scanner) (lexer : TSLexer)
    (_valid_symbols : TokenType → Bool) : Option (Bool × Scanner × TSLexer) :=
  if s.delayed_token ≠ TokenType.IGNORED then
    let lexer := lexer.set_result s.delayed_token
    let s := { s with delayed_token := TokenType.IGNORED }
    let r := output_delayed_token_loop s.delayed_token_width lexer
    let s := { s with delayed_token_width := r.1 }
    some (true, s, r.2.mark_end)
  else
    some (false, s, lexer)

/-- The loop of `number_of_blocks_from_top` (scanner.c lines 271-276) walking
down from the top; `d` is `size - i`. -/
def number_of_blocks_from_top_loop (type : BlockType) (level : Nat) :
    List Block → Nat → Nat
  | [], _ => 0
  | b :: rest, d =>
    if b.type = type ∧ b.level = level then d
    else number_of_blocks_from_top_loop type level rest (d + 1)

/-- scanner.c lines 269-278. -/
def number_of_blocks_from_top (s : Scanner) (type : BlockType) (level : Nat) : Nat :=
  number_of_blocks_from_top_loop type level s.open_blocks 1

/-- The loop of `get_open_list` (scanner.c lines 281-286): the nearest list
block from the top together with its distance below the top (0 for the top
itself), which stands for the identity of the returned pointer. -/
def get_open_list_loop : List Block → Nat → Option (Nat × Block)
  | [], _ => none
  | b :: rest, k =>
    if is_list b.type then some (k, b) else get_open_list_loop rest (k + 1)

/-- scanner.c lines 280-288. -/
def get_open_list (s : Scanner) : Option (Nat × Block) :=
  get_open_list_loop s.open_blocks 0

/-- scanner.c line 290. -/
def has_open_list (s : Scanner) : Bool := (get_open_list s).isSome

/-- scanner.c lines 299-307. `count` is a `size_t`; `count - 1` stored into the
`uint8_t` field keeps the low eight bits, which is `(count + 255) % 256`. -/
def close_blocks_with_final_token (s : Scanner) (lexer : TSLexer) (count : Nat)
    (final : TokenType) (final_token_width : Nat) : Option (Scanner × TSLexer) :=
  if s.blocks_to_close ≠ 0 then none
  else
    match pop_block (set_delayed_token s final final_token_width) with
    | none => none
    | some s =>
      some ({ s with blocks_to_close := (count + 255) % 256 },
            lexer.set_result TokenType.BLOCK_CLOSE)

/-- scanner.c lines 309-329. -/
def handle_blocks_to_close (s : Scanner) (lexer : TSLexer) :
    Option (Bool × Scanner × TSLexer) :=
  if s.open_blocks.length = 0 then some (false, s, lexer)
  else if lexer.eof then
    match pop_block s with
    | none => none
    | some s => some (true, s, lexer.set_result TokenType.BLOCK_CLOSE)
  else if s.blocks_to_close > 0 then
    match pop_block s with
    | none => none
    | some s => some (true, s, lexer.set_result TokenType.BLOCK_CLOSE)
  else some (false, s, lexer)

/-- scanner.c lines 331-347. -/
def close_different_list_if_needed (s : Scanner) (lexer : TSLexer) (list : Block)
    (list_marker : TokenType) : Option (Bool × Scanner × TSLexer) :=
  if list_marker ≠ TokenType.IGNORED then
    match list_marker_to_block list_marker with
    | none => none
    | some to_open =>
      if list.type ≠ to_open then
        match pop_block s with
        | none => none
        | some s => some (true, s, lexer.set_result TokenType.BLOCK_CLOSE)
      else some (false, s, lexer)
  else some (false, s, lexer)

/-- scanner.c lines 681-695 are declared before use (line 118); the bullet
scanner they rely on is scanner.c lines 514-525. -/
def scan_bullet_list_marker (lexer : TSLexer) (marker : Nat) : Bool × TSLexer :=
  if lexer.lookahead ≠ marker then (false, lexer)
  else
    let lexer := lexer.advance
    if lexer.lookahead ≠ 32 then (false, lexer)
    else (true, lexer.advance)

/-- scanner.c line 527; a `char` parameter, see `to_char`. -/
def is_decimal (c : Nat) : Bool := decide (48 ≤ c) && decide (c ≤ 57)

/-- scanner.c line 528. -/
def is_lower_alpha (c : Nat) : Bool := decide (97 ≤ c) && decide (c ≤ 122)

/-- scanner.c line 529. -/
def is_upper_alpha (c : Nat) : Bool := decide (65 ≤ c) && decide (c ≤ 90)

/-- scanner.c lines 530-543: i, v, x, l, c, d, m. -/
def is_lower_roman (c : Nat) : Bool :=
  c = 105 || c = 118 || c = 120 || c = 108 || c = 99 || c = 100 || c = 109

/-- scanner.c lines 544-557: I, V, X, L, C, D, M. -/
def is_upper_roman (c : Nat) : Bool :=
  c = 73 || c = 86 || c = 88 || c = 76 || c = 67 || c = 68 || c = 77

/-- Passing the `int32_t` lookahead to a `char` parameter keeps its low eight
bits. Values from 128 on (negative where `char` is signed) lie in none of the
character classes above, so the sign of `char` makes no difference. -/
def to_char (lookahead : Nat) : Nat := lookahead % 256

/-- scanner.c lines 559-572. -/
def matches_ordered_list (type : OrderedListType) (c : Nat) : Bool :=
  match type with
  | .DECIMAL => is_decimal c
  | .LOWER_ALPHA => is_lower_alpha c
  | .UPPER_ALPHA => is_upper_alpha c
  | .LOWER_ROMAN => is_lower_roman c
  | .UPPER_ROMAN => is_upper_roman c

/-- The loop of `scan_ordered_list_enumerator` (scanner.c lines 578-587);
`scanned` is a `uint8_t`. -/
def scan_ordered_list_enumerator_loop (type : OrderedListType) :
    List Nat → Nat → Nat × List Nat
  | [], scanned => (scanned, [])
  | x :: xs, scanned =>
    if matches_ordered_list type (to_char x) then
      scan_ordered_list_enumerator_loop type xs ((scanned + 1) % 256)
    else (scanned, x :: xs)

/-- scanner.c lines 575-589. -/
def scan_ordered_list_enumerator (lexer : TSLexer) (type : OrderedListType) :
    Bool × TSLexer :=
  let r := scan_ordered_list_enumerator_loop type lexer.input 0
  (decide (r.1 > 0), { lexer with input := r.2 })

/-- scanner.c lines 591-620; the out-parameter `res` is the returned option. -/
def scan_ordered_list_type (lexer : TSLexer) : Option OrderedListType × TSLexer :=
  let r := scan_ordered_list_enumerator lexer .DECIMAL
  if r.1 then (some .DECIMAL, r.2)
  else
    let r := scan_ordered_list_enumerator r.2 .LOWER_ROMAN
    if r.1 then (some .LOWER_ROMAN, r.2)
    else
      let r := scan_ordered_list_enumerator r.2 .UPPER_ROMAN
      if r.1 then (some .UPPER_ROMAN, r.2)
      else
        let r := scan_ordered_list_enumerator r.2 .LOWER_ALPHA
        if r.1 then (some .LOWER_ALPHA, r.2)
        else
          let r := scan_ordered_list_enumerator r.2 .UPPER_ALPHA
          if r.1 then (some .UPPER_ALPHA, r.2)
          else (none, r.2)

/-- The inner switches of scanner.c lines 637-648. -/
def marker_parens : OrderedListType → TokenType
  | .DECIMAL => .LIST_MARKER_DECIMAL_PARENS
  | .LOWER_ALPHA => .LIST_MARKER_LOWER_ALPHA_PARENS
  | .UPPER_ALPHA => .LIST_MARKER_UPPER_ALPHA_PARENS
  | .LOWER_ROMAN => .LIST_MARKER_LOWER_ROMAN_PARENS
  | .UPPER_ROMAN => .LIST_MARKER_UPPER_ROMAN_PARENS

/-- The inner switch of scanner.c lines 650-661. -/
def marker_paren : OrderedListType → TokenType
  | .DECIMAL => .LIST_MARKER_DECIMAL_PAREN
  | .LOWER_ALPHA => .LIST_MARKER_LOWER_ALPHA_PAREN
  | .UPPER_ALPHA => .LIST_MARKER_UPPER_ALPHA_PAREN
  | .LOWER_ROMAN => .LIST_MARKER_LOWER_ROMAN_PAREN
  | .UPPER_ROMAN => .LIST_MARKER_UPPER_ROMAN_PAREN

/-- The inner switch of scanner.c lines 664-675. -/
def marker_period : OrderedListType → TokenType
  | .DECIMAL => .LIST_MARKER_DECIMAL_PERIOD
  | .LOWER_ALPHA => .LIST_MARKER_LOWER_ALPHA_PERIOD
  | .UPPER_ALPHA => .LIST_MARKER_UPPER_ALPHA_PERIOD
  | .LOWER_ROMAN => .LIST_MARKER_LOWER_ROMAN_PERIOD
  | .UPPER_ROMAN => .LIST_MARKER_UPPER_ROMAN_PERIOD

/-- scanner.c lines 622-679. Every inner switch returns for each of the five
alphabets, so no case falls through to the next. -/
def scan_ordered_list_marker_token (lexer : TSLexer) : TokenType × TSLexer :=
  let surrounding_parens := decide (lexer.lookahead = 40)
  let lexer := if surrounding_parens then lexer.advance else lexer
  let r := scan_ordered_list_type lexer
  match r.1 with
  | none => (TokenType.IGNORED, r.2)
  | some list_type =>
    if r.2.lookahead = 41 then
      if surrounding_parens then (marker_parens list_type, r.2)
      else (marker_paren list_type, r.2)
    else if r.2.lookahead = 46 then (marker_period list_type, r.2)
    else (TokenType.IGNORED, r.2)

/-- scanner.c lines 681-695. -/
def scan_list_marker_token (lexer : TSLexer) : TokenType × TSLexer :=
  let r := scan_bullet_list_marker lexer 45
  if r.1 then (TokenType.LIST_MARKER_DASH, r.2)
  else
    let r := scan_bullet_list_marker r.2 42
    if r.1 then (TokenType.LIST_MARKER_STAR, r.2)
    else
      let r := scan_bullet_list_marker r.2 43
      if r.1 then (TokenType.LIST_MARKER_PLUS, r.2)
      else
        let r := scan_bullet_list_marker r.2 58
        if r.1 then (TokenType.LIST_MARKER_DEFINITION, r.2)
        else scan_ordered_list_marker_token r.2

/-- scanner.c lines 697-699. -/
def scan_list_marker (lexer : TSLexer) : Bool × TSLexer :=
  let r := scan_list_marker_token lexer
  (decide (r.1 ≠ TokenType.IGNORED), r.2)

/-- scanner.c lines 349-385. `list != top` compares pointers: the nearest list
is the top block exactly when its distance below the top is 0. -/
def close_lists_if_needed (s : Scanner) (lexer : TSLexer) (non_newline : Bool)
    (ordered_list_marker : TokenType) : Option (Bool × Scanner × TSLexer) :=
  if s.open_blocks.length = 0 then some (false, s, lexer)
  else
    match get_open_list s with
    | none => some (false, s, lexer)
    | some (k, list) =>
      if non_newline ∧ k ≠ 0 ∧ s.whitespace < list.level then
        match pop_block s with
        | none => none
        | some s => some (true, s, lexer.set_result TokenType.BLOCK_CLOSE)
      else
        match close_different_list_if_needed s lexer list ordered_list_marker with
        | none => none
        | some (true, s, lexer) => some (true, s, lexer)
        | some (false, s, lexer) =>
          let r := scan_list_marker_token lexer
          close_different_list_if_needed s r.2 list r.1

/-- scanner.c lines 387-395: the flag, `*colons`, `*from_top` (0 when it is not
written) and the cursor. -/
def scan_div_marker (s : Scanner) (lexer : TSLexer) : Bool × Nat × Nat × TSLexer :=
  let r := consume_chars lexer 58
  if r.1 < 3 then (false, r.1, 0, r.2)
  else (true, r.1, number_of_blocks_from_top s BlockType.DIV r.1, r.2)

/-- scanner.c lines 397-424. -/
def parse_code_block (s : Scanner) (lexer : TSLexer) (ticks : Nat) :
    Option (Bool × Scanner × TSLexer) :=
  if ticks < 3 then some (false, s, lexer)
  else
    match s.open_blocks with
    | top :: _ =>
      if top.type = BlockType.CODE_BLOCK then
        if top.level = ticks then
          match close_blocks_with_final_token s lexer.mark_end 1
              TokenType.CODE_BLOCK_END 3 with
          | none => none
          | some (s, lexer) => some (true, s, lexer)
        else some (false, s, lexer)
      else
        some (true, push_block s BlockType.CODE_BLOCK ticks,
              lexer.mark_end.set_result TokenType.CODE_BLOCK_START)
    | [] =>
      some (true, push_block s BlockType.CODE_BLOCK ticks,
            lexer.mark_end.set_result TokenType.CODE_BLOCK_START)

/-- scanner.c lines 426-431. -/
def parse_verbatim_start (s : Scanner) (lexer : TSLexer) (ticks : Nat) :
    Option (Bool × Scanner × TSLexer) :=
  some (true, { s with verbatim_tick_count := ticks },
        lexer.mark_end.set_result TokenType.VERBATIM_START)

/-- scanner.c lines 433-442. -/
def parse_verbatim_end (s : Scanner) (lexer : TSLexer) (_ticks : Nat) :
    Option (Bool × Scanner × TSLexer) :=
  if s.verbatim_tick_count = 0 then some (false, s, lexer)
  else
    some (true, { s with verbatim_tick_count := 0 },
          lexer.mark_end.set_result TokenType.VERBATIM_END)

/-- scanner.c lines 444-452. -/
def try_close_verbatim (s : Scanner) (lexer : TSLexer) :
    Option (Bool × Scanner × TSLexer) :=
  if s.verbatim_tick_count > 0 then
    some (true, { s with verbatim_tick_count := 0 },
          lexer.set_result TokenType.VERBATIM_END)
  else some (false, s, lexer)

/-- The loop of `parse_verbatim_content` (scanner.c lines 460-486). Every turn
of the loop that does not leave it consumes at least one character, so
`fuel = length of the text at the cursor` turns always suffice. -/
def parse_verbatim_content_loop : Nat → Scanner → TSLexer → Scanner × TSLexer
  | 0, s, lexer => (s, lexer)
  | fuel + 1, s, lexer =>
    if lexer.eof then (s, lexer)
    else if lexer.lookahead = 10 then (s, lexer)
    else if lexer.lookahead = 96 then
      let r := consume_chars lexer 96
      if r.1 = s.verbatim_tick_count then
        (set_delayed_token { s with verbatim_tick_count := 0 } TokenType.VERBATIM_END r.1,
         r.2)
      else parse_verbatim_content_loop fuel s r.2.mark_end
    else parse_verbatim_content_loop fuel s lexer.advance.mark_end

/-- scanner.c lines 454-489. -/
def parse_verbatim_content (s : Scanner) (lexer : TSLexer) :
    Option (Bool × Scanner × TSLexer) :=
  if s.verbatim_tick_count = 0 then some (false, s, lexer)
  else
    let r := parse_verbatim_content_loop lexer.input.length s lexer
    some (true, r.1, r.2.set_result TokenType.VERBATIM_CONTENT)

/-- One statement of the decision cascade of
`tree_sitter_djot_external_scanner_scan`: it either returns `true` from the
scan (flag `true`) or lets the scan go on to the next statement (flag
`false`), with the scanner and the cursor as it leaves them. -/
abbrev Rule := Scanner → TSLexer → Option (Bool × Scanner × TSLexer)

/-- Running statements in order until one returns `true` or an assertion fails. -/
def cascade : List Rule → Rule
  | [], s, lexer => some (false, s, lexer)
  | rule :: rest, s, lexer =>
    match rule s lexer with
    | none => none
    | some (true, s, lexer) => some (true, s, lexer)
    | some (false, s, lexer) => cascade rest s lexer

/-- The shape `if (cond && f(s, lexer)) return true;`: `f` runs only when
`cond` holds. -/
def guarded (cond : Bool) (f : Rule) : Rule :=
  fun s lexer => if cond then f s lexer else some (false, s, lexer)

/-- scanner.c lines 491-512: after the backticks are counted, three guarded
statements in order. -/
def parse_backtick (s : Scanner) (lexer : TSLexer) (valid_symbols : TokenType → Bool) :
    Option (Bool × Scanner × TSLexer) :=
  let r := consume_chars lexer 96
  let ticks := r.1
  if ticks = 0 then some (false, s, r.2)
  else
    cascade
      [ guarded (valid_symbols .CODE_BLOCK_START || valid_symbols .BLOCK_CLOSE)
          (fun s lexer => parse_code_block s lexer ticks),
        guarded (valid_symbols .VERBATIM_END)
          (fun s lexer => parse_verbatim_end s lexer ticks),
        guarded (valid_symbols .VERBATIM_START)
          (fun s lexer => parse_verbatim_start s lexer ticks) ]
      s r.2

/-- scanner.c lines 701-710. -/
def scan_eof_or_blankline (lexer : TSLexer) : Bool × TSLexer :=
  if lexer.eof then (true, lexer)
  else if lexer.lookahead = 10 then (true, lexer.advance)
  else (false, lexer)

/-- scanner.c lines 712-720. -/
def parse_eof_or_blankline (s : Scanner) (lexer : TSLexer) :
    Option (Bool × Scanner × TSLexer) :=
  let r := scan_eof_or_blankline lexer
  if !r.1 then some (false, s, r.2)
  else some (true, s, r.2.mark_end.set_result TokenType.EOF_OR_BLANKLINE)

/-- scanner.c lines 722-735. -/
def should_close_paragraph (s : Scanner) (lexer : TSLexer) : Bool × TSLexer :=
  let r := scan_div_marker s lexer
  if r.1 then (true, r.2.2.2)
  else
    let r := scan_list_marker r.2.2.2
    if r.1 then (true, r.2) else (false, r.2)

/-- scanner.c lines 737-744. -/
def parse_close_paragraph (s : Scanner) (lexer : TSLexer) :
    Option (Bool × Scanner × TSLexer) :=
  let r := should_close_paragraph s lexer
  if r.1 then some (true, s, r.2.set_result TokenType.CLOSE_PARAGRAPH)
  else some (false, s, r.2)

/-- scanner.c lines 746-764. The `peek_block` inside `if (any_block(s))` has a
non-empty stack, so its assertion holds. -/
def ensure_list_open (s : Scanner) (type : BlockType) (indent : Nat) : Scanner :=
  match s.open_blocks with
  | top :: _ =>
    if top.type = type ∧ top.level = indent then s
    else push_block s type indent
  | [] => push_block s type indent

/-- scanner.c lines 766-778. `s->whitespace + 1` is passed to a `uint8_t`
parameter. -/
def handle_ordered_list_marker (s : Scanner) (lexer : TSLexer)
    (valid_symbols : TokenType → Bool) (marker : TokenType) :
    Option (Bool × Scanner × TSLexer) :=
  if marker ≠ TokenType.IGNORED ∧ valid_symbols marker = true then
    match list_marker_to_block marker with
    | none => none
    | some type =>
      some (true, ensure_list_open s type ((s.whitespace + 1) % 256),
            (lexer.set_result marker).mark_end)
  else some (false, s, lexer)

/-- The loop of `consume_line_with_char_or_whitespace` (scanner.c lines
786-797); `seen` is a `uint8_t`, and the `return 0` inside the loop is the
third branch. -/
def consume_line_with_char_or_whitespace_loop (c : Nat) :
    List Nat → Nat → Nat × List Nat
  | [], seen => (seen, [])
  | x :: xs, seen =>
    if x = c then consume_line_with_char_or_whitespace_loop c xs ((seen + 1) % 256)
    else if x = 32 ∨ x = 9 then consume_line_with_char_or_whitespace_loop c xs seen
    else if x = 10 then (seen, x :: xs)
    else (0, x :: xs)

/-- scanner.c lines 783-799. -/
def consume_line_with_char_or_whitespace (lexer : TSLexer) (c : Nat) : Nat × TSLexer :=
  let r := consume_line_with_char_or_whitespace_loop c lexer.input 0
  (r.1, { lexer with input := r.2 })

/-- scanner.c lines 803-835. The `&&` of line 819-821 calls
`consume_line_with_char_or_whitespace` only when the thematic break is
acceptable. -/
def parse_list_marker_or_thematic_break (s : Scanner) (lexer : TSLexer)
    (valid_symbols : TokenType → Bool) (marker : Nat) (marker_type : TokenType)
    (list_type : BlockType) (thematic_break_type : TokenType) :
    Option (Bool × Scanner × TSLexer) :=
  if !valid_symbols marker_type && !valid_symbols thematic_break_type then
    some (false, s, lexer)
  else if lexer.lookahead ≠ marker then none
  else
    let lexer := lexer.advance
    let can_be_list_marker := valid_symbols marker_type && decide (lexer.lookahead = 32)
    let r := if valid_symbols thematic_break_type then
               consume_line_with_char_or_whitespace lexer marker
             else (0, lexer)
    let can_be_thematic_break := valid_symbols thematic_break_type && decide (r.1 ≥ 2)
    if can_be_thematic_break then
      some (true, s, (r.2.set_result thematic_break_type).mark_end)
    else if can_be_list_marker then
      some (true, ensure_list_open s list_type ((s.whitespace + 1) % 256),
            (r.2.set_result marker_type).mark_end)
    else some (false, s, r.2)

/-- scanner.c lines 837-841. -/
def parse_dash (s : Scanner) (lexer : TSLexer) (valid_symbols : TokenType → Bool) :
    Option (Bool × Scanner × TSLexer) :=
  parse_list_marker_or_thematic_break s lexer valid_symbols 45
    TokenType.LIST_MARKER_DASH BlockType.LIST_DASH TokenType.THEMATIC_BREAK_DASH

/-- scanner.c lines 843-847. -/
def parse_star (s : Scanner) (lexer : TSLexer) (valid_symbols : TokenType → Bool) :
    Option (Bool × Scanner × TSLexer) :=
  parse_list_marker_or_thematic_break s lexer valid_symbols 42
    TokenType.LIST_MARKER_STAR BlockType.LIST_STAR TokenType.THEMATIC_BREAK_STAR

/-- scanner.c lines 849-859. -/
def parse_bullet_list_marker (s : Scanner) (lexer : TSLexer) (marker : Nat)
    (token_type : TokenType) (block_type : BlockType) :
    Option (Bool × Scanner × TSLexer) :=
  let r := scan_bullet_list_marker lexer marker
  if !r.1 then some (false, s, r.2)
  else
    some (true, ensure_list_open s block_type ((s.whitespace + 1) % 256),
          (r.2.set_result token_type).mark_end)

/-- scanner.c lines 861-863. -/
def parse_list_marker_plus (s : Scanner) (lexer : TSLexer) :
    Option (Bool × Scanner × TSLexer) :=
  parse_bullet_list_marker s lexer 43 TokenType.LIST_MARKER_PLUS BlockType.LIST_PLUS

/-- scanner.c lines 865-892. -/
def parse_list_item_end (s : Scanner) (lexer : TSLexer)
    (_valid_symbols : TokenType → Bool) : Option (Bool × Scanner × TSLexer) :=
  match s.open_blocks with
  | [] => some (false, s, lexer)
  | list :: _ =>
    if !is_list list.type then some (false, s, lexer)
    else if s.whitespace ≥ list.level then some (false, s, lexer)
    else
      let r := scan_list_marker lexer
      if r.1 then some (true, s, r.2.set_result TokenType.LIST_ITEM_END)
      else
        some (true, { s with blocks_to_close := 1 },
              r.2.set_result TokenType.LIST_ITEM_END)

/-- scanner.c lines 894-938. `consume_chars(...) + 1` is stored into the
`uint8_t colons`. -/
def parse_colon (s : Scanner) (lexer : TSLexer) (valid_symbols : TokenType → Bool) :
    Option (Bool × Scanner × TSLexer) :=
  let can_be_div := valid_symbols .DIV_START || valid_symbols .DIV_END
  if !valid_symbols .LIST_MARKER_DEFINITION && !can_be_div then some (false, s, lexer)
  else if lexer.lookahead ≠ 58 then none
  else
    let lexer := lexer.advance
    if lexer.lookahead = 32 then
      if valid_symbols .LIST_MARKER_DEFINITION then
        some (true, ensure_list_open s BlockType.LIST_DEFINITION ((s.whitespace + 1) % 256),
              (lexer.set_result TokenType.LIST_MARKER_DEFINITION).mark_end)
      else some (false, s, lexer)
    else if !can_be_div then some (false, s, lexer)
    else
      let r := consume_chars lexer 58
      let colons := (r.1 + 1) % 256
      let lexer := r.2
      if colons < 3 then some (false, s, lexer)
      else
        let from_top := number_of_blocks_from_top s BlockType.DIV colons
        if from_top > 0 then
          match close_blocks_with_final_token s lexer from_top TokenType.DIV_END 3 with
          | none => none
          | some (s, lexer) => some (true, s, lexer)
        else
          some (true, push_block s BlockType.DIV colons,
                lexer.mark_end.set_result TokenType.DIV_START)

/-- scanner.c line 962: `assert(s->blocks_to_close == 0)`. -/
def assert_no_blocks_to_close : Rule :=
  fun s lexer => if s.blocks_to_close = 0 then some (false, s, lexer) else none

/-- scanner.c lines 995-1028: the switch on the lookahead. -/
def scan_dispatch (valid_symbols : TokenType → Bool) : Rule :=
  fun s lexer =>
    if lexer.lookahead = 45 then parse_dash s lexer valid_symbols
    else if lexer.lookahead = 42 then parse_star s lexer valid_symbols
    else if lexer.lookahead = 43 then
      guarded (valid_symbols .LIST_MARKER_PLUS) parse_list_marker_plus s lexer
    else if lexer.lookahead = 58 then parse_colon s lexer valid_symbols
    else if lexer.lookahead = 96 then parse_backtick s lexer valid_symbols
    else if lexer.lookahead = 10 then try_close_verbatim s lexer
    else some (false, s, lexer)

/-- scanner.c lines 1030-1045: the ordered marker is scanned once and used by
both statements that follow. -/
def scan_ordered_and_lists (valid_symbols : TokenType → Bool) (non_newline : Bool) : Rule :=
  fun s lexer =>
    let r := scan_ordered_list_marker_token lexer
    cascade
      [ guarded (decide (r.1 ≠ TokenType.IGNORED))
          (fun s lexer => handle_ordered_list_marker s lexer valid_symbols r.1),
        guarded (valid_symbols .BLOCK_CLOSE)
          (fun s lexer => close_lists_if_needed s lexer non_newline r.1) ]
      s r.2

/-- The statements of scanner.c lines 958-1045 in order. In line 983
`lexer->eof` is not called: it is the function pointer, which is never null,
so the condition is `valid_symbols[VERBATIM_END]` alone. -/
def scan_rules (valid_symbols : TokenType → Bool) (non_newline : Bool) : List Rule :=
  [ guarded (valid_symbols .BLOCK_CLOSE) handle_blocks_to_close,
    assert_no_blocks_to_close,
    fun s lexer => output_delayed_token s lexer valid_symbols,
    guarded (valid_symbols .EOF_OR_BLANKLINE) parse_eof_or_blankline,
    guarded (valid_symbols .CLOSE_PARAGRAPH) parse_close_paragraph,
    guarded (valid_symbols .VERBATIM_CONTENT) parse_verbatim_content,
    guarded (valid_symbols .VERBATIM_END && true) try_close_verbatim,
    guarded (valid_symbols .LIST_ITEM_END)
      (fun s lexer => parse_list_item_end s lexer valid_symbols),
    scan_dispatch valid_symbols,
    scan_ordered_and_lists valid_symbols non_newline ]

/-- scanner.c lines 954-956: the scanner and cursor after the first three
statements, and `non_newline`. -/
def scan_entry (s : Scanner) (lexer : TSLexer) : Scanner × TSLexer × Bool :=
  let lexer := lexer.mark_end
  let r := consume_whitespace lexer
  ({ s with whitespace := r.1 }, r.2, decide (r.2.lookahead ≠ 10))

/-- scanner.c lines 940-1048. The flag is the returned `bool`; the token kind
is `result_symbol` of the returned cursor and the token ends at its `marked`. -/
def tree_sitter_djot_external_scanner_scan (s : Scanner) (lexer : TSLexer)
    (valid_symbols : TokenType → Bool) : Option (Bool × Scanner × TSLexer) :=
  let e := scan_entry s lexer
  cascade (scan_rules valid_symbols e.2.2) e.1 e.2.1

/-- scanner.c lines 1050-1057 and 1059-1063: the state `create` returns. -/
def init : Scanner :=
  { open_blocks := [], blocks_to_close := 0, delayed_token := TokenType.IGNORED,
    delayed_token_width := 0, verbatim_tick_count := 0, whitespace := 0 }

/-- scanner.c lines 1059-1063. -/
def tree_sitter_djot_external_scanner_create : Scanner := init

/-- The integer value of a `TokenType` enumerator (scanner.c lines 11-49). -/
def TokenType.toNat : TokenType → Nat
  | .BLOCK_CLOSE => 0
  | .EOF_OR_BLANKLINE => 1
  | .DIV_START => 2
  | .DIV_END => 3
  | .CODE_BLOCK_START => 4
  | .CODE_BLOCK_END => 5
  | .LIST_MARKER_DASH => 6
  | .LIST_MARKER_STAR => 7
  | .LIST_MARKER_PLUS => 8
  | .LIST_MARKER_DEFINITION => 9
  | .LIST_MARKER_DECIMAL_PERIOD => 10
  | .LIST_MARKER_LOWER_ALPHA_PERIOD => 11
  | .LIST_MARKER_UPPER_ALPHA_PERIOD => 12
  | .LIST_MARKER_LOWER_ROMAN_PERIOD => 13
  | .LIST_MARKER_UPPER_ROMAN_PERIOD => 14
  | .LIST_MARKER_DECIMAL_PAREN => 15
  | .LIST_MARKER_LOWER_ALPHA_PAREN => 16
  | .LIST_MARKER_UPPER_ALPHA_PAREN => 17
  | .LIST_MARKER_LOWER_ROMAN_PAREN => 18
  | .LIST_MARKER_UPPER_ROMAN_PAREN => 19
  | .LIST_MARKER_DECIMAL_PARENS => 20
  | .LIST_MARKER_LOWER_ALPHA_PARENS => 21
  | .LIST_MARKER_UPPER_ALPHA_PARENS => 22
  | .LIST_MARKER_LOWER_ROMAN_PARENS => 23
  | .LIST_MARKER_UPPER_ROMAN_PARENS => 24
  | .LIST_ITEM_END => 25
  | .CLOSE_PARAGRAPH => 26
  | .THEMATIC_BREAK_DASH => 27
  | .THEMATIC_BREAK_STAR => 28
  | .VERBATIM_START => 29
  | .VERBATIM_END => 30
  | .VERBATIM_CONTENT => 31
  | .ERROR => 32
  | .IGNORED => 33

/-- The cast `(TokenType)buffer[i]` of a stored byte; `none` where the byte is
the value of no enumerator. -/
def TokenType.ofByte (b : Nat) : Option TokenType :=
  [TokenType.BLOCK_CLOSE, .EOF_OR_BLANKLINE, .DIV_START, .DIV_END, .CODE_BLOCK_START,
   .CODE_BLOCK_END, .LIST_MARKER_DASH, .LIST_MARKER_STAR, .LIST_MARKER_PLUS,
   .LIST_MARKER_DEFINITION, .LIST_MARKER_DECIMAL_PERIOD, .LIST_MARKER_LOWER_ALPHA_PERIOD,
   .LIST_MARKER_UPPER_ALPHA_PERIOD, .LIST_MARKER_LOWER_ROMAN_PERIOD,
   .LIST_MARKER_UPPER_ROMAN_PERIOD, .LIST_MARKER_DECIMAL_PAREN,
   .LIST_MARKER_LOWER_ALPHA_PAREN, .LIST_MARKER_UPPER_ALPHA_PAREN,
   .LIST_MARKER_LOWER_ROMAN_PAREN, .LIST_MARKER_UPPER_ROMAN_PAREN,
   .LIST_MARKER_DECIMAL_PARENS, .LIST_MARKER_LOWER_ALPHA_PARENS,
   .LIST_MARKER_UPPER_ALPHA_PARENS, .LIST_MARKER_LOWER_ROMAN_PARENS,
   .LIST_MARKER_UPPER_ROMAN_PARENS, .LIST_ITEM_END, .CLOSE_PARAGRAPH,
   .THEMATIC_BREAK_DASH, .THEMATIC_BREAK_STAR, .VERBATIM_START, .VERBATIM_END,
   .VERBATIM_CONTENT, .ERROR, .IGNORED].find? (fun t => t.toNat = b)

/-- The integer value of a `BlockType` enumerator (scanner.c lines 51-73). -/
def BlockType.toNat : BlockType → Nat
  | .DIV => 0
  | .CODE_BLOCK => 1
  | .LIST_DASH => 2
  | .LIST_STAR => 3
  | .LIST_PLUS => 4
  | .LIST_DEFINITION => 5
  | .LIST_DECIMAL_PERIOD => 6
  | .LIST_LOWER_ALPHA_PERIOD => 7
  | .LIST_UPPER_ALPHA_PERIOD => 8
  | .LIST_LOWER_ROMAN_PERIOD => 9
  | .LIST_UPPER_ROMAN_PERIOD => 10
  | .LIST_DECIMAL_PAREN => 11
  | .LIST_LOWER_ALPHA_PAREN => 12
  | .LIST_UPPER_ALPHA_PAREN => 13
  | .LIST_LOWER_ROMAN_PAREN => 14
  | .LIST_UPPER_ROMAN_PAREN => 15
  | .LIST_DECIMAL_PARENS => 16
  | .LIST_LOWER_ALPHA_PARENS => 17
  | .LIST_UPPER_ALPHA_PARENS => 18
  | .LIST_LOWER_ROMAN_PARENS => 19
  | .LIST_UPPER_ROMAN_PARENS => 20

/-- The cast `(BlockType)buffer[i]` of a stored byte; `none` where the byte is
the value of no enumerator. -/
def BlockType.ofByte (b : Nat) : Option BlockType :=
  [BlockType.DIV, .CODE_BLOCK, .LIST_DASH, .LIST_STAR, .LIST_PLUS, .LIST_DEFINITION,
   .LIST_DECIMAL_PERIOD, .LIST_LOWER_ALPHA_PERIOD, .LIST_UPPER_ALPHA_PERIOD,
   .LIST_LOWER_ROMAN_PERIOD, .LIST_UPPER_ROMAN_PERIOD, .LIST_DECIMAL_PAREN,
   .LIST_LOWER_ALPHA_PAREN, .LIST_UPPER_ALPHA_PAREN, .LIST_LOWER_ROMAN_PAREN,
   .LIST_UPPER_ROMAN_PAREN, .LIST_DECIMAL_PARENS, .LIST_LOWER_ALPHA_PARENS,
   .LIST_UPPER_ALPHA_PARENS, .LIST_LOWER_ROMAN_PARENS,
   .LIST_UPPER_ROMAN_PARENS].find? (fun t => t.toNat = b)

/-- The loop of scanner.c lines 1083-1087 over `items[0], items[1], ...`: two
bytes per block, each the low eight bits of the field. -/
def serialize_blocks : List Block → List Nat
  | [] => []
  | b :: rest => (b.type.toNat % 256) :: (b.level % 256) :: serialize_blocks rest

/-- scanner.c lines 1073-1090: the bytes written to `buffer`, in order; the
returned `size` is their number. `items[0], ..., items[size-1]` is the reverse
of `open_blocks`. -/
def tree_sitter_djot_external_scanner_serialize (s : Scanner) : List Nat :=
  (s.blocks_to_close % 256) :: (s.delayed_token.toNat % 256) ::
    (s.delayed_token_width % 256) :: (s.verbatim_tick_count % 256) ::
    (s.whitespace % 256) :: serialize_blocks s.open_blocks.reverse

/-- The loop of scanner.c lines 1105-1109. `none` where the loop reads a byte
behind the `length` bytes it was given or a byte that is no block type. -/
def deserialize_blocks : List Nat → Scanner → Option Scanner
  | [], s => some s
  | [_], _ => none
  | t :: l :: rest, s =>
    match BlockType.ofByte t with
    | none => none
    | some type => deserialize_blocks rest (push_block s type (l % 256))

/-- scanner.c lines 1092-1112 on the `length` bytes of `buffer`. The state in
`payload` is overwritten by `init`. `none` where the code reads a byte behind
the `length` bytes it was given (a length of 1 to 4, or an odd number of block
bytes) or a byte that is no enumerator. -/
def tree_sitter_djot_external_scanner_deserialize (_payload : Scanner)
    (buffer : List Nat) : Option Scanner :=
  match buffer with
  | [] => some init
  | b0 :: b1 :: b2 :: b3 :: b4 :: rest =>
    match TokenType.ofByte b1 with
    | none => none
    | some token =>
      deserialize_blocks rest
        { init with
          blocks_to_close := b0 % 256
          delayed_token := token
          delayed_token_width := b2 % 256
          verbatim_tick_count := b3 % 256
          whitespace := b4 % 256 }
  | _ => none

/-- One call of the scan function by the runtime: the text at the cursor and
the valid-symbol set. -/
structure Call where
  input : List Nat
  valid_symbols : TokenType → Bool

/-- What one call did: the scanner before it, the returned flag, the
`result_symbol` it left and the scanner after it. -/
structure Outcome where
  before : Scanner
  returned : Bool
  symbol : TokenType
  after : Scanner
  deriving DecidableEq, Repr

/-- A sequence of scan calls on one scanner, each at its own text and
valid-symbol set; `none` when a call fails an assertion. -/
def scan_calls : Scanner → List Call → Option (Scanner × List Outcome)
  | s, [] => some (s, [])
  | s, c :: cs =>
    match tree_sitter_djot_external_scanner_scan s (TSLexer.start c.input)
        c.valid_symbols with
    | none => none
    | some (ok, s1, lexer) =>
      match scan_calls s1 cs with
      | none => none
      | some (sf, trace) =>
        some (sf, { before := s, returned := ok, symbol := lexer.result_symbol,
                    after := s1 } :: trace)

/-- The scan call on `s`, `lexer` and `valid_symbols` arrives at statement
number `k` of `scan_rules` (0 for the close cascade, 7 for the list-item-end
rule, 8 for the character dispatch, 9 for the ordered-marker scan) with scanner
`s1` and cursor `lexer1`: every earlier statement has let the scan go on. -/
def reaches (k : Nat) (s : Scanner) (lexer : TSLexer) (valid_symbols : TokenType → Bool)
    (s1 : Scanner) (lexer1 : TSLexer) : Prop :=
  cascade ((scan_rules valid_symbols (scan_entry s lexer).2.2).take k)
    (scan_entry s lexer).1 (scan_entry s lexer).2.1 = some (false, s1, lexer1)

instance (k : Nat) (s : Scanner) (lexer : TSLexer) (valid_symbols : TokenType → Bool)
    (s1 : Scanner) (lexer1 : TSLexer) : Decidable (reaches k s lexer valid_symbols s1 lexer1) := by
  unfold reaches
  infer_instance

/-- Position of the list-item-end rule (scanner.c lines 990-993) in `scan_rules`. -/
def AT_LIST_ITEM_END : Nat := 7

/-- Position of the character dispatch (scanner.c lines 995-1028) in `scan_rules`. -/
def AT_DISPATCH : Nat := 8

/-- The scanner states that scan calls produce from the state of `create`,
whatever the texts and valid-symbol sets of the calls, and whether a call
returns `true` or `false`. -/
inductive Reachable : Scanner → Prop
  | create : Reachable tree_sitter_djot_external_scanner_create
  | scan (s : Scanner) (lexer : TSLexer) (valid_symbols : TokenType → Bool)
      (ok : Bool) (s1 : Scanner) (lexer1 : TSLexer) :
      Reachable s →
      tree_sitter_djot_external_scanner_scan s lexer valid_symbols = some (ok, s1, lexer1) →
      Reachable s1

/-- What a scan call that returns `true` does to the scanner, case by case:
`Effect valid_symbols s s1 t` says that from the scanner `s` (with the
`whitespace` of this call already stored) the call may return the token kind
`t` and leave the scanner `s1`. One constructor per `return true` of the
source, with the conditions under which the code takes it. -/
inductive Effect (valid_symbols : TokenType → Bool) (s : Scanner) :
    Scanner → TokenType → Prop
  /-- From `handle_blocks_to_close` (line 959) and `close_lists_if_needed` (line 1042). -/
  | close (s1 : Scanner) :
      valid_symbols .BLOCK_CLOSE = true → pop_block s = some s1 →
      Effect valid_symbols s s1 .BLOCK_CLOSE
  /-- From `output_delayed_token` (line 965). -/
  | delayed :
      s.delayed_token ≠ .IGNORED →
      Effect valid_symbols s
        { s with delayed_token := .IGNORED, delayed_token_width := 255 } s.delayed_token
  /-- From `parse_eof_or_blankline` (line 971). -/
  | blankline :
      valid_symbols .EOF_OR_BLANKLINE = true → Effect valid_symbols s s .EOF_OR_BLANKLINE
  /-- From `parse_close_paragraph` (line 974). -/
  | close_paragraph :
      valid_symbols .CLOSE_PARAGRAPH = true → Effect valid_symbols s s .CLOSE_PARAGRAPH
  /-- From `parse_verbatim_content` (line 980) stopping at a newline or the end of input. -/
  | verbatim_content :
      valid_symbols .VERBATIM_CONTENT = true → s.verbatim_tick_count ≠ 0 →
      Effect valid_symbols s s .VERBATIM_CONTENT
  /-- From `parse_verbatim_content` (line 980) stopping at the closing backticks. -/
  | verbatim_content_closing :
      valid_symbols .VERBATIM_CONTENT = true → s.verbatim_tick_count ≠ 0 →
      Effect valid_symbols s
        { s with verbatim_tick_count := 0, delayed_token := .VERBATIM_END,
                 delayed_token_width := s.verbatim_tick_count } .VERBATIM_CONTENT
  /-- From `try_close_verbatim` (line 984) and `parse_verbatim_end` (line 505). -/
  | verbatim_end :
      valid_symbols .VERBATIM_END = true → s.verbatim_tick_count ≠ 0 →
      Effect valid_symbols s { s with verbatim_tick_count := 0 } .VERBATIM_END
  /-- From `try_close_verbatim` at a newline (line 1022). -/
  | verbatim_end_newline :
      s.verbatim_tick_count ≠ 0 →
      Effect valid_symbols s { s with verbatim_tick_count := 0 } .VERBATIM_END
  /-- From `parse_list_item_end` (line 991) with a list marker at the cursor. -/
  | list_item_end (list : Block) (rest : List Block) :
      valid_symbols .LIST_ITEM_END = true → s.open_blocks = list :: rest →
      is_list list.type = true → s.whitespace < list.level →
      Effect valid_symbols s s .LIST_ITEM_END
  /-- From `parse_list_item_end` (line 991) with no list marker at the cursor. -/
  | list_item_end_closing (list : Block) (rest : List Block) :
      valid_symbols .LIST_ITEM_END = true → s.open_blocks = list :: rest →
      is_list list.type = true → s.whitespace < list.level →
      Effect valid_symbols s { s with blocks_to_close := 1 } .LIST_ITEM_END
  /-- From `parse_list_marker_or_thematic_break` (line 823). -/
  | thematic_break (t : TokenType) :
      t = .THEMATIC_BREAK_DASH ∨ t = .THEMATIC_BREAK_STAR → valid_symbols t = true →
      Effect valid_symbols s s t
  /-- The bullet and ordered list markers (lines 827, 857, 904, 771). -/
  | list_marker (t : TokenType) (type : BlockType) :
      valid_symbols t = true → list_marker_to_block t = some type →
      Effect valid_symbols s (ensure_list_open s type ((s.whitespace + 1) % 256)) t
  /-- From `parse_colon` closing down to an open division (line 929). -/
  | div_close (colons : Nat) (top : Block) (rest : List Block) :
      valid_symbols .DIV_START = true ∨ valid_symbols .DIV_END = true →
      3 ≤ colons → colons < 256 →
      0 < number_of_blocks_from_top s .DIV colons →
      s.blocks_to_close = 0 → s.open_blocks = top :: rest →
      Effect valid_symbols s
        { s with open_blocks := rest, delayed_token := .DIV_END, delayed_token_width := 3,
                 blocks_to_close := (number_of_blocks_from_top s .DIV colons + 255) % 256 }
        .BLOCK_CLOSE
  /-- From `parse_colon` opening a division (line 934). -/
  | div_open (colons : Nat) :
      valid_symbols .DIV_START = true ∨ valid_symbols .DIV_END = true →
      3 ≤ colons → colons < 256 →
      number_of_blocks_from_top s .DIV colons = 0 →
      Effect valid_symbols s (push_block s .DIV colons) .DIV_START
  /-- From `parse_code_block` closing the code block on top (line 410). -/
  | code_close (ticks : Nat) (top : Block) (rest : List Block) :
      valid_symbols .CODE_BLOCK_START = true ∨ valid_symbols .BLOCK_CLOSE = true →
      3 ≤ ticks → s.blocks_to_close = 0 → s.open_blocks = top :: rest →
      top = { type := .CODE_BLOCK, level := ticks } →
      Effect valid_symbols s
        { s with open_blocks := rest, delayed_token := .CODE_BLOCK_END,
                 delayed_token_width := 3, blocks_to_close := 0 }
        .BLOCK_CLOSE
  /-- From `parse_code_block` opening a code block (line 421). -/
  | code_open (ticks : Nat) :
      valid_symbols .CODE_BLOCK_START = true ∨ valid_symbols .BLOCK_CLOSE = true →
      3 ≤ ticks → ticks < 256 →
      (∀ top rest, s.open_blocks = top :: rest → top.type ≠ .CODE_BLOCK) →
      Effect valid_symbols s (push_block s .CODE_BLOCK ticks) .CODE_BLOCK_START
  /-- From `parse_verbatim_start` (line 508). -/
  | verbatim_start (ticks : Nat) :
      valid_symbols .VERBATIM_START = true → 0 < ticks → ticks < 256 →
      Effect valid_symbols s { s with verbatim_tick_count := ticks } .VERBATIM_START

/-- The statement `rule` keeps to `Effect`: when it returns `true` the scanner
and the token kind it leaves are one of the cases of `Effect`, and when it lets
the scan go on it leaves the scanner as it found it. -/
def RuleOk (valid_symbols : TokenType → Bool) (rule : Rule) : Prop :=
  ∀ s lexer s1 lexer1,
    (rule s lexer = some (true, s1, lexer1) → Effect valid_symbols s s1 lexer1.result_symbol) ∧
    (rule s lexer = some (false, s1, lexer1) → s1 = s)

/-- The token kinds that can come with a new block: `DIV_START`,
`CODE_BLOCK_START` and the list markers. -/
def opens_block (t : TokenType) : Bool :=
  decide (t = .DIV_START) || decide (t = .CODE_BLOCK_START) || (list_marker_to_block t).isSome

/-- The call returned `true` with `BLOCK_CLOSE`. -/
def Outcome.is_close (o : Outcome) : Bool :=
  o.returned && decide (o.symbol = .BLOCK_CLOSE)

/-- The call left the stack one block deeper than it found it. -/
def Outcome.is_push (o : Outcome) : Bool :=
  decide (o.after.open_blocks.length = o.before.open_blocks.length + 1)

/-- Number of `BLOCK_CLOSE` tokens emitted by a sequence of calls. -/
def count_closes (trace : List Outcome) : Nat := (trace.filter Outcome.is_close).length

/-- Number of blocks pushed by a sequence of calls. -/
def count_pushes (trace : List Outcome) : Nat := (trace.filter Outcome.is_push).length

/-- The delayed token is one of the kinds the scanner ever buffers, or none. -/
def delayed_token_ok (s : Scanner) : Prop :=
  s.delayed_token = .IGNORED ∨ s.delayed_token = .DIV_END ∨
  s.delayed_token = .CODE_BLOCK_END ∨ s.delayed_token = .VERBATIM_END

/-- The `n` calls that alternate the texts `- ` (with only `LIST_MARKER_DASH`
acceptable) and `* ` (with only `LIST_MARKER_STAR` acceptable), ending with
`- `. -/
def alternating_markers : Nat → List Call
  | 0 => []
  | n + 1 =>
    (if n % 2 = 0 then { input := [45, 32], valid_symbols := fun t => decide (t = .LIST_MARKER_DASH) }
     else { input := [42, 32], valid_symbols := fun t => decide (t = .LIST_MARKER_STAR) })
      :: alternating_markers n

/-- The columns of leading whitespace of a text, counted without a bound: 1 for
a space and 4 for a tab, up to the first other character. It is the count that
`consume_whitespace` (scanner.c lines 201-215) keeps in a `uint8_t`. -/
def leading_columns : List Nat → Nat
  | [] => 0
  | x :: xs =>
    if x = 32 then leading_columns xs + 1
    else if x = 9 then leading_columns xs + 4
    else 0

/-- The alphabets that `scan_ordered_list_type` (scanner.c lines 591-620) tries
before it tries `type`. -/
def tried_before : OrderedListType → List OrderedListType
  | .DECIMAL => []
  | .LOWER_ROMAN => [.DECIMAL]
  | .UPPER_ROMAN => [.DECIMAL, .LOWER_ROMAN]
  | .LOWER_ALPHA => [.DECIMAL, .LOWER_ROMAN, .UPPER_ROMAN]
  | .UPPER_ALPHA => [.DECIMAL, .LOWER_ROMAN, .UPPER_ROMAN, .LOWER_ALPHA]

/-- The length of the run of backticks a text begins with, counted without a
bound. -/
def backtick_run : List Nat → Nat
  | [] => 0
  | x :: xs => if x = 96 then backtick_run xs + 1 else 0

/-- The length of the longest run of backticks in a text. -/
def longest_backtick_run : List Nat → Nat
  | [] => 0
  | x :: xs => max (backtick_run (x :: xs)) (longest_backtick_run xs)

/-- The end of the verbatim content in the words of the specification, for a
span opened with `k` backticks: walking the text, stop at a newline, at the end
of the text, or at the start of a maximal run of exactly `k` backticks; a run
of any other length is content and is walked over whole. Returns the text from
the stopping point on and whether the stop is such a closing run. The first
argument bounds the number of steps; the length of the text is enough. -/
def verbatim_content_end_loop (k : Nat) : Nat → List Nat → List Nat × Bool
  | 0, text => (text, false)
  | _ + 1, [] => ([], false)
  | fuel + 1, x :: xs =>
    if x = 10 then (x :: xs, false)
    else if x = 96 then
      if backtick_run (x :: xs) = k then (x :: xs, true)
      else verbatim_content_end_loop k fuel ((x :: xs).drop (backtick_run (x :: xs)))
    else verbatim_content_end_loop k fuel xs

/-- The end of the verbatim content of `text` in the words of the
specification, see `verbatim_content_end_loop`. -/
def verbatim_content_end (k : Nat) (text : List Nat) : List Nat × Bool :=
  verbatim_content_end_loop k text.length text

/-- Position of the paragraph-close rule (scanner.c lines 974-976) in `scan_rules`. -/
def AT_CLOSE_PARAGRAPH : Nat := 4

/-- Position of the verbatim-content rule (scanner.c lines 980-982) in `scan_rules`. -/
def AT_VERBATIM_CONTENT : Nat := 5

/-- Position of the verbatim close at the end of input (scanner.c lines
983-987) in `scan_rules`. -/
def AT_VERBATIM_END : Nat := 6

/-- The statement `rule` fails no assertion on the scanner `s`, whatever the
cursor: it returns `true` or lets the scan go on. -/
def RuleSafe (rule : Rule) (s : Scanner) : Prop :=
  ∀ lexer : TSLexer, ∃ r, rule s lexer = some r

/-- The scanner states that scan calls produce from the state of `create` while
the stack stays within its capacity: no state on the way has more than
`STACK_SIZE` open blocks, so that no `push_block` has stored outside `items`
and the list of the model is the stack of the code. -/
inductive ReachableInCapacity : Scanner → Prop
  | create : ReachableInCapacity tree_sitter_djot_external_scanner_create
  | scan (s : Scanner) (lexer : TSLexer) (valid_symbols : TokenType → Bool)
      (ok : Bool) (s1 : Scanner) (lexer1 : TSLexer) :
      ReachableInCapacity s →
      tree_sitter_djot_external_scanner_scan s lexer valid_symbols = some (ok, s1, lexer1) →
      s1.open_blocks.length ≤ STACK_SIZE →
      ReachableInCapacity s1

/-- The bullet list marker of a bullet character, in the words of the
specification: `-`, `*`, `+` and `:`. -/
def bullet_marker (c : Nat) : Option TokenType :=
  if c = 45 then some .LIST_MARKER_DASH
  else if c = 42 then some .LIST_MARKER_STAR
  else if c = 43 then some .LIST_MARKER_PLUS
  else if c = 58 then some .LIST_MARKER_DEFINITION
  else none

/-- The text begins with the list marker `m`, in the words of the
specification: a bullet character followed by a space, or an ordered marker,
which is an optional `(`, a non-empty enumerator run of one alphabet (shorter
than 256, with its first character in none of the alphabets tried before) and
then `)` or `.`. The marker is looked for at the first character of the text
and nowhere else. -/
def BeginsWithMarker (text : List Nat) (m : TokenType) : Prop :=
  (∃ c rest, text = c :: 32 :: rest ∧ bullet_marker c = some m) ∨
  (∃ (paren : Bool) (type : OrderedListType) (run : List Nat) (x : Nat) (rest : List Nat),
    text = (if paren then [40] else []) ++ (run ++ x :: rest) ∧
    run ≠ [] ∧ run.length < 256 ∧
    (∀ c ∈ run, matches_ordered_list type (to_char c) = true) ∧
    (∀ t ∈ tried_before type, matches_ordered_list t (to_char (run.headD 0)) = false) ∧
    ((x = 41 ∧ m = (if paren then marker_parens type else marker_paren type)) ∨
     (x = 46 ∧ m = marker_period type)))

theorem token_type_of_byte_to_nat (t : TokenType) : TokenType.ofByte (t.toNat % 256) = some t := by
  cases t <;> rfl

theorem block_type_of_byte_to_nat (t : BlockType) : BlockType.ofByte (t.toNat % 256) = some t := by
  cases t <;> rfl

theorem deserialize_serialize_blocks (l : List Block) (acc : Scanner)
    (hl : ∀ b ∈ l, b.level < 256) :
    deserialize_blocks (serialize_blocks l) acc =
      some { acc with open_blocks := l.reverse ++ acc.open_blocks } := by
  induction l generalizing acc with
  | nil => simp [serialize_blocks, deserialize_blocks]
  | cons b rest ih =>
    have hb : b.level < 256 := hl b (List.mem_cons_self _ _)
    have hrest : ∀ x ∈ rest, x.level < 256 := fun x hx => hl x (List.mem_cons_of_mem _ hx)
    simp only [serialize_blocks, deserialize_blocks, block_type_of_byte_to_nat]
    rw [ih _ hrest]
    simp [push_block, create_block, Nat.mod_eq_of_lt hb]

/-- C1. Round trip: for every scanner state whose four counters and whose block
levels are `uint8_t` values (any stack, any delayed token kind), deserializing
the bytes written by `serialize` gives back the same state: the same block stack
in the same order, `blocks_to_close`, delayed token kind and width,
`verbatim_tick_count` and `whitespace`; whatever state the scanner held before. -/
theorem serialize_deserialize_round_trip (payload s : Scanner)
    (h_close : s.blocks_to_close < 256) (h_width : s.delayed_token_width < 256)
    (h_ticks : s.verbatim_tick_count < 256) (h_ws : s.whitespace < 256)
    (h_levels : ∀ b ∈ s.open_blocks, b.level < 256) :
    tree_sitter_djot_external_scanner_deserialize payload
      (tree_sitter_djot_external_scanner_serialize s) = some s := by
  have hrev : ∀ b ∈ s.open_blocks.reverse, b.level < 256 := by
    intro b hb
    exact h_levels b (List.mem_reverse.mp hb)
  simp only [tree_sitter_djot_external_scanner_serialize,
    tree_sitter_djot_external_scanner_deserialize, token_type_of_byte_to_nat]
  rw [deserialize_serialize_blocks _ _ hrev]
  cases s
  simp_all [init, Nat.mod_eq_of_lt]

/-- C1, at a concrete state: a division holding a dash list with one close owed
and a buffered `DIV_END`. -/
theorem serialize_deserialize_round_trip_witness :
    tree_sitter_djot_external_scanner_deserialize init
      (tree_sitter_djot_external_scanner_serialize
        { open_blocks := [⟨BlockType.LIST_DASH, 200⟩, ⟨BlockType.DIV, 3⟩],
          blocks_to_close := 1, delayed_token := TokenType.DIV_END,
          delayed_token_width := 3, verbatim_tick_count := 0, whitespace := 255 })
      = some
        { open_blocks := [⟨BlockType.LIST_DASH, 200⟩, ⟨BlockType.DIV, 3⟩],
          blocks_to_close := 1, delayed_token := TokenType.DIV_END,
          delayed_token_width := 3, verbatim_tick_count := 0, whitespace := 255 } :=
  serialize_deserialize_round_trip _ _ (by decide) (by decide) (by decide) (by decide)
    (by decide)

/-! ## The cascade -/

theorem cascade_append (l1 l2 : List Rule) (s : Scanner) (lexer : TSLexer) :
    cascade (l1 ++ l2) s lexer =
      match cascade l1 s lexer with
      | none => none
      | some (true, s1, lexer1) => some (true, s1, lexer1)
      | some (false, s1, lexer1) => cascade l2 s1 lexer1 := by
  induction l1 generalizing s lexer with
  | nil => simp [cascade]
  | cons rule rest ih =>
    simp only [List.cons_append, cascade]
    cases h : rule s lexer with
    | none => simp
    | some r =>
      obtain ⟨ok, s1, lexer1⟩ := r
      cases ok <;> simp [ih]

theorem scan_of_reaches {k : Nat} {s : Scanner} {lexer : TSLexer} {valid_symbols : TokenType → Bool}
    {s1 : Scanner} {lexer1 : TSLexer} (h : reaches k s lexer valid_symbols s1 lexer1) :
    tree_sitter_djot_external_scanner_scan s lexer valid_symbols =
      cascade ((scan_rules valid_symbols (scan_entry s lexer).2.2).drop k) s1 lexer1 := by
  unfold reaches at h
  show cascade (scan_rules valid_symbols (scan_entry s lexer).2.2) _ _ = _
  conv_lhs => rw [← List.take_append_drop k (scan_rules valid_symbols (scan_entry s lexer).2.2)]
  rw [cascade_append, h]

/-- A property of the scanner that every statement keeps when it lets the scan
go on is kept by the whole cascade. -/
theorem cascade_false_inv (Q : Scanner → TSLexer → Prop) (rules : List Rule)
    (hdecl : ∀ rule ∈ rules, ∀ s lexer s1 lexer1, Q s lexer →
      rule s lexer = some (false, s1, lexer1) → Q s1 lexer1)
    (s : Scanner) (lexer : TSLexer) (s1 : Scanner) (lexer1 : TSLexer)
    (hq : Q s lexer) (h : cascade rules s lexer = some (false, s1, lexer1)) : Q s1 lexer1 := by
  induction rules generalizing s lexer with
  | nil =>
    simp only [cascade, Option.some.injEq, Prod.mk.injEq, true_and] at h
    obtain ⟨rfl, rfl⟩ := h
    exact hq
  | cons rule rest ih =>
    simp only [cascade] at h
    cases hr : rule s lexer with
    | none => simp [hr] at h
    | some r =>
      obtain ⟨ok, s2, lexer2⟩ := r
      cases ok
      · simp only [hr] at h
        exact ih (fun r hr' => hdecl r (List.mem_cons_of_mem _ hr')) s2 lexer2
          (hdecl rule (List.mem_cons_self _ _) s lexer s2 lexer2 hq hr) h
      · simp [hr] at h

theorem cascade_true_inv (Q R : Scanner → TSLexer → Prop) (rules : List Rule)
    (hdecl : ∀ rule ∈ rules, ∀ s lexer s1 lexer1, Q s lexer →
      rule s lexer = some (false, s1, lexer1) → Q s1 lexer1)
    (htrue : ∀ rule ∈ rules, ∀ s lexer s1 lexer1, Q s lexer →
      rule s lexer = some (true, s1, lexer1) → R s1 lexer1)
    (s : Scanner) (lexer : TSLexer) (s1 : Scanner) (lexer1 : TSLexer)
    (hq : Q s lexer) (h : cascade rules s lexer = some (true, s1, lexer1)) : R s1 lexer1 := by
  induction rules generalizing s lexer with
  | nil => simp [cascade] at h
  | cons rule rest ih =>
    simp only [cascade] at h
    cases hr : rule s lexer with
    | none => simp [hr] at h
    | some r =>
      obtain ⟨ok, s2, lexer2⟩ := r
      cases ok
      · simp only [hr] at h
        exact ih (fun r hr' => hdecl r (List.mem_cons_of_mem _ hr'))
          (fun r hr' => htrue r (List.mem_cons_of_mem _ hr')) s2 lexer2
          (hdecl rule (List.mem_cons_self _ _) s lexer s2 lexer2 hq hr) h
      · simp only [hr, Option.some.injEq, Prod.mk.injEq, true_and] at h
        obtain ⟨rfl, rfl⟩ := h
        exact htrue rule (List.mem_cons_self _ _) s lexer _ _ hq hr

/-! ## Loops -/

theorem consume_chars_loop_lt (c : Nat) (l : List Nat) (count : Nat) (h : count < 256) :
    (consume_chars_loop c l count).1 < 256 := by
  induction l generalizing count with
  | nil => simpa [consume_chars_loop] using h
  | cons x xs ih =>
    simp only [consume_chars_loop]
    split
    · exact ih _ (Nat.mod_lt _ (by decide))
    · exact h

theorem consume_chars_lt (lexer : TSLexer) (c : Nat) : (consume_chars lexer c).1 < 256 :=
  consume_chars_loop_lt c lexer.input 0 (by decide)

theorem output_delayed_token_loop_fst (w : Nat) (lexer : TSLexer) :
    (output_delayed_token_loop w lexer).1 = 255 := by
  induction w generalizing lexer with
  | zero => rfl
  | succ w ih => simpa [output_delayed_token_loop] using ih _

theorem parse_verbatim_content_loop_scanner (fuel : Nat) (s : Scanner) (lexer : TSLexer) :
    (parse_verbatim_content_loop fuel s lexer).1 = s ∨
    (parse_verbatim_content_loop fuel s lexer).1 =
      { s with verbatim_tick_count := 0, delayed_token := .VERBATIM_END,
               delayed_token_width := s.verbatim_tick_count } := by
  induction fuel generalizing lexer with
  | zero => left; rfl
  | succ fuel ih =>
    simp only [parse_verbatim_content_loop]
    split
    · left; rfl
    · split
      · left; rfl
      · split
        · split
          · rename_i h
            right
            simp [set_delayed_token, h]
          · exact ih _
        · exact ih _

/-! ## What each statement does when it returns `true`, and when it does not -/

theorem pop_block_some {s s1 : Scanner} (h : pop_block s = some s1) :
    ∃ top rest, s.open_blocks = top :: rest ∧ s1.open_blocks = rest := by
  unfold pop_block at h
  split at h
  · simp at h
  · rename_i top rest heq
    simp only [Option.some.injEq] at h
    subst h
    exact ⟨top, rest, heq, rfl⟩

theorem handle_blocks_to_close_true {valid_symbols : TokenType → Bool}
    {s s1 : Scanner} {lexer lexer1 : TSLexer}
    (hv : valid_symbols .BLOCK_CLOSE = true)
    (h : handle_blocks_to_close s lexer = some (true, s1, lexer1)) :
    Effect valid_symbols s s1 lexer1.result_symbol := by
  unfold handle_blocks_to_close at h
  split at h
  · simp at h
  · split at h
    · cases hp : pop_block s with
      | none => simp [hp] at h
      | some s2 =>
        simp only [hp, Option.some.injEq, Prod.mk.injEq, true_and] at h
        obtain ⟨rfl, rfl⟩ := h
        exact Effect.close _ hv hp
    · split at h
      · cases hp : pop_block s with
        | none => simp [hp] at h
        | some s2 =>
          simp only [hp, Option.some.injEq, Prod.mk.injEq, true_and] at h
          obtain ⟨rfl, rfl⟩ := h
          exact Effect.close _ hv hp
      · simp at h

theorem handle_blocks_to_close_false {s s1 : Scanner} {lexer lexer1 : TSLexer}
    (h : handle_blocks_to_close s lexer = some (false, s1, lexer1)) :
    s1 = s ∧ lexer1 = lexer := by
  unfold handle_blocks_to_close at h
  split at h
  · simp at h; exact ⟨h.1.symm, h.2.symm⟩
  · split at h
    · cases hp : pop_block s <;> simp [hp] at h
    · split at h
      · cases hp : pop_block s <;> simp [hp] at h
      · simp at h; exact ⟨h.1.symm, h.2.symm⟩

theorem output_delayed_token_true {valid_symbols : TokenType → Bool}
    {s s1 : Scanner} {lexer lexer1 : TSLexer}
    (h : output_delayed_token s lexer valid_symbols = some (true, s1, lexer1)) :
    Effect valid_symbols s s1 lexer1.result_symbol := by
  unfold output_delayed_token at h
  split at h
  · rename_i hne
    simp only [Option.some.injEq, Prod.mk.injEq, true_and] at h
    obtain ⟨rfl, rfl⟩ := h
    simp only [output_delayed_token_loop_fst]
    have : (output_delayed_token_loop s.delayed_token_width
        (lexer.set_result s.delayed_token)).2.mark_end.result_symbol = s.delayed_token := by
      generalize s.delayed_token_width = w
      generalize hl : lexer.set_result s.delayed_token = l
      have hl2 : l.result_symbol = s.delayed_token := by rw [← hl]; rfl
      clear hl
      induction w generalizing l with
      | zero => exact hl2
      | succ w ih => exact ih l.advance hl2
    rw [this]
    exact Effect.delayed hne
  · simp at h

theorem output_delayed_token_false {valid_symbols : TokenType → Bool}
    {s s1 : Scanner} {lexer lexer1 : TSLexer}
    (h : output_delayed_token s lexer valid_symbols = some (false, s1, lexer1)) :
    s1 = s ∧ lexer1 = lexer ∧ s.delayed_token = .IGNORED := by
  unfold output_delayed_token at h
  split at h
  · simp at h
  · rename_i hne
    simp at h hne
    exact ⟨h.1.symm, h.2.symm, hne⟩

/-! ## The cursor -/

@[simp] theorem TSLexer.set_result_result_symbol (lexer : TSLexer) (t : TokenType) :
    (lexer.set_result t).result_symbol = t := rfl

@[simp] theorem TSLexer.mark_end_result_symbol (lexer : TSLexer) :
    lexer.mark_end.result_symbol = lexer.result_symbol := rfl

@[simp] theorem TSLexer.advance_result_symbol (lexer : TSLexer) :
    lexer.advance.result_symbol = lexer.result_symbol := rfl

@[simp] theorem TSLexer.set_result_input (lexer : TSLexer) (t : TokenType) :
    (lexer.set_result t).input = lexer.input := rfl

@[simp] theorem TSLexer.mark_end_input (lexer : TSLexer) :
    lexer.mark_end.input = lexer.input := rfl

@[simp] theorem TSLexer.set_result_marked (lexer : TSLexer) (t : TokenType) :
    (lexer.set_result t).marked = lexer.marked := rfl

@[simp] theorem TSLexer.mark_end_marked (lexer : TSLexer) :
    lexer.mark_end.marked = lexer.input := rfl

@[simp] theorem TSLexer.advance_marked (lexer : TSLexer) :
    lexer.advance.marked = lexer.marked := rfl

@[simp] theorem TSLexer.advance_input (lexer : TSLexer) :
    lexer.advance.input = lexer.input.tail := rfl

@[simp] theorem consume_chars_result_symbol (lexer : TSLexer) (c : Nat) :
    (consume_chars lexer c).2.result_symbol = lexer.result_symbol := rfl

@[simp] theorem consume_line_result_symbol (lexer : TSLexer) (c : Nat) :
    (consume_line_with_char_or_whitespace lexer c).2.result_symbol = lexer.result_symbol := rfl

theorem parse_eof_or_blankline_true {valid_symbols : TokenType → Bool}
    {s s1 : Scanner} {lexer lexer1 : TSLexer}
    (hv : valid_symbols .EOF_OR_BLANKLINE = true)
    (h : parse_eof_or_blankline s lexer = some (true, s1, lexer1)) :
    Effect valid_symbols s s1 lexer1.result_symbol := by
  unfold parse_eof_or_blankline at h
  dsimp only at h
  split at h
  · simp at h
  · simp only [Option.some.injEq, Prod.mk.injEq, true_and] at h
    obtain ⟨rfl, rfl⟩ := h
    exact Effect.blankline hv

theorem parse_eof_or_blankline_false {s s1 : Scanner} {lexer lexer1 : TSLexer}
    (h : parse_eof_or_blankline s lexer = some (false, s1, lexer1)) : s1 = s := by
  unfold parse_eof_or_blankline at h
  dsimp only at h
  split at h <;> simp at h
  exact h.1.symm

theorem parse_close_paragraph_true {valid_symbols : TokenType → Bool}
    {s s1 : Scanner} {lexer lexer1 : TSLexer}
    (hv : valid_symbols .CLOSE_PARAGRAPH = true)
    (h : parse_close_paragraph s lexer = some (true, s1, lexer1)) :
    Effect valid_symbols s s1 lexer1.result_symbol := by
  unfold parse_close_paragraph at h
  dsimp only at h
  split at h
  · simp only [Option.some.injEq, Prod.mk.injEq, true_and] at h
    obtain ⟨rfl, rfl⟩ := h
    exact Effect.close_paragraph hv
  · simp at h

theorem parse_close_paragraph_false {s s1 : Scanner} {lexer lexer1 : TSLexer}
    (h : parse_close_paragraph s lexer = some (false, s1, lexer1)) : s1 = s := by
  unfold parse_close_paragraph at h
  dsimp only at h
  split at h <;> simp at h
  exact h.1.symm

theorem parse_verbatim_content_true {valid_symbols : TokenType → Bool}
    {s s1 : Scanner} {lexer lexer1 : TSLexer}
    (hv : valid_symbols .VERBATIM_CONTENT = true)
    (h : parse_verbatim_content s lexer = some (true, s1, lexer1)) :
    Effect valid_symbols s s1 lexer1.result_symbol := by
  unfold parse_verbatim_content at h
  split at h
  · simp at h
  · rename_i hne
    simp only [Option.some.injEq, Prod.mk.injEq, true_and] at h
    obtain ⟨rfl, rfl⟩ := h
    rcases parse_verbatim_content_loop_scanner lexer.input.length s lexer with h1 | h1
    · rw [h1]; exact Effect.verbatim_content hv hne
    · rw [h1]; exact Effect.verbatim_content_closing hv hne

theorem parse_verbatim_content_false {s s1 : Scanner} {lexer lexer1 : TSLexer}
    (h : parse_verbatim_content s lexer = some (false, s1, lexer1)) :
    s1 = s ∧ lexer1 = lexer := by
  unfold parse_verbatim_content at h
  split at h <;> simp at h
  exact ⟨h.1.symm, h.2.symm⟩

theorem try_close_verbatim_true {s s1 : Scanner} {lexer lexer1 : TSLexer}
    (h : try_close_verbatim s lexer = some (true, s1, lexer1)) :
    s.verbatim_tick_count ≠ 0 ∧ s1 = { s with verbatim_tick_count := 0 } ∧
      lexer1.result_symbol = .VERBATIM_END := by
  unfold try_close_verbatim at h
  split at h
  · rename_i hpos
    simp only [Option.some.injEq, Prod.mk.injEq, true_and] at h
    obtain ⟨rfl, rfl⟩ := h
    exact ⟨by omega, rfl, rfl⟩
  · simp at h

theorem try_close_verbatim_false {s s1 : Scanner} {lexer lexer1 : TSLexer}
    (h : try_close_verbatim s lexer = some (false, s1, lexer1)) :
    s1 = s ∧ lexer1 = lexer := by
  unfold try_close_verbatim at h
  split at h <;> simp at h
  exact ⟨h.1.symm, h.2.symm⟩

theorem parse_list_item_end_true {valid_symbols : TokenType → Bool}
    {s s1 : Scanner} {lexer lexer1 : TSLexer}
    (hv : valid_symbols .LIST_ITEM_END = true)
    (h : parse_list_item_end s lexer valid_symbols = some (true, s1, lexer1)) :
    Effect valid_symbols s s1 lexer1.result_symbol := by
  unfold parse_list_item_end at h
  split at h
  · simp at h
  · rename_i list rest heq
    split at h
    · simp at h
    · rename_i hl
      split at h
      · simp at h
      · rename_i hws
        simp at hl
        dsimp only at h
        split at h
        · simp only [Option.some.injEq, Prod.mk.injEq, true_and] at h
          obtain ⟨rfl, rfl⟩ := h
          exact Effect.list_item_end list rest hv heq hl (by omega)
        · simp only [Option.some.injEq, Prod.mk.injEq, true_and] at h
          obtain ⟨rfl, rfl⟩ := h
          exact Effect.list_item_end_closing list rest hv heq hl (by omega)

theorem parse_list_item_end_false {valid_symbols : TokenType → Bool}
    {s s1 : Scanner} {lexer lexer1 : TSLexer}
    (h : parse_list_item_end s lexer valid_symbols = some (false, s1, lexer1)) :
    s1 = s ∧ lexer1 = lexer := by
  unfold parse_list_item_end at h
  split at h
  · simp at h; exact ⟨h.1.symm, h.2.symm⟩
  · split at h
    · simp at h; exact ⟨h.1.symm, h.2.symm⟩
    · split at h
      · simp at h; exact ⟨h.1.symm, h.2.symm⟩
      · dsimp only at h
        split at h <;> simp at h

theorem parse_list_marker_or_thematic_break_true {valid_symbols : TokenType → Bool}
    {s s1 : Scanner} {lexer lexer1 : TSLexer} {marker : Nat} {marker_type : TokenType}
    {list_type : BlockType} {thematic_break_type : TokenType}
    (hm : list_marker_to_block marker_type = some list_type)
    (ht : thematic_break_type = .THEMATIC_BREAK_DASH ∨ thematic_break_type = .THEMATIC_BREAK_STAR)
    (h : parse_list_marker_or_thematic_break s lexer valid_symbols marker marker_type
      list_type thematic_break_type = some (true, s1, lexer1)) :
    Effect valid_symbols s s1 lexer1.result_symbol := by
  simp only [parse_list_marker_or_thematic_break] at h
  split_ifs at h
  all_goals first
    | (simp at h; done)
    | (simp only [Option.some.injEq, Prod.mk.injEq, true_and] at h
       obtain ⟨rfl, rfl⟩ := h
       refine Effect.thematic_break _ ht ?_
       simp_all)
    | (simp only [Option.some.injEq, Prod.mk.injEq, true_and] at h
       obtain ⟨rfl, rfl⟩ := h
       refine Effect.list_marker _ _ ?_ hm
       simp_all)

theorem parse_list_marker_or_thematic_break_false {valid_symbols : TokenType → Bool}
    {s s1 : Scanner} {lexer lexer1 : TSLexer} {marker : Nat} {marker_type : TokenType}
    {list_type : BlockType} {thematic_break_type : TokenType}
    (h : parse_list_marker_or_thematic_break s lexer valid_symbols marker marker_type
      list_type thematic_break_type = some (false, s1, lexer1)) : s1 = s := by
  simp only [parse_list_marker_or_thematic_break] at h
  split_ifs at h
  all_goals first
    | (simp at h; done)
    | (simp only [Option.some.injEq, Prod.mk.injEq, true_and] at h
       exact h.1.symm)

theorem parse_list_marker_plus_true {valid_symbols : TokenType → Bool}
    {s s1 : Scanner} {lexer lexer1 : TSLexer}
    (hv : valid_symbols .LIST_MARKER_PLUS = true)
    (h : parse_list_marker_plus s lexer = some (true, s1, lexer1)) :
    Effect valid_symbols s s1 lexer1.result_symbol := by
  unfold parse_list_marker_plus parse_bullet_list_marker at h
  dsimp only at h
  split at h
  · simp at h
  · simp only [Option.some.injEq, Prod.mk.injEq, true_and] at h
    obtain ⟨rfl, rfl⟩ := h
    exact Effect.list_marker _ _ hv rfl

theorem parse_list_marker_plus_false {s s1 : Scanner} {lexer lexer1 : TSLexer}
    (h : parse_list_marker_plus s lexer = some (false, s1, lexer1)) : s1 = s := by
  unfold parse_list_marker_plus parse_bullet_list_marker at h
  dsimp only at h
  split at h <;> simp at h
  exact h.1.symm

theorem RuleOk.of_true_false {valid_symbols : TokenType → Bool} {rule : Rule}
    (ht : ∀ s lexer s1 lexer1, rule s lexer = some (true, s1, lexer1) →
      Effect valid_symbols s s1 lexer1.result_symbol)
    (hf : ∀ s lexer s1 lexer1, rule s lexer = some (false, s1, lexer1) → s1 = s) :
    RuleOk valid_symbols rule :=
  fun s lexer s1 lexer1 => ⟨ht s lexer s1 lexer1, hf s lexer s1 lexer1⟩

theorem guarded_ok {valid_symbols : TokenType → Bool} {cond : Bool} {rule : Rule}
    (h : cond = true → RuleOk valid_symbols rule) : RuleOk valid_symbols (guarded cond rule) := by
  intro s lexer s1 lexer1
  unfold guarded
  cases cond
  · simp only [Bool.false_eq_true, ↓reduceIte, Option.some.injEq, Prod.mk.injEq,
      Bool.false_eq_true, false_and, false_implies, true_and, true_and]
    exact fun h => h.1.symm
  · simpa using h rfl s lexer s1 lexer1

theorem cascade_ok {valid_symbols : TokenType → Bool} {rules : List Rule}
    (h : ∀ rule ∈ rules, RuleOk valid_symbols rule) : RuleOk valid_symbols (cascade rules) := by
  induction rules with
  | nil =>
    intro s lexer s1 lexer1
    simp only [cascade, Option.some.injEq, Prod.mk.injEq, Bool.false_eq_true, false_and,
      false_implies, true_and]
    exact fun h => h.1.symm
  | cons rule rest ih =>
    have hrule := h rule (List.mem_cons_self _ _)
    have hrest := ih (fun r hr => h r (List.mem_cons_of_mem _ hr))
    intro s lexer s1 lexer1
    simp only [cascade]
    cases hr : rule s lexer with
    | none => simp
    | some r =>
      obtain ⟨ok, s2, lexer2⟩ := r
      cases ok
      · have hs2 : s2 = s := (hrule s lexer s2 lexer2).2 hr
        subst hs2
        exact hrest s2 lexer2 s1 lexer1
      · simp only [Option.some.injEq, Prod.mk.injEq, true_and, Bool.true_eq_false, false_and,
          false_implies, and_true]
        rintro ⟨rfl, rfl⟩
        exact (hrule s lexer _ _).1 hr

theorem close_blocks_with_final_token_some {s s1 : Scanner} {lexer lexer1 : TSLexer}
    {count : Nat} {final : TokenType} {width : Nat}
    (h : close_blocks_with_final_token s lexer count final width = some (s1, lexer1)) :
    s.blocks_to_close = 0 ∧ lexer1 = lexer.set_result .BLOCK_CLOSE ∧
    ∃ top rest, s.open_blocks = top :: rest ∧
      s1 = { s with open_blocks := rest, delayed_token := final,
                    delayed_token_width := width,
                    blocks_to_close := (count + 255) % 256 } := by
  unfold close_blocks_with_final_token at h
  split at h
  · simp at h
  · rename_i hb
    simp only [ne_eq, Decidable.not_not] at hb
    unfold pop_block set_delayed_token at h
    cases hs : s.open_blocks with
    | nil => simp [hs] at h
    | cons top rest =>
      simp only [hs, hb, Option.some.injEq, Prod.mk.injEq] at h
      obtain ⟨rfl, rfl⟩ := h
      exact ⟨hb, rfl, top, rest, rfl, rfl⟩

theorem parse_colon_true {valid_symbols : TokenType → Bool}
    {s s1 : Scanner} {lexer lexer1 : TSLexer}
    (h : parse_colon s lexer valid_symbols = some (true, s1, lexer1)) :
    Effect valid_symbols s s1 lexer1.result_symbol := by
  simp only [parse_colon] at h
  split_ifs at h with h1 h2 h3 h4 h5 h6 h7
  all_goals try (simp at h; done)
  · simp only [Option.some.injEq, Prod.mk.injEq, true_and] at h
    obtain ⟨rfl, rfl⟩ := h
    exact Effect.list_marker _ _ h4 rfl
  · cases hc : close_blocks_with_final_token s (consume_chars lexer.advance 58).2
        (number_of_blocks_from_top s BlockType.DIV (((consume_chars lexer.advance 58).1 + 1) % 256))
        TokenType.DIV_END 3 with
    | none => simp [hc] at h
    | some r =>
      obtain ⟨s2, lexer2⟩ := r
      simp only [hc, Option.some.injEq, Prod.mk.injEq, true_and] at h
      obtain ⟨rfl, rfl⟩ := h
      obtain ⟨hb, rfl, top, rest, heq, rfl⟩ := close_blocks_with_final_token_some hc
      refine Effect.div_close _ top rest ?_ (by omega) (Nat.mod_lt _ (by decide)) h7 hb heq
      cases hA : valid_symbols .DIV_START <;> cases hB : valid_symbols .DIV_END <;> simp_all
  · simp only [Option.some.injEq, Prod.mk.injEq, true_and] at h
    obtain ⟨rfl, rfl⟩ := h
    refine Effect.div_open _ ?_ (by omega) (Nat.mod_lt _ (by decide)) (by omega)
    cases hA : valid_symbols .DIV_START <;> cases hB : valid_symbols .DIV_END <;> simp_all

theorem parse_colon_false {valid_symbols : TokenType → Bool}
    {s s1 : Scanner} {lexer lexer1 : TSLexer}
    (h : parse_colon s lexer valid_symbols = some (false, s1, lexer1)) : s1 = s := by
  simp only [parse_colon] at h
  split_ifs at h
  all_goals first
    | (simp at h; done)
    | (simp only [Option.some.injEq, Prod.mk.injEq, true_and] at h
       exact h.1.symm)
    | (split at h <;> simp at h)

theorem parse_code_block_true {valid_symbols : TokenType → Bool}
    {s s1 : Scanner} {lexer lexer1 : TSLexer} {ticks : Nat}
    (hv : valid_symbols .CODE_BLOCK_START = true ∨ valid_symbols .BLOCK_CLOSE = true)
    (ht : ticks < 256)
    (h : parse_code_block s lexer ticks = some (true, s1, lexer1)) :
    Effect valid_symbols s s1 lexer1.result_symbol := by
  unfold parse_code_block at h
  split at h
  · simp at h
  · rename_i h3
    split at h
    · rename_i top rest heq
      split at h
      · rename_i hty
        split at h
        · rename_i hlev
          cases hc : close_blocks_with_final_token s lexer.mark_end 1 TokenType.CODE_BLOCK_END 3 with
          | none => simp [hc] at h
          | some r =>
            obtain ⟨s2, lexer2⟩ := r
            simp only [hc, Option.some.injEq, Prod.mk.injEq, true_and] at h
            obtain ⟨rfl, rfl⟩ := h
            obtain ⟨hb, rfl, top1, rest1, heq1, rfl⟩ := close_blocks_with_final_token_some hc
            refine Effect.code_close ticks top1 rest1 hv (by omega) hb heq1 ?_
            rw [heq] at heq1
            simp only [List.cons.injEq] at heq1
            obtain ⟨rfl, rfl⟩ := heq1
            cases top
            simp_all
        · simp at h
      · rename_i hty
        simp only [Option.some.injEq, Prod.mk.injEq, true_and] at h
        obtain ⟨rfl, rfl⟩ := h
        refine Effect.code_open ticks hv (by omega) ht ?_
        intro top1 rest1 h1
        rw [heq] at h1
        simp only [List.cons.injEq] at h1
        obtain ⟨rfl, rfl⟩ := h1
        exact hty
    · rename_i heq
      simp only [Option.some.injEq, Prod.mk.injEq, true_and] at h
      obtain ⟨rfl, rfl⟩ := h
      refine Effect.code_open ticks hv (by omega) ht ?_
      intro top1 rest1 h1
      rw [heq] at h1
      simp at h1

theorem parse_code_block_false {s s1 : Scanner} {lexer lexer1 : TSLexer} {ticks : Nat}
    (h : parse_code_block s lexer ticks = some (false, s1, lexer1)) :
    s1 = s ∧ lexer1 = lexer := by
  unfold parse_code_block at h
  split at h
  · simp at h; exact ⟨h.1.symm, h.2.symm⟩
  · split at h
    · split at h
      · split at h
        · split at h <;> simp at h
        · simp at h; exact ⟨h.1.symm, h.2.symm⟩
      · simp at h
    · simp at h

theorem parse_backtick_ok (valid_symbols : TokenType → Bool) :
    RuleOk valid_symbols (fun s lexer => parse_backtick s lexer valid_symbols) := by
  intro s lexer s1 lexer1
  simp only [parse_backtick]
  have hlt := consume_chars_lt lexer 96
  split_ifs with h0
  · simp only [Option.some.injEq, Prod.mk.injEq, Bool.false_eq_true, false_and, false_implies,
      true_and]
    exact fun h => h.1.symm
  · refine cascade_ok ?_ s _ s1 lexer1
    intro rule hrule
    simp only [List.mem_cons, List.mem_singleton, List.not_mem_nil, or_false] at hrule
    rcases hrule with rfl | rfl | rfl
    · refine guarded_ok (fun hg => RuleOk.of_true_false ?_ ?_)
      · intro s lexer s1 lexer1 h
        exact parse_code_block_true (by simpa using hg) hlt h
      · intro s lexer s1 lexer1 h
        exact (parse_code_block_false h).1
    · refine guarded_ok (fun hg => RuleOk.of_true_false ?_ ?_)
      · intro s lexer s1 lexer1 h
        unfold parse_verbatim_end at h
        split_ifs at h with hz
        · simp at h
        · simp only [Option.some.injEq, Prod.mk.injEq, true_and] at h
          obtain ⟨rfl, rfl⟩ := h
          exact Effect.verbatim_end hg hz
      · intro s lexer s1 lexer1 h
        unfold parse_verbatim_end at h
        split_ifs at h with hz
        · simp at h; exact h.1.symm
        · simp at h
    · refine guarded_ok (fun hg => RuleOk.of_true_false ?_ ?_)
      · intro s lexer s1 lexer1 h
        unfold parse_verbatim_start at h
        simp only [Option.some.injEq, Prod.mk.injEq, true_and] at h
        obtain ⟨rfl, rfl⟩ := h
        exact Effect.verbatim_start _ hg (by omega) hlt
      · intro s lexer s1 lexer1 h
        unfold parse_verbatim_start at h
        simp at h

theorem scan_dispatch_ok (valid_symbols : TokenType → Bool) :
    RuleOk valid_symbols (scan_dispatch valid_symbols) := by
  intro s lexer s1 lexer1
  unfold scan_dispatch
  split_ifs
  · exact ⟨parse_list_marker_or_thematic_break_true rfl (Or.inl rfl),
      parse_list_marker_or_thematic_break_false⟩
  · exact ⟨parse_list_marker_or_thematic_break_true rfl (Or.inr rfl),
      parse_list_marker_or_thematic_break_false⟩
  · exact guarded_ok (fun hg => RuleOk.of_true_false
      (fun _ _ _ _ h => parse_list_marker_plus_true hg h)
      (fun _ _ _ _ h => parse_list_marker_plus_false h)) s lexer s1 lexer1
  · exact ⟨parse_colon_true, parse_colon_false⟩
  · exact parse_backtick_ok valid_symbols s lexer s1 lexer1
  · refine ⟨fun h => ?_, fun h => (try_close_verbatim_false h).1⟩
    obtain ⟨hne, rfl, hsym⟩ := try_close_verbatim_true h
    rw [hsym]
    exact Effect.verbatim_end_newline hne
  · simp only [Option.some.injEq, Prod.mk.injEq, Bool.false_eq_true, false_and, false_implies,
      true_and]
    exact fun h => h.1.symm

theorem handle_ordered_list_marker_ok (valid_symbols : TokenType → Bool) (marker : TokenType) :
    RuleOk valid_symbols (fun s lexer => handle_ordered_list_marker s lexer valid_symbols marker) := by
  intro s lexer s1 lexer1
  simp only [handle_ordered_list_marker]
  split_ifs with hc
  · cases hm : list_marker_to_block marker with
    | none => simp
    | some type =>
      simp only [Option.some.injEq, Prod.mk.injEq, true_and, Bool.true_eq_false, false_and,
        false_implies, and_true]
      rintro ⟨rfl, rfl⟩
      exact Effect.list_marker _ _ hc.2 hm
  · simp only [Option.some.injEq, Prod.mk.injEq, Bool.false_eq_true, false_and, false_implies,
      true_and]
    exact fun h => h.1.symm

theorem close_different_list_if_needed_ok {valid_symbols : TokenType → Bool}
    (hv : valid_symbols .BLOCK_CLOSE = true) (list : Block) (marker : TokenType) :
    RuleOk valid_symbols (fun s lexer => close_different_list_if_needed s lexer list marker) := by
  intro s lexer s1 lexer1
  simp only [close_different_list_if_needed]
  split_ifs with hc
  · cases hm : list_marker_to_block marker with
    | none => simp
    | some type =>
      simp only []
      split_ifs with hty
      · cases hp : pop_block s with
        | none => simp
        | some s2 =>
          simp only [Option.some.injEq, Prod.mk.injEq, true_and, Bool.true_eq_false, false_and,
            false_implies, and_true]
          rintro ⟨rfl, rfl⟩
          exact Effect.close _ hv hp
      · simp only [Option.some.injEq, Prod.mk.injEq, Bool.false_eq_true, false_and,
          false_implies, true_and]
        exact fun h => h.1.symm
  · simp only [Option.some.injEq, Prod.mk.injEq, Bool.false_eq_true, false_and, false_implies,
      true_and]
    exact fun h => h.1.symm

theorem close_lists_if_needed_ok {valid_symbols : TokenType → Bool}
    (hv : valid_symbols .BLOCK_CLOSE = true) (non_newline : Bool) (marker : TokenType) :
    RuleOk valid_symbols (fun s lexer => close_lists_if_needed s lexer non_newline marker) := by
  intro s lexer s1 lexer1
  simp only [close_lists_if_needed]
  have hskip : (some (false, s, lexer) = some (true, s1, lexer1) →
        Effect valid_symbols s s1 lexer1.result_symbol) ∧
      (some (false, s, lexer) = some (false, s1, lexer1) → s1 = s) := by
    simp only [Option.some.injEq, Prod.mk.injEq, Bool.false_eq_true, false_and, false_implies,
      true_and]
    exact fun h => h.1.symm
  split_ifs with h0
  · exact hskip
  · cases hl : get_open_list s with
    | none => exact hskip
    | some kl =>
      obtain ⟨k, list⟩ := kl
      simp only []
      split_ifs with hc
      · cases hp : pop_block s with
        | none => simp
        | some s2 =>
          simp only [Option.some.injEq, Prod.mk.injEq, true_and, Bool.true_eq_false, false_and,
            false_implies, and_true]
          rintro ⟨rfl, rfl⟩
          exact Effect.close _ hv hp
      · have h1 := close_different_list_if_needed_ok hv list marker s lexer
        cases hd : close_different_list_if_needed s lexer list marker with
        | none => simp
        | some r =>
          obtain ⟨ok, s2, lexer2⟩ := r
          cases ok
          · have hs2 : s2 = s := (h1 s2 lexer2).2 hd
            subst hs2
            exact close_different_list_if_needed_ok hv list _ s2 _ s1 lexer1
          · simp only [Option.some.injEq, Prod.mk.injEq, true_and, Bool.true_eq_false,
              false_and, false_implies, and_true]
            rintro ⟨rfl, rfl⟩
            exact (h1 _ _).1 hd

theorem scan_ordered_and_lists_ok (valid_symbols : TokenType → Bool) (non_newline : Bool) :
    RuleOk valid_symbols (scan_ordered_and_lists valid_symbols non_newline) := by
  intro s lexer s1 lexer1
  simp only [scan_ordered_and_lists]
  refine cascade_ok ?_ s _ s1 lexer1
  intro rule hrule
  simp only [List.mem_cons, List.mem_singleton, List.not_mem_nil, or_false] at hrule
  rcases hrule with rfl | rfl
  · exact guarded_ok (fun _ => handle_ordered_list_marker_ok valid_symbols _)
  · exact guarded_ok (fun hg => close_lists_if_needed_ok hg non_newline _)

theorem scan_rules_ok (valid_symbols : TokenType → Bool) (non_newline : Bool) :
    ∀ rule ∈ scan_rules valid_symbols non_newline, RuleOk valid_symbols rule := by
  intro rule hrule
  simp only [scan_rules, List.mem_cons, List.mem_singleton, List.not_mem_nil, or_false] at hrule
  rcases hrule with rfl | rfl | rfl | rfl | rfl | rfl | rfl | rfl | rfl | rfl
  · exact guarded_ok (fun hg => RuleOk.of_true_false
      (fun _ _ _ _ h => handle_blocks_to_close_true hg h)
      (fun _ _ _ _ h => (handle_blocks_to_close_false h).1))
  · intro s lexer s1 lexer1
    unfold assert_no_blocks_to_close
    split_ifs
    · simp only [Option.some.injEq, Prod.mk.injEq, Bool.false_eq_true, false_and, false_implies,
        true_and]
      exact fun h => h.1.symm
    · simp
  · exact RuleOk.of_true_false (fun _ _ _ _ h => output_delayed_token_true h)
      (fun _ _ _ _ h => (output_delayed_token_false h).1)
  · exact guarded_ok (fun hg => RuleOk.of_true_false
      (fun _ _ _ _ h => parse_eof_or_blankline_true hg h)
      (fun _ _ _ _ h => parse_eof_or_blankline_false h))
  · exact guarded_ok (fun hg => RuleOk.of_true_false
      (fun _ _ _ _ h => parse_close_paragraph_true hg h)
      (fun _ _ _ _ h => parse_close_paragraph_false h))
  · exact guarded_ok (fun hg => RuleOk.of_true_false
      (fun _ _ _ _ h => parse_verbatim_content_true hg h)
      (fun _ _ _ _ h => (parse_verbatim_content_false h).1))
  · refine guarded_ok (fun hg => RuleOk.of_true_false ?_
      (fun _ _ _ _ h => (try_close_verbatim_false h).1))
    intro s lexer s1 lexer1 h
    obtain ⟨hne, rfl, hsym⟩ := try_close_verbatim_true h
    rw [hsym]
    exact Effect.verbatim_end (by simpa using hg) hne
  · exact guarded_ok (fun hg => RuleOk.of_true_false
      (fun _ _ _ _ h => parse_list_item_end_true hg h)
      (fun _ _ _ _ h => (parse_list_item_end_false h).1))
  · exact scan_dispatch_ok valid_symbols
  · exact scan_ordered_and_lists_ok valid_symbols non_newline

/-- A scan call that returns `true` is one of the cases of `Effect`, taken from
the scanner with this call's `whitespace` stored. -/
theorem scan_true_effect {s s1 : Scanner} {lexer lexer1 : TSLexer}
    {valid_symbols : TokenType → Bool}
    (h : tree_sitter_djot_external_scanner_scan s lexer valid_symbols = some (true, s1, lexer1)) :
    Effect valid_symbols (scan_entry s lexer).1 s1 lexer1.result_symbol :=
  (cascade_ok (scan_rules_ok valid_symbols _) _ _ _ _).1 h

/-- A scan call that returns `false` changes nothing but `whitespace`. -/
theorem scan_false_state {s s1 : Scanner} {lexer lexer1 : TSLexer}
    {valid_symbols : TokenType → Bool}
    (h : tree_sitter_djot_external_scanner_scan s lexer valid_symbols = some (false, s1, lexer1)) :
    s1 = (scan_entry s lexer).1 :=
  (cascade_ok (scan_rules_ok valid_symbols _) _ _ _ _).2 h

/-- On the way to a later statement the scanner is the one of the entry. -/
theorem reaches_state {k : Nat} {s s1 : Scanner} {lexer lexer1 : TSLexer}
    {valid_symbols : TokenType → Bool} (h : reaches k s lexer valid_symbols s1 lexer1) :
    s1 = (scan_entry s lexer).1 :=
  (cascade_ok (fun rule hrule => scan_rules_ok valid_symbols _ rule
    (List.mem_of_mem_take hrule)) _ _ _ _).2 h

@[simp] theorem scan_entry_open_blocks (s : Scanner) (lexer : TSLexer) :
    (scan_entry s lexer).1.open_blocks = s.open_blocks := rfl
@[simp] theorem scan_entry_blocks_to_close (s : Scanner) (lexer : TSLexer) :
    (scan_entry s lexer).1.blocks_to_close = s.blocks_to_close := rfl
@[simp] theorem scan_entry_delayed_token (s : Scanner) (lexer : TSLexer) :
    (scan_entry s lexer).1.delayed_token = s.delayed_token := rfl
@[simp] theorem scan_entry_delayed_token_width (s : Scanner) (lexer : TSLexer) :
    (scan_entry s lexer).1.delayed_token_width = s.delayed_token_width := rfl
@[simp] theorem scan_entry_verbatim_tick_count (s : Scanner) (lexer : TSLexer) :
    (scan_entry s lexer).1.verbatim_tick_count = s.verbatim_tick_count := rfl

/-! ## C2 -/

/-- C2, the claim as stated fails: five calls that return `true` with a token
kind that is not flagged. (1) With only `DIV_START` flagged, a `:::` fence that
matches the open division returns `BLOCK_CLOSE`. (2) With nothing flagged, a
buffered `DIV_END` is flushed. (3) With only `BLOCK_CLOSE` flagged, three
backticks return `CODE_BLOCK_START`. (4) With only `DIV_END` flagged, `:::` on
an empty stack returns `DIV_START`. (5) With nothing flagged, a newline inside a
verbatim span returns `VERBATIM_END`. -/
theorem scan_emits_unflagged_token :
    (tree_sitter_djot_external_scanner_scan
        { init with open_blocks := [⟨.DIV, 3⟩] } (TSLexer.start [58, 58, 58])
        (fun t => decide (t = .DIV_START))
      = some (true,
          { init with delayed_token := .DIV_END, delayed_token_width := 3 },
          { input := [], marked := [58, 58, 58], result_symbol := .BLOCK_CLOSE })
      ∧ (fun t => decide (t = TokenType.DIV_START)) TokenType.BLOCK_CLOSE = false)
    ∧ (tree_sitter_djot_external_scanner_scan
        { init with delayed_token := .DIV_END, delayed_token_width := 3 }
        (TSLexer.start [58, 58, 58]) (fun _ => false)
      = some (true, { init with delayed_token_width := 255 },
          { input := [], marked := [], result_symbol := .DIV_END }))
    ∧ (tree_sitter_djot_external_scanner_scan init (TSLexer.start [96, 96, 96])
        (fun t => decide (t = .BLOCK_CLOSE))
      = some (true, { init with open_blocks := [⟨.CODE_BLOCK, 3⟩] },
          { input := [], marked := [], result_symbol := .CODE_BLOCK_START })
      ∧ (fun t => decide (t = TokenType.BLOCK_CLOSE)) TokenType.CODE_BLOCK_START = false)
    ∧ (tree_sitter_djot_external_scanner_scan init (TSLexer.start [58, 58, 58])
        (fun t => decide (t = .DIV_END))
      = some (true, { init with open_blocks := [⟨.DIV, 3⟩] },
          { input := [], marked := [], result_symbol := .DIV_START })
      ∧ (fun t => decide (t = TokenType.DIV_END)) TokenType.DIV_START = false)
    ∧ (tree_sitter_djot_external_scanner_scan { init with verbatim_tick_count := 1 }
        (TSLexer.start [10]) (fun _ => false)
      = some (true, init,
          { input := [10], marked := [10], result_symbol := .VERBATIM_END })) := by
  decide

/-- C2, amended: when a scan call returns `true`, its token kind is flagged in
the valid-symbol set, or it is the buffered delayed token being flushed, or it
is `BLOCK_CLOSE` or `DIV_START` with `DIV_START` or `DIV_END` flagged (a colon
fence), or it is `BLOCK_CLOSE` or `CODE_BLOCK_START` with `CODE_BLOCK_START` or
`BLOCK_CLOSE` flagged (a backtick fence), or it is `VERBATIM_END` inside a
verbatim span. -/
theorem scan_result_symbol_flagged (s : Scanner) (lexer : TSLexer)
    (valid_symbols : TokenType → Bool) (s1 : Scanner) (lexer1 : TSLexer)
    (h : tree_sitter_djot_external_scanner_scan s lexer valid_symbols
      = some (true, s1, lexer1)) :
    valid_symbols lexer1.result_symbol = true
    ∨ (s.delayed_token ≠ .IGNORED ∧ lexer1.result_symbol = s.delayed_token)
    ∨ ((valid_symbols .DIV_START = true ∨ valid_symbols .DIV_END = true) ∧
        (lexer1.result_symbol = .BLOCK_CLOSE ∨ lexer1.result_symbol = .DIV_START))
    ∨ ((valid_symbols .CODE_BLOCK_START = true ∨ valid_symbols .BLOCK_CLOSE = true) ∧
        (lexer1.result_symbol = .BLOCK_CLOSE ∨ lexer1.result_symbol = .CODE_BLOCK_START))
    ∨ (s.verbatim_tick_count ≠ 0 ∧ lexer1.result_symbol = .VERBATIM_END) := by
  have he := scan_true_effect h
  generalize lexer1.result_symbol = t at he ⊢
  cases he with
  | close s1 hv hp => exact Or.inl hv
  | delayed hne => exact Or.inr (Or.inl ⟨hne, rfl⟩)
  | blankline hv => exact Or.inl hv
  | close_paragraph hv => exact Or.inl hv
  | verbatim_content hv _ => exact Or.inl hv
  | verbatim_content_closing hv _ => exact Or.inl hv
  | verbatim_end hv _ => exact Or.inl hv
  | verbatim_end_newline hne => exact Or.inr (Or.inr (Or.inr (Or.inr ⟨hne, rfl⟩)))
  | list_item_end _ _ hv => exact Or.inl hv
  | list_item_end_closing _ _ hv => exact Or.inl hv
  | thematic_break _ _ hv => exact Or.inl hv
  | list_marker _ _ hv => exact Or.inl hv
  | div_close _ _ _ hv => exact Or.inr (Or.inr (Or.inl ⟨hv, Or.inl rfl⟩))
  | div_open _ hv => exact Or.inr (Or.inr (Or.inl ⟨hv, Or.inr rfl⟩))
  | code_close _ _ _ hv => exact Or.inr (Or.inr (Or.inr (Or.inl ⟨hv, Or.inl rfl⟩)))
  | code_open _ hv => exact Or.inr (Or.inr (Or.inr (Or.inl ⟨hv, Or.inr rfl⟩)))
  | verbatim_start _ hv => exact Or.inl hv

/-- C2, amended, at the text `- ` with only the dash list marker flagged: the
call returns the flagged `LIST_MARKER_DASH`. -/
theorem scan_result_symbol_flagged_witness :
    tree_sitter_djot_external_scanner_scan init (TSLexer.start [45, 32])
        (fun t => decide (t = .LIST_MARKER_DASH))
      = some (true, { init with open_blocks := [⟨.LIST_DASH, 1⟩] },
          { input := [32], marked := [32], result_symbol := .LIST_MARKER_DASH })
    ∧ ((fun t => decide (t = TokenType.LIST_MARKER_DASH)) TokenType.LIST_MARKER_DASH = true
      ∨ (init.delayed_token ≠ .IGNORED ∧ TokenType.LIST_MARKER_DASH = init.delayed_token)
      ∨ (((fun t => decide (t = TokenType.LIST_MARKER_DASH)) TokenType.DIV_START = true ∨
          (fun t => decide (t = TokenType.LIST_MARKER_DASH)) TokenType.DIV_END = true) ∧
          (TokenType.LIST_MARKER_DASH = .BLOCK_CLOSE ∨ TokenType.LIST_MARKER_DASH = .DIV_START))
      ∨ (((fun t => decide (t = TokenType.LIST_MARKER_DASH)) TokenType.CODE_BLOCK_START = true ∨
          (fun t => decide (t = TokenType.LIST_MARKER_DASH)) TokenType.BLOCK_CLOSE = true) ∧
          (TokenType.LIST_MARKER_DASH = .BLOCK_CLOSE ∨
            TokenType.LIST_MARKER_DASH = .CODE_BLOCK_START))
      ∨ (init.verbatim_tick_count ≠ 0 ∧ TokenType.LIST_MARKER_DASH = .VERBATIM_END)) :=
  ⟨by decide,
   scan_result_symbol_flagged init (TSLexer.start [45, 32])
    (fun t => decide (t = .LIST_MARKER_DASH))
    { init with open_blocks := [⟨.LIST_DASH, 1⟩] }
    { input := [32], marked := [32], result_symbol := .LIST_MARKER_DASH }
    (by decide)⟩

/-! ## C3 -/

theorem ensure_list_open_open_blocks (s : Scanner) (type : BlockType) (indent : Nat) :
    (ensure_list_open s type indent).open_blocks = s.open_blocks ∨
    (ensure_list_open s type indent).open_blocks = ⟨type, indent⟩ :: s.open_blocks := by
  unfold ensure_list_open
  split
  · split
    · exact Or.inl rfl
    · exact Or.inr rfl
  · exact Or.inr rfl

theorem ensure_list_open_fields (s : Scanner) (type : BlockType) (indent : Nat) :
    (ensure_list_open s type indent).blocks_to_close = s.blocks_to_close ∧
    (ensure_list_open s type indent).delayed_token = s.delayed_token ∧
    (ensure_list_open s type indent).delayed_token_width = s.delayed_token_width ∧
    (ensure_list_open s type indent).verbatim_tick_count = s.verbatim_tick_count ∧
    (ensure_list_open s type indent).whitespace = s.whitespace := by
  unfold ensure_list_open
  split
  · split <;> simp [push_block]
  · simp [push_block]

theorem pop_block_fields {s s1 : Scanner} (h : pop_block s = some s1) :
    s1.delayed_token = s.delayed_token ∧ s1.delayed_token_width = s.delayed_token_width ∧
    s1.verbatim_tick_count = s.verbatim_tick_count ∧ s1.whitespace = s.whitespace := by
  unfold pop_block at h
  split at h
  · simp at h
  · simp only [Option.some.injEq] at h
    subst h
    simp

/-- Every case of `Effect` keeps the delayed token among the kinds the scanner
buffers. -/
theorem effect_keeps_delayed_token_ok {valid_symbols : TokenType → Bool} {s s1 : Scanner}
    {t : TokenType} (he : Effect valid_symbols s s1 t) (hs : delayed_token_ok s) :
    delayed_token_ok s1 := by
  unfold delayed_token_ok at hs ⊢
  cases he with
  | close s1 hv hp => rw [(pop_block_fields hp).1]; exact hs
  | list_marker t ty hv hm => rw [(ensure_list_open_fields s ty _).2.1]; exact hs
  | _ => first | exact hs | simp

/-- How each case of `Effect` moves the stack: `BLOCK_CLOSE` removes the top
block, every other token kind leaves the stack or puts one block on it, the
latter only for a token kind that opens a block. -/
theorem effect_on_stack {valid_symbols : TokenType → Bool} {s s1 : Scanner}
    {t : TokenType} (he : Effect valid_symbols s s1 t) (hs : delayed_token_ok s) :
    (t = .BLOCK_CLOSE → ∃ top, s.open_blocks = top :: s1.open_blocks) ∧
    (t ≠ .BLOCK_CLOSE → s1.open_blocks = s.open_blocks ∨
      (opens_block t = true ∧ ∃ b, s1.open_blocks = b :: s.open_blocks)) := by
  cases he with
  | close s1 hv hp =>
    obtain ⟨top, rest, h1, h2⟩ := pop_block_some hp
    exact ⟨fun _ => ⟨top, by rw [h1, h2]⟩, fun h => absurd rfl h⟩
  | delayed hne =>
    refine ⟨fun h => ?_, fun _ => Or.inl rfl⟩
    unfold delayed_token_ok at hs
    rcases hs with h1 | h1 | h1 | h1 <;> simp_all
  | list_marker t ty hv hm =>
    refine ⟨fun h => ?_, fun _ => ?_⟩
    · subst h; simp [list_marker_to_block] at hm
    · rcases ensure_list_open_open_blocks s ty ((s.whitespace + 1) % 256) with h1 | h1
      · exact Or.inl h1
      · exact Or.inr ⟨by simp [opens_block, hm], _, h1⟩
  | thematic_break t ht hv =>
    refine ⟨fun h => ?_, fun _ => Or.inl rfl⟩
    rcases ht with rfl | rfl <;> simp at h
  | div_close colons top rest hv h3 h256 hpos hb heq =>
    exact ⟨fun _ => ⟨top, heq⟩, fun h => absurd rfl h⟩
  | code_close ticks top rest hv h3 hb heq htop =>
    exact ⟨fun _ => ⟨top, heq⟩, fun h => absurd rfl h⟩
  | div_open colons hv =>
    exact ⟨fun h => by simp at h, fun _ => Or.inr ⟨by decide, _, rfl⟩⟩
  | code_open ticks hv =>
    exact ⟨fun h => by simp at h, fun _ => Or.inr ⟨by decide, _, rfl⟩⟩
  | _ => exact ⟨fun h => by simp at h, fun _ => Or.inl rfl⟩


/-- One scan call on a scanner whose delayed token is of a buffered kind: what
it does to the stack, by returned token kind, and the delayed token after it. -/
theorem scan_stack_step {s s1 : Scanner} {lexer lexer1 : TSLexer} {ok : Bool}
    {valid_symbols : TokenType → Bool} (hs : delayed_token_ok s)
    (h : tree_sitter_djot_external_scanner_scan s lexer valid_symbols = some (ok, s1, lexer1)) :
    delayed_token_ok s1 ∧
    ((ok = true ∧ lexer1.result_symbol = .BLOCK_CLOSE) →
      ∃ top, s.open_blocks = top :: s1.open_blocks) ∧
    (¬(ok = true ∧ lexer1.result_symbol = .BLOCK_CLOSE) →
      s1.open_blocks = s.open_blocks ∨
      (ok = true ∧ opens_block lexer1.result_symbol = true ∧
        ∃ b, s1.open_blocks = b :: s.open_blocks)) := by
  have hs1 : delayed_token_ok (scan_entry s lexer).1 := hs
  cases ok
  · have := scan_false_state h
    subst this
    exact ⟨hs1, by simp, fun _ => Or.inl rfl⟩
  · have he := scan_true_effect h
    have h1 := effect_on_stack he hs1
    refine ⟨effect_keeps_delayed_token_ok he hs1, fun hc => h1.1 hc.2, fun hc => ?_⟩
    have hne : lexer1.result_symbol ≠ .BLOCK_CLOSE := fun hh => hc ⟨rfl, hh⟩
    rcases h1.2 hne with h2 | ⟨h2, h3⟩
    · exact Or.inl h2
    · exact Or.inr ⟨rfl, h2, h3⟩

theorem scan_calls_balance (calls : List Call) :
    ∀ (s sf : Scanner) (trace : List Outcome), delayed_token_ok s →
      scan_calls s calls = some (sf, trace) →
      count_closes trace + sf.open_blocks.length = count_pushes trace + s.open_blocks.length ∧
      ∀ o ∈ trace,
        (o.is_close = true → ∃ top, o.before.open_blocks = top :: o.after.open_blocks) ∧
        (o.is_close = false →
          o.after.open_blocks = o.before.open_blocks ∨
          (o.returned = true ∧ opens_block o.symbol = true ∧
            ∃ b, o.after.open_blocks = b :: o.before.open_blocks)) := by
  induction calls with
  | nil =>
    intro s sf trace _ h
    simp only [scan_calls, Option.some.injEq, Prod.mk.injEq] at h
    obtain ⟨rfl, rfl⟩ := h
    simp [count_closes, count_pushes]
  | cons c cs ih =>
    intro s sf trace hs h
    simp only [scan_calls] at h
    cases hc : tree_sitter_djot_external_scanner_scan s (TSLexer.start c.input)
        c.valid_symbols with
    | none => simp [hc] at h
    | some r =>
      obtain ⟨ok, s1, lexer1⟩ := r
      simp only [hc] at h
      cases hr : scan_calls s1 cs with
      | none => simp [hr] at h
      | some r2 =>
        obtain ⟨sf2, trace2⟩ := r2
        simp only [hr, Option.some.injEq, Prod.mk.injEq] at h
        obtain ⟨rfl, rfl⟩ := h
        obtain ⟨hs1, hclose, hother⟩ := scan_stack_step hs hc
        obtain ⟨hbal, hall⟩ := ih s1 sf2 trace2 hs1 hr
        have hstep : ∀ o : Outcome, o = ⟨s, ok, lexer1.result_symbol, s1⟩ →
            (o.is_close = true → ∃ top, o.before.open_blocks = top :: o.after.open_blocks) ∧
            (o.is_close = false →
              o.after.open_blocks = o.before.open_blocks ∨
              (o.returned = true ∧ opens_block o.symbol = true ∧
                ∃ b, o.after.open_blocks = b :: o.before.open_blocks)) := by
          rintro o rfl
          simp only [Outcome.is_close, Bool.and_eq_true, decide_eq_true_eq, Bool.and_eq_false_iff,
            decide_eq_false_iff_not]
          refine ⟨hclose, fun hn => hother ?_⟩
          rintro ⟨h1, h2⟩
          rcases hn with hn | hn
          · simp [h1] at hn
          · exact hn h2
        refine ⟨?_, ?_⟩
        · have h0 := hstep _ rfl
          simp only [count_closes, count_pushes, List.filter_cons] at hbal ⊢
          by_cases hcl : Outcome.is_close ⟨s, ok, lexer1.result_symbol, s1⟩ = true
          · obtain ⟨top, htop⟩ := h0.1 hcl
            simp only [] at htop
            have hp : Outcome.is_push ⟨s, ok, lexer1.result_symbol, s1⟩ = false := by
              simp only [Outcome.is_push, htop, List.length_cons, decide_eq_false_iff_not]
              omega
            simp only [hcl, hp, ↓reduceIte, List.length_cons, Bool.false_eq_true]
            rw [htop, List.length_cons]
            omega
          · simp only [Bool.not_eq_true] at hcl
            rcases h0.2 hcl with h2 | ⟨_, _, b, h2⟩
            · simp only [] at h2
              have hp : Outcome.is_push ⟨s, ok, lexer1.result_symbol, s1⟩ = false := by
                simp only [Outcome.is_push, h2, decide_eq_false_iff_not]
                omega
              simp only [hcl, hp, ↓reduceIte, Bool.false_eq_true]
              rw [← h2]
              omega
            · simp only [] at h2
              have hp : Outcome.is_push ⟨s, ok, lexer1.result_symbol, s1⟩ = true := by
                simp [Outcome.is_push, h2]
              simp only [hcl, hp, ↓reduceIte, List.length_cons, Bool.false_eq_true]
              rw [h2, List.length_cons] at hbal
              omega
        · intro o ho
          rcases List.mem_cons.mp ho with rfl | ho
          · exact hstep _ rfl
          · exact hall o ho

/-- C3. Stack balance: over every sequence of scan calls from the initial state
in which no assertion fails and during which the stack never holds more than
`STACK_SIZE` blocks (so that no push has stored outside the array), the number
of `BLOCK_CLOSE` tokens emitted plus the final stack depth equals the number of
blocks pushed; every call that returns `BLOCK_CLOSE` removes exactly the top
block, and every other call leaves the stack as it was or puts exactly one
block on it, the latter only when it returns `DIV_START`, `CODE_BLOCK_START` or
a list marker. So with an empty final stack the close count equals the push
count. -/
theorem stack_balance (calls : List Call) (sf : Scanner) (trace : List Outcome)
    (h : scan_calls init calls = some (sf, trace))
    (_hcap : ∀ o ∈ trace, o.after.open_blocks.length ≤ STACK_SIZE) :
    (count_closes trace + sf.open_blocks.length = count_pushes trace) ∧
    (sf.open_blocks = [] → count_closes trace = count_pushes trace) ∧
    (∀ o ∈ trace,
      (o.is_close = true → ∃ top, o.before.open_blocks = top :: o.after.open_blocks) ∧
      (o.is_close = false →
        o.after.open_blocks = o.before.open_blocks ∨
        (o.returned = true ∧ opens_block o.symbol = true ∧
          ∃ b, o.after.open_blocks = b :: o.before.open_blocks))) := by
  obtain ⟨hbal, hall⟩ := scan_calls_balance calls init sf trace (Or.inl rfl) h
  have hbal1 : count_closes trace + sf.open_blocks.length = count_pushes trace := by
    simpa [init] using hbal
  refine ⟨hbal1, fun he => ?_, hall⟩
  rw [he] at hbal1
  simpa using hbal1

/-- C3, at the two calls `:::` (opening a division) and end of input (closing
it): one push, one close, empty final stack, and never more than one block
open. -/
theorem stack_balance_witness :
    scan_calls init
        [ { input := [58, 58, 58], valid_symbols := fun t => decide (t = .DIV_START) },
          { input := [], valid_symbols := fun t => decide (t = .BLOCK_CLOSE) } ]
      = some (init,
          [ { before := init, returned := true, symbol := .DIV_START,
              after := { init with open_blocks := [⟨.DIV, 3⟩] } },
            { before := { init with open_blocks := [⟨.DIV, 3⟩] }, returned := true,
              symbol := .BLOCK_CLOSE, after := init } ])
    ∧ count_closes
          [ { before := init, returned := true, symbol := .DIV_START,
              after := { init with open_blocks := [⟨.DIV, 3⟩] } },
            { before := { init with open_blocks := [⟨.DIV, 3⟩] }, returned := true,
              symbol := .BLOCK_CLOSE, after := init } ]
        + init.open_blocks.length
      = count_pushes
          [ { before := init, returned := true, symbol := .DIV_START,
              after := { init with open_blocks := [⟨.DIV, 3⟩] } },
            { before := { init with open_blocks := [⟨.DIV, 3⟩] }, returned := true,
              symbol := .BLOCK_CLOSE, after := init } ] :=
  ⟨by decide,
   (stack_balance
      [ { input := [58, 58, 58], valid_symbols := fun t => decide (t = .DIV_START) },
        { input := [], valid_symbols := fun t => decide (t = .BLOCK_CLOSE) } ]
      init _ (by decide) (by decide)).1⟩

/-! ## C4 -/

theorem consume_whitespace_loop_all (ws : List Nat) (indent : Nat)
    (h : ∀ c ∈ ws, c = 32 ∨ c = 9) : (consume_whitespace_loop ws indent).2 = [] := by
  induction ws generalizing indent with
  | nil => rfl
  | cons x xs ih =>
    have hx := h x (List.mem_cons_self _ _)
    have hxs : ∀ c ∈ xs, c = 32 ∨ c = 9 := fun c hc => h c (List.mem_cons_of_mem _ hc)
    simp only [consume_whitespace_loop]
    rcases hx with rfl | rfl
    · simpa using ih _ hxs
    · simpa using ih _ hxs

/-- One scan call at a text of spaces and tabs up to the end of input, with a
block open and `BLOCK_CLOSE` acceptable. -/
theorem scan_at_end_of_input (s : Scanner) (lexer : TSLexer) (valid_symbols : TokenType → Bool)
    (top : Block) (rest : List Block)
    (hws : ∀ c ∈ lexer.input, c = 32 ∨ c = 9)
    (hv : valid_symbols .BLOCK_CLOSE = true) (hs : s.open_blocks = top :: rest) :
    tree_sitter_djot_external_scanner_scan s lexer valid_symbols =
      some (true,
        { s with
          open_blocks := rest
          blocks_to_close := if s.blocks_to_close > 0 then s.blocks_to_close - 1
                             else s.blocks_to_close
          whitespace := (consume_whitespace lexer.mark_end).1 },
        { input := [], marked := lexer.input, result_symbol := .BLOCK_CLOSE }) := by
  have h2 : (consume_whitespace lexer.mark_end).2 =
      { input := [], marked := lexer.input, result_symbol := lexer.result_symbol } := by
    simp [consume_whitespace, consume_whitespace_loop_all _ _ hws, TSLexer.mark_end]
  simp only [tree_sitter_djot_external_scanner_scan, scan_entry, scan_rules, cascade, guarded, hv,
    ↓reduceIte, handle_blocks_to_close, h2, hs, List.length_cons, TSLexer.eof, List.isEmpty_nil,
    pop_block]
  simp [TSLexer.set_result]

theorem scan_calls_at_end_of_input (calls : List Call) :
    ∀ s : Scanner, calls.length = s.open_blocks.length →
      (∀ c ∈ calls, (∀ x ∈ c.input, x = 32 ∨ x = 9) ∧ c.valid_symbols .BLOCK_CLOSE = true) →
      ∃ sf trace, scan_calls s calls = some (sf, trace) ∧ sf.open_blocks = [] ∧
        trace.length = calls.length ∧
        ∀ o ∈ trace, o.returned = true ∧ o.symbol = .BLOCK_CLOSE ∧
          ∃ top, o.before.open_blocks = top :: o.after.open_blocks := by
  induction calls with
  | nil =>
    intro s hn _
    refine ⟨s, [], rfl, ?_, rfl, by simp⟩
    exact List.length_eq_zero.mp hn.symm
  | cons c cs ih =>
    intro s hn hc
    obtain ⟨hws, hv⟩ := hc c (List.mem_cons_self _ _)
    cases hs : s.open_blocks with
    | nil => simp [hs] at hn
    | cons top rest =>
      have h1 := scan_at_end_of_input s (TSLexer.start c.input) c.valid_symbols top rest hws hv hs
      have hlen : cs.length = rest.length := by
        simpa [hs] using hn
      obtain ⟨sf, trace, h2, h3, h4, h5⟩ := ih
        { s with
          open_blocks := rest
          blocks_to_close := if s.blocks_to_close > 0 then s.blocks_to_close - 1
                             else s.blocks_to_close
          whitespace := (consume_whitespace (TSLexer.start c.input).mark_end).1 }
        hlen (fun c' hc' => hc c' (List.mem_cons_of_mem _ hc'))
      refine ⟨sf, { before := s, returned := true, symbol := .BLOCK_CLOSE,
                    after := { s with
                      open_blocks := rest
                      blocks_to_close := if s.blocks_to_close > 0 then s.blocks_to_close - 1
                                         else s.blocks_to_close
                      whitespace := (consume_whitespace (TSLexer.start c.input).mark_end).1 } }
                  :: trace, ?_, h3, by simp [h4], ?_⟩
      · simp only [scan_calls, h1, h2]
      · intro o ho
        rcases List.mem_cons.mp ho with rfl | ho
        · exact ⟨rfl, rfl, top, hs⟩
        · exact h5 o ho

/-- C4. Forced close at end of input: for every scanner with at least one open
block (any close-debt, any delayed token), a scan call whose text is only
spaces and tabs up to the end of input and for which `BLOCK_CLOSE` is
acceptable returns `BLOCK_CLOSE` as a zero-width token and removes exactly the
top block; and as many such calls as there are open blocks each return
`BLOCK_CLOSE`, each remove one block, and leave the stack empty. -/
theorem forced_close_at_end_of_input (s : Scanner) (lexer : TSLexer)
    (valid_symbols : TokenType → Bool) (top : Block) (rest : List Block)
    (hws : ∀ c ∈ lexer.input, c = 32 ∨ c = 9)
    (hv : valid_symbols .BLOCK_CLOSE = true) (hs : s.open_blocks = top :: rest) :
    tree_sitter_djot_external_scanner_scan s lexer valid_symbols =
      some (true,
        { s with
          open_blocks := rest
          blocks_to_close := if s.blocks_to_close > 0 then s.blocks_to_close - 1
                             else s.blocks_to_close
          whitespace := (consume_whitespace lexer.mark_end).1 },
        { input := [], marked := lexer.input, result_symbol := .BLOCK_CLOSE })
    ∧ ∀ calls : List Call, calls.length = s.open_blocks.length →
      (∀ c ∈ calls, (∀ x ∈ c.input, x = 32 ∨ x = 9) ∧ c.valid_symbols .BLOCK_CLOSE = true) →
      ∃ sf trace, scan_calls s calls = some (sf, trace) ∧ sf.open_blocks = [] ∧
        trace.length = calls.length ∧
        ∀ o ∈ trace, o.returned = true ∧ o.symbol = .BLOCK_CLOSE ∧
          ∃ top, o.before.open_blocks = top :: o.after.open_blocks :=
  ⟨scan_at_end_of_input s lexer valid_symbols top rest hws hv hs,
   fun calls hn hc => scan_calls_at_end_of_input calls s hn hc⟩

/-- C4, at a dash list inside a division with one close owed and a buffered
`DIV_END`, the text being a space and a tab before the end of input. -/
theorem forced_close_at_end_of_input_witness :
    tree_sitter_djot_external_scanner_scan
        { open_blocks := [⟨.LIST_DASH, 1⟩, ⟨.DIV, 3⟩], blocks_to_close := 1,
          delayed_token := .DIV_END, delayed_token_width := 3, verbatim_tick_count := 0,
          whitespace := 0 }
        (TSLexer.start [32, 9]) (fun t => decide (t = .BLOCK_CLOSE))
      = some (true,
          { open_blocks := [⟨.DIV, 3⟩], blocks_to_close := 0,
            delayed_token := .DIV_END, delayed_token_width := 3, verbatim_tick_count := 0,
            whitespace := 5 },
          { input := [], marked := [32, 9], result_symbol := .BLOCK_CLOSE }) :=
  (forced_close_at_end_of_input
      { open_blocks := [⟨.LIST_DASH, 1⟩, ⟨.DIV, 3⟩], blocks_to_close := 1,
        delayed_token := .DIV_END, delayed_token_width := 3, verbatim_tick_count := 0,
        whitespace := 0 }
      (TSLexer.start [32, 9]) (fun t => decide (t = .BLOCK_CLOSE)) ⟨.LIST_DASH, 1⟩ [⟨.DIV, 3⟩]
      (by decide) (by decide) rfl).1

/-! ## C5 -/

theorem scan_dash_marker_pushes (s : Scanner) (hb : s.blocks_to_close = 0)
    (hd : s.delayed_token = .IGNORED)
    (htop : ∀ top rest, s.open_blocks = top :: rest → top.type = .LIST_STAR) :
    tree_sitter_djot_external_scanner_scan s (TSLexer.start [45, 32])
        (fun t => decide (t = .LIST_MARKER_DASH))
      = some (true, { s with open_blocks := ⟨.LIST_DASH, 1⟩ :: s.open_blocks, whitespace := 0 },
          { input := [32], marked := [32], result_symbol := .LIST_MARKER_DASH }) := by
  obtain ⟨blocks, btc, dt, dtw, vtc, ws⟩ := s
  simp only at hb hd htop
  subst hb hd
  have he : ∀ x : Scanner, x.open_blocks = blocks →
      ensure_list_open x .LIST_DASH 1 = { x with open_blocks := ⟨.LIST_DASH, 1⟩ :: blocks } := by
    intro x hx
    unfold ensure_list_open
    cases hs : x.open_blocks with
    | nil => simp [push_block, create_block, ← hx, hs]
    | cons top rest =>
      have := htop top rest (by rw [← hx, hs])
      simp [push_block, create_block, ← hx, hs, this]
  simp [tree_sitter_djot_external_scanner_scan, scan_entry, scan_rules, cascade, guarded,
    assert_no_blocks_to_close, output_delayed_token, scan_dispatch, TSLexer.start,
    consume_whitespace, consume_whitespace_loop, TSLexer.mark_end, TSLexer.lookahead,
    parse_dash, parse_list_marker_or_thematic_break, TSLexer.advance, TSLexer.set_result, he]

theorem scan_star_marker_pushes (s : Scanner) (hb : s.blocks_to_close = 0)
    (hd : s.delayed_token = .IGNORED)
    (htop : ∀ top rest, s.open_blocks = top :: rest → top.type = .LIST_DASH) :
    tree_sitter_djot_external_scanner_scan s (TSLexer.start [42, 32])
        (fun t => decide (t = .LIST_MARKER_STAR))
      = some (true, { s with open_blocks := ⟨.LIST_STAR, 1⟩ :: s.open_blocks, whitespace := 0 },
          { input := [32], marked := [32], result_symbol := .LIST_MARKER_STAR }) := by
  obtain ⟨blocks, btc, dt, dtw, vtc, ws⟩ := s
  simp only at hb hd htop
  subst hb hd
  have he : ∀ x : Scanner, x.open_blocks = blocks →
      ensure_list_open x .LIST_STAR 1 = { x with open_blocks := ⟨.LIST_STAR, 1⟩ :: blocks } := by
    intro x hx
    unfold ensure_list_open
    cases hs : x.open_blocks with
    | nil => simp [push_block, create_block, ← hx, hs]
    | cons top rest =>
      have := htop top rest (by rw [← hx, hs])
      simp [push_block, create_block, ← hx, hs, this]
  simp [tree_sitter_djot_external_scanner_scan, scan_entry, scan_rules, cascade, guarded,
    assert_no_blocks_to_close, output_delayed_token, scan_dispatch, TSLexer.start,
    consume_whitespace, consume_whitespace_loop, TSLexer.mark_end, TSLexer.lookahead,
    parse_star, parse_list_marker_or_thematic_break, TSLexer.advance, TSLexer.set_result, he]

theorem scan_calls_alternating_markers (n : Nat) :
    ∀ s : Scanner, s.blocks_to_close = 0 → s.delayed_token = .IGNORED →
      (∀ top rest, s.open_blocks = top :: rest →
        top.type = if n % 2 = 0 then .LIST_DASH else .LIST_STAR) →
      ∃ sf trace, scan_calls s (alternating_markers n) = some (sf, trace) ∧
        sf.open_blocks.length = s.open_blocks.length + n ∧
        ∀ o ∈ trace, o.returned = true := by
  induction n with
  | zero =>
    intro s _ _ _
    exact ⟨s, [], rfl, rfl, by simp⟩
  | succ n ih =>
    intro s hb hd htop
    by_cases hpar : n % 2 = 0
    · have hpar1 : (n + 1) % 2 ≠ 0 := by omega
      simp only [hpar1, ↓reduceIte] at htop
      have h1 := scan_dash_marker_pushes s hb hd htop
      obtain ⟨sf, trace, h2, h3, h4⟩ := ih
        { s with open_blocks := ⟨.LIST_DASH, 1⟩ :: s.open_blocks, whitespace := 0 } hb hd
        (by intro top rest h; simp only [List.cons.injEq] at h; simp [hpar, ← h.1])
      refine ⟨sf, ⟨s, true, .LIST_MARKER_DASH,
        { s with open_blocks := ⟨.LIST_DASH, 1⟩ :: s.open_blocks, whitespace := 0 }⟩ :: trace,
        ?_, ?_, ?_⟩
      · simp only [alternating_markers, hpar, ↓reduceIte, scan_calls, h1, h2]
      · simp only [List.length_cons] at h3
        omega
      · intro o ho
        rcases List.mem_cons.mp ho with rfl | ho
        · rfl
        · exact h4 o ho
    · have hpar1 : (n + 1) % 2 = 0 := by omega
      simp only [hpar1, ↓reduceIte] at htop
      have h1 := scan_star_marker_pushes s hb hd htop
      obtain ⟨sf, trace, h2, h3, h4⟩ := ih
        { s with open_blocks := ⟨.LIST_STAR, 1⟩ :: s.open_blocks, whitespace := 0 } hb hd
        (by intro top rest h; simp only [List.cons.injEq] at h; simp [hpar, ← h.1])
      refine ⟨sf, ⟨s, true, .LIST_MARKER_STAR,
        { s with open_blocks := ⟨.LIST_STAR, 1⟩ :: s.open_blocks, whitespace := 0 }⟩ :: trace,
        ?_, ?_, ?_⟩
      · simp only [alternating_markers, hpar, ↓reduceIte, scan_calls, h1, h2]
      · simp only [List.length_cons] at h3
        omega
      · intro o ho
        rcases List.mem_cons.mp ho with rfl | ho
        · rfl
        · exact h4 o ho

/-- C5, the code at the failing input: 513 scan calls from the initial state,
on the texts `- ` and `* ` in turn, each return `true`, none fails an
assertion, and each pushes a block, the last of them with `STACK_SIZE` blocks
already open; the stack is then deeper than `STACK_SIZE`, and the state is
reachable. -/
theorem push_block_past_stack_size :
    ∃ sf trace, scan_calls init (alternating_markers (STACK_SIZE + 1)) = some (sf, trace) ∧
      sf.open_blocks.length = STACK_SIZE + 1 ∧ STACK_SIZE < sf.open_blocks.length ∧
      ∀ o ∈ trace, o.returned = true := by
  obtain ⟨sf, trace, h1, h2, h3⟩ :=
    scan_calls_alternating_markers (STACK_SIZE + 1) init rfl rfl (by intro top rest h; simp [init] at h)
  refine ⟨sf, trace, h1, ?_, ?_, h3⟩
  · simpa [init] using h2
  · have : sf.open_blocks.length = STACK_SIZE + 1 := by simpa [init] using h2
    omega

/-! ## Arriving at a later statement of the cascade -/

/-- A scan call that gets past the first three statements has no close-debt and
no delayed token, and the scanner it carries on with is the one of the entry. -/
theorem reaches_facts {k : Nat} {s s1 : Scanner} {lexer lexer1 : TSLexer}
    {valid_symbols : TokenType → Bool} (hk : 3 ≤ k)
    (h : reaches k s lexer valid_symbols s1 lexer1) :
    s1 = (scan_entry s lexer).1 ∧ s.blocks_to_close = 0 ∧ s.delayed_token = .IGNORED := by
  refine ⟨reaches_state h, ?_⟩
  obtain ⟨k, rfl⟩ : ∃ j, k = j + 3 := ⟨k - 3, by omega⟩
  unfold reaches at h
  simp only [scan_rules, List.take_succ_cons, cascade] at h
  cases h0 : guarded (valid_symbols .BLOCK_CLOSE) handle_blocks_to_close
      (scan_entry s lexer).1 (scan_entry s lexer).2.1 with
  | none => simp [h0] at h
  | some r0 =>
    obtain ⟨ok0, s2, lexer2⟩ := r0
    cases ok0
    · have hs2 : s2 = (scan_entry s lexer).1 :=
        (guarded_ok (fun hg => RuleOk.of_true_false
          (fun _ _ _ _ h => handle_blocks_to_close_true hg h)
          (fun _ _ _ _ h => (handle_blocks_to_close_false h).1)) _ _ _ _).2 h0
      subst hs2
      simp only [h0, assert_no_blocks_to_close] at h
      split_ifs at h with hb
      · simp only [] at h
        cases h2 : output_delayed_token (scan_entry s lexer).1 lexer2 valid_symbols with
        | none => simp [h2] at h
        | some r2 =>
          obtain ⟨ok2, s3, lexer3⟩ := r2
          cases ok2
          · exact ⟨hb, (output_delayed_token_false h2).2.2⟩
          · simp [h2] at h
    · simp [h0] at h

/-! ## Scans under a close-debt and the flush of the delayed token -/

theorem scan_of_close_cascade {s s1 : Scanner} {lexer lexer1 : TSLexer}
    {valid_symbols : TokenType → Bool}
    (h : guarded (valid_symbols .BLOCK_CLOSE) handle_blocks_to_close
      (scan_entry s lexer).1 (scan_entry s lexer).2.1 = some (true, s1, lexer1)) :
    tree_sitter_djot_external_scanner_scan s lexer valid_symbols = some (true, s1, lexer1) := by
  show cascade (scan_rules valid_symbols (scan_entry s lexer).2.2) _ _ = _
  simp only [scan_rules, cascade, h]

theorem scan_with_debt (s : Scanner) (lexer : TSLexer) (valid_symbols : TokenType → Bool)
    (top : Block) (rest : List Block)
    (hv : valid_symbols .BLOCK_CLOSE = true) (hs : s.open_blocks = top :: rest)
    (hb : 0 < s.blocks_to_close) :
    tree_sitter_djot_external_scanner_scan s lexer valid_symbols =
      some (true,
        { s with
          open_blocks := rest
          blocks_to_close := s.blocks_to_close - 1
          whitespace := (consume_whitespace lexer.mark_end).1 },
        (consume_whitespace lexer.mark_end).2.set_result .BLOCK_CLOSE) := by
  have h0 : guarded (valid_symbols .BLOCK_CLOSE) handle_blocks_to_close
      (scan_entry s lexer).1 (scan_entry s lexer).2.1 =
      some (true,
        { s with
          open_blocks := rest
          blocks_to_close := s.blocks_to_close - 1
          whitespace := (consume_whitespace lexer.mark_end).1 },
        (consume_whitespace lexer.mark_end).2.set_result .BLOCK_CLOSE) := by
    simp only [guarded, hv, ↓reduceIte, handle_blocks_to_close, scan_entry, hs, List.length_cons,
      pop_block, hb]
    split_ifs <;> simp_all
  rw [scan_of_close_cascade h0]

theorem scan_calls_with_debt (calls : List Call) :
    ∀ s : Scanner, s.blocks_to_close = calls.length → calls.length ≤ s.open_blocks.length →
      (∀ c ∈ calls, c.valid_symbols .BLOCK_CLOSE = true) →
      ∃ sf trace, scan_calls s calls = some (sf, trace) ∧
        sf.open_blocks = s.open_blocks.drop calls.length ∧ sf.blocks_to_close = 0 ∧
        sf.delayed_token = s.delayed_token ∧
        sf.delayed_token_width = s.delayed_token_width ∧
        sf.verbatim_tick_count = s.verbatim_tick_count ∧
        trace.length = calls.length ∧
        ∀ o ∈ trace, o.returned = true ∧ o.symbol = .BLOCK_CLOSE ∧
          ∃ top, o.before.open_blocks = top :: o.after.open_blocks := by
  induction calls with
  | nil =>
    intro s hb _ _
    exact ⟨s, [], rfl, rfl, hb, rfl, rfl, rfl, rfl, by simp⟩
  | cons c cs ih =>
    intro s hb hlen hc
    have hv := hc c (List.mem_cons_self _ _)
    cases hs : s.open_blocks with
    | nil => simp [hs] at hlen
    | cons top rest =>
      have hpos : 0 < s.blocks_to_close := by rw [hb]; simp
      have h1 := scan_with_debt s (TSLexer.start c.input) c.valid_symbols top rest hv hs hpos
      obtain ⟨sf, trace, h2, h3, h4, h5, h6, h7, h8, h9⟩ := ih
        { s with
          open_blocks := rest
          blocks_to_close := s.blocks_to_close - 1
          whitespace := (consume_whitespace (TSLexer.start c.input).mark_end).1 }
        (by simp [hb])
        (by simpa [hs] using hlen)
        (fun c' hc' => hc c' (List.mem_cons_of_mem _ hc'))
      refine ⟨sf, { before := s, returned := true, symbol := .BLOCK_CLOSE,
                    after := { s with
                      open_blocks := rest
                      blocks_to_close := s.blocks_to_close - 1
                      whitespace := (consume_whitespace (TSLexer.start c.input).mark_end).1 } }
                  :: trace, ?_, ?_, h4, h5, h6, h7, by simp [h8], ?_⟩
      · simp only [scan_calls, h1, h2]
        rfl
      · simpa using h3
      · intro o ho
        rcases List.mem_cons.mp ho with rfl | ho
        · exact ⟨rfl, rfl, top, hs⟩
        · exact h9 o ho

/-- The scan that flushes the delayed token: no close-debt, a delayed token
buffered, and the close cascade not firing (the text after the leading
whitespace is not at its end, or `BLOCK_CLOSE` is not acceptable, or no block
is open). -/
theorem scan_flushes_delayed_token (s : Scanner) (lexer : TSLexer)
    (valid_symbols : TokenType → Bool)
    (hb : s.blocks_to_close = 0) (hd : s.delayed_token ≠ .IGNORED)
    (hc : (consume_whitespace lexer.mark_end).2.input ≠ [] ∨
      valid_symbols .BLOCK_CLOSE = false ∨ s.open_blocks = []) :
    tree_sitter_djot_external_scanner_scan s lexer valid_symbols =
      some (true,
        { s with
          delayed_token := .IGNORED
          delayed_token_width := 255
          whitespace := (consume_whitespace lexer.mark_end).1 },
        (output_delayed_token_loop s.delayed_token_width
          ((consume_whitespace lexer.mark_end).2.set_result s.delayed_token)).2.mark_end) := by
  have h0 : guarded (valid_symbols .BLOCK_CLOSE) handle_blocks_to_close
      (scan_entry s lexer).1 (scan_entry s lexer).2.1 =
      some (false, (scan_entry s lexer).1, (scan_entry s lexer).2.1) := by
    unfold guarded handle_blocks_to_close
    split_ifs with h1 h2 h3 h4
    · rfl
    · exfalso
      rcases hc with hc | hc | hc
      · simp [scan_entry, TSLexer.eof] at h3; exact hc h3
      · simp [hc] at h1
      · simp [scan_entry, hc] at h2
    · exfalso
      simp [scan_entry] at h4
      omega
    · rfl
    · rfl
  simp only [tree_sitter_djot_external_scanner_scan, scan_rules, cascade, h0,
    assert_no_blocks_to_close, scan_entry_blocks_to_close, hb, ↓reduceIte, output_delayed_token,
    scan_entry_delayed_token, ne_eq, hd, not_false_eq_true, output_delayed_token_loop_fst]
  rfl

theorem consume_chars_loop_replicate (c : Nat) (m : Nat) (rest : List Nat) (count : Nat)
    (hrest : rest.head? ≠ some c) (hcount : count < 256) :
    consume_chars_loop c (List.replicate m c ++ rest) count = ((count + m) % 256, rest) := by
  induction m generalizing count with
  | zero =>
    simp only [List.replicate_zero, List.nil_append, Nat.add_zero, Nat.mod_eq_of_lt hcount]
    cases rest with
    | nil => rfl
    | cons x xs =>
      have hx : x ≠ c := by simpa using hrest
      simp [consume_chars_loop, hx]
  | succ m ih =>
    rw [List.replicate_succ, List.cons_append, consume_chars_loop, if_pos rfl,
      ih _ (Nat.mod_lt _ (by decide))]
    congr 1
    omega

theorem number_of_blocks_from_top_loop_bound (type : BlockType) (level : Nat)
    (l : List Block) (k : Nat) :
    number_of_blocks_from_top_loop type level l k = 0 ∨
    (k ≤ number_of_blocks_from_top_loop type level l k ∧
      number_of_blocks_from_top_loop type level l k < k + l.length) := by
  induction l generalizing k with
  | nil => left; rfl
  | cons b rest ih =>
    simp only [number_of_blocks_from_top_loop]
    split_ifs
    · right; simp
    · rcases ih (k + 1) with h | h
      · left; exact h
      · right
        simp only [List.length_cons]
        omega

theorem number_of_blocks_from_top_le (s : Scanner) (type : BlockType) (level : Nat) :
    number_of_blocks_from_top s type level ≤ s.open_blocks.length := by
  unfold number_of_blocks_from_top
  rcases number_of_blocks_from_top_loop_bound type level s.open_blocks 1 with h | h
  · omega
  · omega

theorem scan_bullet_list_marker_eof (marked : List Nat) (sym : TokenType) (marker : Nat)
    (hm : marker ≠ 0) :
    scan_bullet_list_marker ⟨[], marked, sym⟩ marker = (false, ⟨[], marked, sym⟩) := by
  simp [scan_bullet_list_marker, TSLexer.lookahead, Ne.symm hm]

theorem scan_ordered_list_marker_token_eof (marked : List Nat) (sym : TokenType) :
    scan_ordered_list_marker_token ⟨[], marked, sym⟩ = (.IGNORED, ⟨[], marked, sym⟩) := by
  simp [scan_ordered_list_marker_token, TSLexer.lookahead, scan_ordered_list_type,
    scan_ordered_list_enumerator, scan_ordered_list_enumerator_loop]

theorem scan_list_marker_token_eof (marked : List Nat) (sym : TokenType) :
    scan_list_marker_token ⟨[], marked, sym⟩ = (.IGNORED, ⟨[], marked, sym⟩) := by
  simp [scan_list_marker_token, scan_bullet_list_marker_eof, scan_ordered_list_marker_token_eof]

theorem should_close_paragraph_eof (s : Scanner) (marked : List Nat) (sym : TokenType) :
    should_close_paragraph s ⟨[], marked, sym⟩ = (false, ⟨[], marked, sym⟩) := by
  simp [should_close_paragraph, scan_div_marker, consume_chars, consume_chars_loop,
    scan_list_marker, scan_list_marker_token_eof]

/-- At the end of input every statement before the dispatch that lets the scan
go on leaves the cursor at the end of input. -/
theorem reaches_eof {k : Nat} {s s1 : Scanner} {lexer lexer1 : TSLexer}
    {valid_symbols : TokenType → Bool} (hk : k ≤ 8)
    (h : reaches k s lexer valid_symbols s1 lexer1)
    (he : (scan_entry s lexer).2.1.input = []) : lexer1.input = [] := by
  unfold reaches at h
  refine cascade_false_inv (fun _ lx => lx.input = []) _ ?_ _ _ _ _ he h
  intro rule hrule s0 lx0 s2 lx2 hq hr
  have hmem : rule ∈ (scan_rules valid_symbols (scan_entry s lexer).2.2).take 8 := by
    have : List.take k (scan_rules valid_symbols (scan_entry s lexer).2.2) =
        List.take k (List.take 8 (scan_rules valid_symbols (scan_entry s lexer).2.2)) := by
      rw [List.take_take, Nat.min_eq_left hk]
    rw [this] at hrule
    exact List.mem_of_mem_take hrule
  simp only [scan_rules, List.take_succ_cons, List.take_zero, List.mem_cons, List.mem_singleton,
    List.not_mem_nil, or_false] at hmem
  simp only [] at hq ⊢
  obtain ⟨input, marked, sym⟩ := lx0
  simp only [] at hq
  subst hq
  rcases hmem with rfl | rfl | rfl | rfl | rfl | rfl | rfl | rfl
  · unfold guarded at hr
    split_ifs at hr
    · rw [(handle_blocks_to_close_false hr).2]
    · simp at hr; rw [← hr.2]
  · unfold assert_no_blocks_to_close at hr
    split_ifs at hr
    simp at hr; rw [← hr.2]
  · rw [(output_delayed_token_false hr).2.1]
  · unfold guarded at hr
    split_ifs at hr
    · simp [parse_eof_or_blankline, scan_eof_or_blankline, TSLexer.eof] at hr
    · simp at hr; rw [← hr.2]
  · unfold guarded at hr
    split_ifs at hr
    · simp only [parse_close_paragraph, should_close_paragraph_eof, Bool.false_eq_true,
        ↓reduceIte, Option.some.injEq, Prod.mk.injEq, true_and] at hr
      rw [← hr.2]
    · simp at hr; rw [← hr.2]
  · unfold guarded at hr
    split_ifs at hr
    · rw [(parse_verbatim_content_false hr).2]
    · simp at hr; rw [← hr.2]
  · unfold guarded at hr
    split_ifs at hr
    · rw [(try_close_verbatim_false hr).2]
    · simp at hr; rw [← hr.2]
  · unfold guarded at hr
    split_ifs at hr
    · rw [(parse_list_item_end_false hr).2]
    · simp at hr; rw [← hr.2]

/-! ## C6 -/

/-- The function `parse_colon` at a run of `n` colons, `3 ≤ n ≤ 255`, with a division fence
acceptable: it closes down to the nearest division of level `n` when there is
one and opens a division of level `n` otherwise. -/
theorem parse_colon_at_fence (s : Scanner) (lexer : TSLexer) (valid_symbols : TokenType → Bool)
    (n : Nat) (text : List Nat)
    (hdiv : valid_symbols .DIV_START = true ∨ valid_symbols .DIV_END = true)
    (hinput : lexer.input = List.replicate n 58 ++ text) (htext : text.head? ≠ some 58)
    (hn3 : 3 ≤ n) (hn : n ≤ 255) :
    parse_colon s lexer valid_symbols =
      if 0 < number_of_blocks_from_top s .DIV n then
        match close_blocks_with_final_token s { lexer with input := text }
            (number_of_blocks_from_top s .DIV n) .DIV_END 3 with
        | none => none
        | some (s, lexer) => some (true, s, lexer)
      else
        some (true, push_block s .DIV n,
          ({ lexer with input := text } : TSLexer).mark_end.set_result .DIV_START) := by
  obtain ⟨input, marked, sym⟩ := lexer
  simp only [] at hinput
  subst hinput
  obtain ⟨k, rfl⟩ : ∃ k, n = k + 2 := ⟨n - 2, by omega⟩
  have hflag : (!valid_symbols .LIST_MARKER_DEFINITION &&
      !(valid_symbols .DIV_START || valid_symbols .DIV_END)) = false := by
    rcases hdiv with h | h <;> simp [h]
  have hflag2 : (!(valid_symbols .DIV_START || valid_symbols .DIV_END)) = false := by
    rcases hdiv with h | h <;> simp [h]
  have hcons : consume_chars_loop 58 (List.replicate (k + 1) 58 ++ text) 0 =
      ((0 + (k + 1)) % 256, text) :=
    consume_chars_loop_replicate 58 (k + 1) text 0 htext (by decide)
  have hcol : ((0 + (k + 1)) % 256 + 1) % 256 = k + 2 := by omega
  have h3 : ¬ (k + 2 < 3) := by omega
  simp only [parse_colon, hflag, hflag2, TSLexer.lookahead, TSLexer.advance, List.replicate_succ,
    List.cons_append, List.headD_cons, List.tail_cons, consume_chars, Bool.false_eq_true,
    ↓reduceIte, ne_eq, not_true_eq_false]
  have hcons2 : consume_chars_loop 58 (58 :: (List.replicate k 58 ++ text)) 0 =
      ((0 + (k + 1)) % 256, text) := by
    rw [← hcons, List.replicate_succ, List.cons_append]
  simp only [hcons2, hcol, h3, ↓reduceIte]
  norm_num

/-! ## The lookahead scanners move the cursor only -/

theorem scan_bullet_list_marker_frame (lexer : TSLexer) (marker : Nat) :
    (scan_bullet_list_marker lexer marker).2.marked = lexer.marked ∧
    (scan_bullet_list_marker lexer marker).2.result_symbol = lexer.result_symbol := by
  simp only [scan_bullet_list_marker]
  split_ifs <;> exact ⟨rfl, rfl⟩

theorem scan_ordered_list_type_frame (lexer : TSLexer) :
    (scan_ordered_list_type lexer).2.marked = lexer.marked ∧
    (scan_ordered_list_type lexer).2.result_symbol = lexer.result_symbol := by
  simp only [scan_ordered_list_type]
  split_ifs <;> exact ⟨rfl, rfl⟩

theorem scan_ordered_list_marker_token_frame (lexer : TSLexer) :
    (scan_ordered_list_marker_token lexer).2.marked = lexer.marked ∧
    (scan_ordered_list_marker_token lexer).2.result_symbol = lexer.result_symbol := by
  simp only [scan_ordered_list_marker_token]
  have h2 : (if decide (lexer.lookahead = 40) = true then lexer.advance else lexer).marked
        = lexer.marked ∧
      (if decide (lexer.lookahead = 40) = true then lexer.advance else lexer).result_symbol
        = lexer.result_symbol := by
    split_ifs <;> exact ⟨rfl, rfl⟩
  generalize (if decide (lexer.lookahead = 40) = true then lexer.advance else lexer) = lexer0
    at h2 ⊢
  have h := scan_ordered_list_type_frame lexer0
  rw [h2.1, h2.2] at h
  generalize scan_ordered_list_type lexer0 = r at h ⊢
  obtain ⟨ty, lx⟩ := r
  cases ty with
  | none => exact h
  | some ty =>
    simp only []
    split_ifs <;> exact h

theorem scan_list_marker_token_frame (lexer : TSLexer) :
    (scan_list_marker_token lexer).2.marked = lexer.marked ∧
    (scan_list_marker_token lexer).2.result_symbol = lexer.result_symbol := by
  simp only [scan_list_marker_token]
  have h1 := scan_bullet_list_marker_frame lexer 45
  have h2 := scan_bullet_list_marker_frame (scan_bullet_list_marker lexer 45).2 42
  have h3 := scan_bullet_list_marker_frame
    (scan_bullet_list_marker (scan_bullet_list_marker lexer 45).2 42).2 43
  have h4 := scan_bullet_list_marker_frame
    (scan_bullet_list_marker
      (scan_bullet_list_marker (scan_bullet_list_marker lexer 45).2 42).2 43).2 58
  have h5 := scan_ordered_list_marker_token_frame
    (scan_bullet_list_marker (scan_bullet_list_marker
      (scan_bullet_list_marker (scan_bullet_list_marker lexer 45).2 42).2 43).2 58).2
  split_ifs
  · exact h1
  · exact ⟨h2.1.trans h1.1, h2.2.trans h1.2⟩
  · exact ⟨h3.1.trans (h2.1.trans h1.1), h3.2.trans (h2.2.trans h1.2)⟩
  · exact ⟨h4.1.trans (h3.1.trans (h2.1.trans h1.1)), h4.2.trans (h3.2.trans (h2.2.trans h1.2))⟩
  · exact ⟨h5.1.trans (h4.1.trans (h3.1.trans (h2.1.trans h1.1))),
      h5.2.trans (h4.2.trans (h3.2.trans (h2.2.trans h1.2)))⟩

theorem should_close_paragraph_frame (s : Scanner) (lexer : TSLexer) :
    (should_close_paragraph s lexer).2.marked = lexer.marked ∧
    (should_close_paragraph s lexer).2.result_symbol = lexer.result_symbol := by
  simp only [should_close_paragraph, scan_list_marker, scan_div_marker]
  have h := scan_list_marker_token_frame (consume_chars lexer 58).2
  split_ifs <;> first | exact ⟨rfl, rfl⟩ | exact h

/-- Up to the character dispatch a scan call that goes on has marked no token
end and written no token kind. -/
theorem reaches_cursor {k : Nat} {s s1 : Scanner} {lexer lexer1 : TSLexer}
    {valid_symbols : TokenType → Bool} (hk : k ≤ 8)
    (h : reaches k s lexer valid_symbols s1 lexer1) :
    lexer1.marked = lexer.input ∧ lexer1.result_symbol = lexer.result_symbol := by
  unfold reaches at h
  refine cascade_false_inv
    (fun _ lx => lx.marked = lexer.input ∧ lx.result_symbol = lexer.result_symbol)
    _ ?_ (scan_entry s lexer).1 (scan_entry s lexer).2.1 _ _ ⟨rfl, rfl⟩ h
  intro rule hrule s0 lx0 s2 lx2 hq hr
  have hmem : rule ∈ (scan_rules valid_symbols (scan_entry s lexer).2.2).take 8 := by
    have : List.take k (scan_rules valid_symbols (scan_entry s lexer).2.2) =
        List.take k (List.take 8 (scan_rules valid_symbols (scan_entry s lexer).2.2)) := by
      rw [List.take_take, Nat.min_eq_left hk]
    rw [this] at hrule
    exact List.mem_of_mem_take hrule
  simp only [scan_rules, List.take_succ_cons, List.take_zero, List.mem_cons, List.mem_singleton,
    List.not_mem_nil, or_false] at hmem
  simp only [] at hq ⊢
  rcases hmem with rfl | rfl | rfl | rfl | rfl | rfl | rfl | rfl
  · unfold guarded at hr
    split_ifs at hr
    · rw [(handle_blocks_to_close_false hr).2]; exact hq
    · simp at hr; rw [← hr.2]; exact hq
  · unfold assert_no_blocks_to_close at hr
    split_ifs at hr
    simp at hr; rw [← hr.2]; exact hq
  · rw [(output_delayed_token_false hr).2.1]; exact hq
  · unfold guarded at hr
    split_ifs at hr
    · unfold parse_eof_or_blankline scan_eof_or_blankline at hr
      simp only [] at hr
      split_ifs at hr <;> simp at hr
      all_goals (rw [← hr.2]; exact hq)
    · simp at hr; rw [← hr.2]; exact hq
  · unfold guarded at hr
    split_ifs at hr
    · unfold parse_close_paragraph at hr
      simp only [] at hr
      split_ifs at hr
      · simp at hr
      · simp only [Option.some.injEq, Prod.mk.injEq, true_and] at hr
        rw [← hr.2]
        have := should_close_paragraph_frame s0 lx0
        exact ⟨this.1.trans hq.1, this.2.trans hq.2⟩
    · simp at hr; rw [← hr.2]; exact hq
  · unfold guarded at hr
    split_ifs at hr
    · rw [(parse_verbatim_content_false hr).2]; exact hq
    · simp at hr; rw [← hr.2]; exact hq
  · unfold guarded at hr
    split_ifs at hr
    · rw [(try_close_verbatim_false hr).2]; exact hq
    · simp at hr; rw [← hr.2]; exact hq
  · unfold guarded at hr
    split_ifs at hr
    · rw [(parse_list_item_end_false hr).2]; exact hq
    · simp at hr; rw [← hr.2]; exact hq

theorem scan_of_reaches_dispatch {s s1 : Scanner} {lexer lexer1 : TSLexer}
    {valid_symbols : TokenType → Bool}
    (h : reaches AT_DISPATCH s lexer valid_symbols s1 lexer1) :
    tree_sitter_djot_external_scanner_scan s lexer valid_symbols =
      cascade [scan_dispatch valid_symbols,
        scan_ordered_and_lists valid_symbols (scan_entry s lexer).2.2] s1 lexer1 := by
  rw [scan_of_reaches h]
  rfl

/-- C6. Division nesting: when a scan call arrives at the character dispatch
(so with no close-debt and no delayed token) with a division fence acceptable
and the cursor at a run of `n` colons, `3 ≤ n ≤ 255`, and the nearest `DIV`
block of level `n` is at distance `d` from the top, `1 ≤ d ≤ 256`, the call
returns a zero-width `BLOCK_CLOSE`, removes the top block, sets
`blocks_to_close` to `d - 1` and buffers `DIV_END`; the next `d - 1` calls with
`BLOCK_CLOSE` acceptable each return `BLOCK_CLOSE` and remove one block,
leaving the stack below the division; and the call after that, at the same
text, returns `DIV_END`. -/
theorem division_fence_closes_nested (s : Scanner) (lexer : TSLexer)
    (valid_symbols : TokenType → Bool) (s1 : Scanner) (lexer1 : TSLexer)
    (n : Nat) (text : List Nat) (d : Nat)
    (hreach : reaches AT_DISPATCH s lexer valid_symbols s1 lexer1)
    (hdiv : valid_symbols .DIV_START = true ∨ valid_symbols .DIV_END = true)
    (hinput : lexer1.input = List.replicate n 58 ++ text) (htext : text.head? ≠ some 58)
    (hn3 : 3 ≤ n) (hn : n ≤ 255)
    (hd : number_of_blocks_from_top s1 .DIV n = d) (hd1 : 1 ≤ d) (hd256 : d ≤ 256) :
    s.blocks_to_close = 0 ∧ s.delayed_token = .IGNORED ∧
    tree_sitter_djot_external_scanner_scan s lexer valid_symbols =
      some (true,
        { s with
          open_blocks := s.open_blocks.tail
          blocks_to_close := d - 1
          delayed_token := .DIV_END
          delayed_token_width := 3
          whitespace := (consume_whitespace lexer.mark_end).1 },
        { input := text, marked := lexer.input, result_symbol := .BLOCK_CLOSE }) ∧
    (∃ top, s.open_blocks = top :: s.open_blocks.tail) ∧
    ∀ calls : List Call, calls.length = d - 1 →
      (∀ c ∈ calls, c.valid_symbols .BLOCK_CLOSE = true) →
      ∃ sf trace,
        scan_calls
          { s with
            open_blocks := s.open_blocks.tail
            blocks_to_close := d - 1
            delayed_token := .DIV_END
            delayed_token_width := 3
            whitespace := (consume_whitespace lexer.mark_end).1 } calls = some (sf, trace) ∧
        trace.length = d - 1 ∧
        (∀ o ∈ trace, o.returned = true ∧ o.symbol = .BLOCK_CLOSE ∧
          ∃ top, o.before.open_blocks = top :: o.after.open_blocks) ∧
        sf.open_blocks = s.open_blocks.drop d ∧
        ∀ v : TokenType → Bool, ∃ sff lexerf,
          tree_sitter_djot_external_scanner_scan sf (TSLexer.start lexer.input) v =
            some (true, sff, lexerf) ∧
          lexerf.result_symbol = .DIV_END ∧ sff.open_blocks = sf.open_blocks ∧
          sff.delayed_token = .IGNORED := by
  obtain ⟨hs1, hb, hdel⟩ := reaches_facts (by decide) hreach
  obtain ⟨hmarked, _⟩ := reaches_cursor (by decide) hreach
  have hle := number_of_blocks_from_top_le s1 .DIV n
  rw [hd] at hle
  have hlen : d ≤ s.open_blocks.length := by rw [hs1] at hle; exact hle
  obtain ⟨top, rest, hstack⟩ : ∃ top rest, s.open_blocks = top :: rest := by
    cases hso : s.open_blocks with
    | nil => simp [hso] at hlen; omega
    | cons top rest => exact ⟨top, rest, rfl⟩
  have hlook : lexer1.lookahead = 58 := by
    obtain ⟨k, rfl⟩ : ∃ k, n = k + 1 := ⟨n - 1, by omega⟩
    simp [TSLexer.lookahead, hinput, List.replicate_succ]
  have hmod : (d + 255) % 256 = d - 1 := by omega
  have hscan : tree_sitter_djot_external_scanner_scan s lexer valid_symbols =
      some (true,
        { s with
          open_blocks := s.open_blocks.tail
          blocks_to_close := d - 1
          delayed_token := .DIV_END
          delayed_token_width := 3
          whitespace := (consume_whitespace lexer.mark_end).1 },
        { input := text, marked := lexer.input, result_symbol := .BLOCK_CLOSE }) := by
    rw [scan_of_reaches_dispatch hreach]
    have hpc := parse_colon_at_fence s1 lexer1 valid_symbols n text hdiv hinput htext hn3 hn
    rw [hd, if_pos (by omega)] at hpc
    have hdisp : scan_dispatch valid_symbols s1 lexer1 = parse_colon s1 lexer1 valid_symbols := by
      simp [scan_dispatch, hlook]
    simp only [cascade, hdisp, hpc]
    subst hs1
    simp only [close_blocks_with_final_token, scan_entry_blocks_to_close, hb, ne_eq,
      not_true_eq_false, ↓reduceIte, pop_block, set_delayed_token, scan_entry_open_blocks, hstack,
      hmod, List.tail_cons]
    simp [scan_entry, TSLexer.set_result, hmarked]
  refine ⟨hb, hdel, hscan, ⟨top, by rw [hstack]; rfl⟩, ?_⟩
  intro calls hcl hcv
  obtain ⟨sf, trace, h1, h2, h3, h4, h5, h6, h7, h8⟩ := scan_calls_with_debt calls
    { s with
      open_blocks := s.open_blocks.tail
      blocks_to_close := d - 1
      delayed_token := .DIV_END
      delayed_token_width := 3
      whitespace := (consume_whitespace lexer.mark_end).1 }
    (by simp [hcl]) (by simp [hcl, hstack] at hlen ⊢; omega) hcv
  refine ⟨sf, trace, h1, by rw [h7, hcl], h8, ?_, ?_⟩
  · rw [h2, hcl]
    simp only [hstack, List.tail_cons]
    obtain ⟨j, rfl⟩ : ∃ j, d = j + 1 := ⟨d - 1, by omega⟩
    simp
  · intro v
    have hne : (consume_whitespace (TSLexer.start lexer.input).mark_end).2.input ≠ [] := by
      intro he
      have := reaches_eof (by decide) hreach he
      rw [hinput] at this
      obtain ⟨k, rfl⟩ : ∃ k, n = k + 1 := ⟨n - 1, by omega⟩
      simp [List.replicate_succ] at this
    have hfl := scan_flushes_delayed_token sf (TSLexer.start lexer.input) v h3
      (by rw [h4]; simp) (Or.inl hne)
    refine ⟨_, _, hfl, ?_, rfl, rfl⟩
    simp only [TSLexer.mark_end_result_symbol]
    generalize sf.delayed_token_width = w
    have : ∀ (w : Nat) (l : TSLexer),
        (output_delayed_token_loop w l).2.result_symbol = l.result_symbol := by
      intro w
      induction w with
      | zero => intro l; rfl
      | succ w ih => intro l; exact ih l.advance
    rw [this, TSLexer.set_result_result_symbol, h4]

/-- C6, at the stack of a level-4 division inside a level-3 division: the
fence `:::` closes both (distance 2: `BLOCK_CLOSE` with one more close owed and
`DIV_END` buffered), the fence `::::` closes only the inner one (distance 1). -/
theorem division_fence_closes_nested_witness :
    (reaches AT_DISPATCH { init with open_blocks := [⟨.DIV, 4⟩, ⟨.DIV, 3⟩] }
        (TSLexer.start [58, 58, 58]) (fun t => decide (t = .DIV_END))
        { init with open_blocks := [⟨.DIV, 4⟩, ⟨.DIV, 3⟩] } (TSLexer.start [58, 58, 58])
      ∧ tree_sitter_djot_external_scanner_scan { init with open_blocks := [⟨.DIV, 4⟩, ⟨.DIV, 3⟩] }
          (TSLexer.start [58, 58, 58]) (fun t => decide (t = .DIV_END))
        = some (true,
            { init with open_blocks := [⟨.DIV, 3⟩], blocks_to_close := 1,
                        delayed_token := .DIV_END, delayed_token_width := 3 },
            { input := [], marked := [58, 58, 58], result_symbol := .BLOCK_CLOSE }))
    ∧ (reaches AT_DISPATCH { init with open_blocks := [⟨.DIV, 4⟩, ⟨.DIV, 3⟩] }
        (TSLexer.start [58, 58, 58, 58]) (fun t => decide (t = .DIV_END))
        { init with open_blocks := [⟨.DIV, 4⟩, ⟨.DIV, 3⟩] } (TSLexer.start [58, 58, 58, 58])
      ∧ tree_sitter_djot_external_scanner_scan { init with open_blocks := [⟨.DIV, 4⟩, ⟨.DIV, 3⟩] }
          (TSLexer.start [58, 58, 58, 58]) (fun t => decide (t = .DIV_END))
        = some (true,
            { init with open_blocks := [⟨.DIV, 3⟩], blocks_to_close := 0,
                        delayed_token := .DIV_END, delayed_token_width := 3 },
            { input := [], marked := [58, 58, 58, 58], result_symbol := .BLOCK_CLOSE })) :=
  ⟨⟨by decide,
    (division_fence_closes_nested { init with open_blocks := [⟨.DIV, 4⟩, ⟨.DIV, 3⟩] }
      (TSLexer.start [58, 58, 58]) (fun t => decide (t = .DIV_END))
      { init with open_blocks := [⟨.DIV, 4⟩, ⟨.DIV, 3⟩] } (TSLexer.start [58, 58, 58])
      3 [] 2 (by decide) (by decide) rfl (by decide) (by decide) (by decide) rfl (by decide)
      (by decide)).2.2.1⟩,
   ⟨by decide,
    (division_fence_closes_nested { init with open_blocks := [⟨.DIV, 4⟩, ⟨.DIV, 3⟩] }
      (TSLexer.start [58, 58, 58, 58]) (fun t => decide (t = .DIV_END))
      { init with open_blocks := [⟨.DIV, 4⟩, ⟨.DIV, 3⟩] } (TSLexer.start [58, 58, 58, 58])
      4 [] 1 (by decide) (by decide) rfl (by decide) (by decide) (by decide) rfl (by decide)
      (by decide)).2.2.1⟩⟩

/-! ## C7 -/

/-- C7. Code-fence exactness: when a scan call arrives at the character dispatch
with a `CODE_BLOCK` of level `n` on top of the stack and the cursor at a run of
`m` backticks (`3 ≤ m ≤ 255`, `3 ≤ n ≤ 255`), the backticks are counted as `m`
and `parse_code_block` on that count closes the block (removes it, writes
`BLOCK_CLOSE`, buffers `CODE_BLOCK_END` with width 3) if `m = n`, and if
`m ≠ n` returns `false` and leaves the scanner and the cursor as they were; so
it closes exactly when `m = n`, and in neither case is a block pushed. -/
theorem code_fence_exactness (s : Scanner) (lexer : TSLexer)
    (valid_symbols : TokenType → Bool) (s1 : Scanner) (lexer1 : TSLexer)
    (n m : Nat) (text : List Nat) (rest : List Block)
    (hreach : reaches AT_DISPATCH s lexer valid_symbols s1 lexer1)
    (hstack : s1.open_blocks = ⟨.CODE_BLOCK, n⟩ :: rest)
    (hinput : lexer1.input = List.replicate m 96 ++ text) (htext : text.head? ≠ some 96)
    (hm3 : 3 ≤ m) (hm : m ≤ 255) (hn3 : 3 ≤ n) (hn : n ≤ 255) :
    consume_chars lexer1 96 = (m, { lexer1 with input := text }) ∧
    (m = n →
      parse_code_block s1 { lexer1 with input := text } m =
        some (true,
          { s1 with open_blocks := rest, blocks_to_close := 0,
                    delayed_token := .CODE_BLOCK_END, delayed_token_width := 3 },
          { input := text, marked := text, result_symbol := .BLOCK_CLOSE })) ∧
    (m ≠ n →
      parse_code_block s1 { lexer1 with input := text } m =
        some (false, s1, { lexer1 with input := text })) ∧
    ((∃ s2 lexer2, parse_code_block s1 { lexer1 with input := text } m = some (true, s2, lexer2))
      ↔ m = n) ∧
    (∀ ok s2 lexer2, parse_code_block s1 { lexer1 with input := text } m = some (ok, s2, lexer2) →
      s2.open_blocks.length ≤ s1.open_blocks.length) := by
  obtain ⟨hs1, hb, _⟩ := reaches_facts (by decide) hreach
  have hb1 : s1.blocks_to_close = 0 := by rw [hs1]; exact hb
  have hcons : consume_chars lexer1 96 = (m, { lexer1 with input := text }) := by
    simp only [consume_chars, hinput,
      consume_chars_loop_replicate 96 m text 0 htext (by decide)]
    have : (0 + m) % 256 = m := by omega
    rw [this]
  have h3 : ¬ m < 3 := by omega
  have heq : m = n → parse_code_block s1 { lexer1 with input := text } m =
      some (true,
        { s1 with open_blocks := rest, blocks_to_close := 0,
                  delayed_token := .CODE_BLOCK_END, delayed_token_width := 3 },
        { input := text, marked := text, result_symbol := .BLOCK_CLOSE }) := by
    intro hmn
    subst hmn
    simp [parse_code_block, h3, hstack, close_blocks_with_final_token, hb1, pop_block,
      set_delayed_token, TSLexer.mark_end, TSLexer.set_result]
  have hne : m ≠ n → parse_code_block s1 { lexer1 with input := text } m =
      some (false, s1, { lexer1 with input := text }) := by
    intro hmn
    simp [parse_code_block, h3, hstack, Ne.symm hmn]
  refine ⟨hcons, heq, hne, ⟨?_, fun h => ⟨_, _, heq h⟩⟩, ?_⟩
  · rintro ⟨s2, lexer2, h⟩
    by_contra hmn
    rw [hne hmn] at h
    simp at h
  · intro ok s2 lexer2 h
    by_cases hmn : m = n
    · rw [heq hmn] at h
      simp only [Option.some.injEq, Prod.mk.injEq] at h
      rw [← h.2.1, hstack]
      simp
    · rw [hne hmn] at h
      simp only [Option.some.injEq, Prod.mk.injEq] at h
      rw [← h.2.1]

/-- C7, at a code block opened with four backticks: three backticks do not close
it, `parse_code_block` returns `false` and changes nothing. -/
theorem code_fence_exactness_witness :
    reaches AT_DISPATCH { init with open_blocks := [⟨.CODE_BLOCK, 4⟩] }
        (TSLexer.start [96, 96, 96, 10]) (fun t => decide (t = .BLOCK_CLOSE))
        { init with open_blocks := [⟨.CODE_BLOCK, 4⟩] } (TSLexer.start [96, 96, 96, 10])
    ∧ parse_code_block { init with open_blocks := [⟨.CODE_BLOCK, 4⟩] }
        { input := [10], marked := [96, 96, 96, 10], result_symbol := .IGNORED } 3
      = some (false, { init with open_blocks := [⟨.CODE_BLOCK, 4⟩] },
          { input := [10], marked := [96, 96, 96, 10], result_symbol := .IGNORED }) :=
  ⟨by decide,
   (code_fence_exactness { init with open_blocks := [⟨.CODE_BLOCK, 4⟩] }
      (TSLexer.start [96, 96, 96, 10]) (fun t => decide (t = .BLOCK_CLOSE))
      { init with open_blocks := [⟨.CODE_BLOCK, 4⟩] } (TSLexer.start [96, 96, 96, 10])
      4 3 [10] [] (by decide) rfl rfl (by decide) (by decide) (by decide) (by decide)
      (by decide)).2.2.1 (by decide)⟩

/-! ## C8 -/

/-- The rest of the line: the text up to the first newline. -/
theorem consume_line_loop_ok (c : Nat) (hc10 : c ≠ 10) (l : List Nat) (seen : Nat)
    (hseen : seen < 256)
    (hall : ∀ x ∈ l.takeWhile (fun x => decide (x ≠ 10)), x = c ∨ x = 32 ∨ x = 9) :
    consume_line_with_char_or_whitespace_loop c l seen =
      ((seen + (l.takeWhile (fun x => decide (x ≠ 10))).count c) % 256,
        l.dropWhile (fun x => decide (x ≠ 10))) := by
  induction l generalizing seen with
  | nil => simp [consume_line_with_char_or_whitespace_loop, Nat.mod_eq_of_lt hseen]
  | cons x xs ih =>
    by_cases hx10 : x = 10
    · subst hx10
      have hne : ¬ (10 = c) := fun h => hc10 h.symm
      simp [consume_line_with_char_or_whitespace_loop, hne, Nat.mod_eq_of_lt hseen]
    · have htw : (x :: xs).takeWhile (fun x => decide (x ≠ 10)) =
          x :: xs.takeWhile (fun x => decide (x ≠ 10)) := by
        simp [List.takeWhile_cons, hx10]
      have hdw : (x :: xs).dropWhile (fun x => decide (x ≠ 10)) =
          xs.dropWhile (fun x => decide (x ≠ 10)) := by
        simp [List.dropWhile_cons, hx10]
      rw [htw] at hall
      have hx := hall x (List.mem_cons_self _ _)
      have hxs : ∀ y ∈ xs.takeWhile (fun x => decide (x ≠ 10)), y = c ∨ y = 32 ∨ y = 9 :=
        fun y hy => hall y (List.mem_cons_of_mem _ hy)
      rw [htw, hdw]
      by_cases hxc : x = c
      · subst hxc
        rw [consume_line_with_char_or_whitespace_loop, if_pos rfl,
          ih _ (Nat.mod_lt _ (by decide)) hxs]
        simp only [List.count_cons_self]
        congr 1
        omega
      · have hsp : x = 32 ∨ x = 9 := by
          rcases hx with h | h | h
          · exact absurd h hxc
          · exact Or.inl h
          · exact Or.inr h
        rw [consume_line_with_char_or_whitespace_loop, if_neg hxc, if_pos hsp, ih _ hseen hxs]
        simp [List.count_cons, hxc]

theorem consume_line_loop_bad (c : Nat) (l : List Nat) (seen : Nat)
    (hbad : ¬ ∀ x ∈ l.takeWhile (fun x => decide (x ≠ 10)), x = c ∨ x = 32 ∨ x = 9) :
    (consume_line_with_char_or_whitespace_loop c l seen).1 = 0 := by
  induction l generalizing seen with
  | nil => simp at hbad
  | cons x xs ih =>
    by_cases hx10 : x = 10
    · subst hx10
      simp [List.takeWhile_cons] at hbad
    · have htw : (x :: xs).takeWhile (fun x => decide (x ≠ 10)) =
          x :: xs.takeWhile (fun x => decide (x ≠ 10)) := by
        simp [List.takeWhile_cons, hx10]
      rw [htw] at hbad
      by_cases hx : x = c ∨ x = 32 ∨ x = 9
      · have hxs : ¬ ∀ y ∈ xs.takeWhile (fun x => decide (x ≠ 10)), y = c ∨ y = 32 ∨ y = 9 := by
          intro h
          apply hbad
          intro y hy
          rcases List.mem_cons.mp hy with rfl | hy
          · exact hx
          · exact h y hy
        rw [consume_line_with_char_or_whitespace_loop]
        split_ifs <;> first | exact ih _ hxs | rfl
      · have h1 : ¬ x = c := fun h => hx (Or.inl h)
        have h2 : ¬ (x = 32 ∨ x = 9) := fun h => hx (Or.inr h)
        rw [consume_line_with_char_or_whitespace_loop, if_neg h1, if_neg h2, if_neg hx10]

/-- The statements after the character dispatch return `BLOCK_CLOSE` or a list
marker. -/
theorem scan_ordered_and_lists_symbol {valid_symbols : TokenType → Bool} {non_newline : Bool}
    {s s1 : Scanner} {lexer lexer1 : TSLexer}
    (h : scan_ordered_and_lists valid_symbols non_newline s lexer = some (true, s1, lexer1)) :
    lexer1.result_symbol = .BLOCK_CLOSE ∨
      (list_marker_to_block lexer1.result_symbol).isSome = true := by
  simp only [scan_ordered_and_lists] at h
  refine cascade_true_inv (fun _ _ => True)
    (fun _ lx => lx.result_symbol = .BLOCK_CLOSE ∨
      (list_marker_to_block lx.result_symbol).isSome = true) _ ?_ ?_ _ _ _ _ trivial h
  · intros; trivial
  · intro rule hrule s0 lx0 s2 lx2 _ hr
    simp only [List.mem_cons, List.mem_singleton, List.not_mem_nil, or_false] at hrule
    rcases hrule with rfl | rfl
    · unfold guarded at hr
      split_ifs at hr
      · simp only [handle_ordered_list_marker] at hr
        split_ifs at hr
        · split at hr
          · simp at hr
          · rename_i ty hty
            simp only [Option.some.injEq, Prod.mk.injEq, true_and] at hr
            right
            rw [← hr.2]
            simp [hty]
        · simp at hr
      · simp at hr
    · unfold guarded at hr
      split_ifs at hr with hv
      · left
        have hcd : ∀ (s0 : Scanner) (lx0 : TSLexer) (list : Block) (marker : TokenType)
            (s2 : Scanner) (lx2 : TSLexer),
            close_different_list_if_needed s0 lx0 list marker = some (true, s2, lx2) →
            lx2.result_symbol = .BLOCK_CLOSE := by
          intro s0 lx0 list marker s2 lx2 hcd
          simp only [close_different_list_if_needed] at hcd
          split_ifs at hcd
          · split at hcd
            · simp at hcd
            · split_ifs at hcd
              · split at hcd
                · simp at hcd
                · simp only [Option.some.injEq, Prod.mk.injEq, true_and] at hcd
                  rw [← hcd.2]
                  rfl
              · simp at hcd
          · simp at hcd
        simp only [close_lists_if_needed] at hr
        split_ifs at hr
        · simp at hr
        · split at hr
          · simp at hr
          · split_ifs at hr
            · split at hr
              · simp at hr
              · simp only [Option.some.injEq, Prod.mk.injEq, true_and] at hr
                rw [← hr.2]
                rfl
            · split at hr
              · simp at hr
              · rename_i s3 lx3 hcd1
                simp only [Option.some.injEq, Prod.mk.injEq, true_and] at hr
                rw [← hr.2]
                exact hcd _ _ _ _ _ _ hcd1
              · exact hcd _ _ _ _ _ _ hr
      · simp at hr

theorem parse_list_marker_or_thematic_break_both (s1 : Scanner) (lexer1 : TSLexer)
    (valid_symbols : TokenType → Bool) (c : Nat) (marker_type : TokenType)
    (list_type : BlockType) (thematic_break_type : TokenType) (rest : List Nat)
    (hvm : valid_symbols marker_type = true) (hvt : valid_symbols thematic_break_type = true)
    (hinput : lexer1.input = c :: rest) :
    parse_list_marker_or_thematic_break s1 lexer1 valid_symbols c marker_type list_type
        thematic_break_type =
      if 2 ≤ (consume_line_with_char_or_whitespace_loop c rest 0).1 then
        some (true, s1,
          { input := (consume_line_with_char_or_whitespace_loop c rest 0).2,
            marked := (consume_line_with_char_or_whitespace_loop c rest 0).2,
            result_symbol := thematic_break_type })
      else if rest.headD 0 = 32 then
        some (true, ensure_list_open s1 list_type ((s1.whitespace + 1) % 256),
          { input := (consume_line_with_char_or_whitespace_loop c rest 0).2,
            marked := (consume_line_with_char_or_whitespace_loop c rest 0).2,
            result_symbol := marker_type })
      else
        some (false, s1,
          { lexer1 with input := (consume_line_with_char_or_whitespace_loop c rest 0).2 }) := by
  obtain ⟨input, marked, sym⟩ := lexer1
  simp only [] at hinput
  subst hinput
  simp only [parse_list_marker_or_thematic_break, hvm, hvt, Bool.not_true, Bool.and_self,
    Bool.false_eq_true, ↓reduceIte, TSLexer.lookahead, List.headD_cons, ne_eq, not_true_eq_false,
    TSLexer.advance, List.tail_cons, consume_line_with_char_or_whitespace, Bool.true_and,
    decide_eq_true_eq, ge_iff_le, TSLexer.set_result, TSLexer.mark_end]

/-- C8. Thematic break precedence: when a scan call arrives at the character
dispatch at the marker `c` (`-` or `*`) with both the list marker for `c` and
the thematic break for `c` acceptable, and the rest of the line after that `c`
holds fewer than 256 further `c`, then the call returns the thematic-break token
exactly when the rest of the line consists only of `c`, spaces and tabs and
holds at least two further `c` (whether or not a space follows the first `c`);
it then consumes the line and leaves the scanner, so the block stack, as it
was. -/
theorem thematic_break_precedence (s : Scanner) (lexer : TSLexer)
    (valid_symbols : TokenType → Bool) (s1 : Scanner) (lexer1 : TSLexer)
    (c : Nat) (marker_type thematic_break_type : TokenType) (rest : List Nat)
    (hreach : reaches AT_DISPATCH s lexer valid_symbols s1 lexer1)
    (hc : (c = 45 ∧ marker_type = .LIST_MARKER_DASH ∧ thematic_break_type = .THEMATIC_BREAK_DASH) ∨
      (c = 42 ∧ marker_type = .LIST_MARKER_STAR ∧ thematic_break_type = .THEMATIC_BREAK_STAR))
    (hinput : lexer1.input = c :: rest)
    (hvm : valid_symbols marker_type = true) (hvt : valid_symbols thematic_break_type = true)
    (hcount : (rest.takeWhile (fun x => decide (x ≠ 10))).count c < 256) :
    ((∃ s2 lexer2, tree_sitter_djot_external_scanner_scan s lexer valid_symbols =
          some (true, s2, lexer2) ∧ lexer2.result_symbol = thematic_break_type)
      ↔ ((∀ x ∈ rest.takeWhile (fun x => decide (x ≠ 10)), x = c ∨ x = 32 ∨ x = 9) ∧
          2 ≤ (rest.takeWhile (fun x => decide (x ≠ 10))).count c)) ∧
    (((∀ x ∈ rest.takeWhile (fun x => decide (x ≠ 10)), x = c ∨ x = 32 ∨ x = 9) ∧
          2 ≤ (rest.takeWhile (fun x => decide (x ≠ 10))).count c) →
      tree_sitter_djot_external_scanner_scan s lexer valid_symbols =
        some (true, { s with whitespace := (consume_whitespace lexer.mark_end).1 },
          { input := rest.dropWhile (fun x => decide (x ≠ 10)),
            marked := rest.dropWhile (fun x => decide (x ≠ 10)),
            result_symbol := thematic_break_type })) := by
  have hs1 := reaches_state hreach
  have hc10 : c ≠ 10 := by rcases hc with ⟨h, _⟩ | ⟨h, _⟩ <;> omega
  have hth : list_marker_to_block thematic_break_type = none ∧
      thematic_break_type ≠ .BLOCK_CLOSE ∧ thematic_break_type ≠ marker_type := by
    rcases hc with ⟨_, h1, h2⟩ | ⟨_, h1, h2⟩ <;> subst h1 h2 <;> simp [list_marker_to_block]
  have hdisp : ∃ list_type, scan_dispatch valid_symbols s1 lexer1 =
      parse_list_marker_or_thematic_break s1 lexer1 valid_symbols c marker_type list_type
        thematic_break_type := by
    rcases hc with ⟨h0, h1, h2⟩ | ⟨h0, h1, h2⟩
    · subst h0 h1 h2
      exact ⟨.LIST_DASH, by simp [scan_dispatch, TSLexer.lookahead, hinput, parse_dash]⟩
    · subst h0 h1 h2
      exact ⟨.LIST_STAR, by simp [scan_dispatch, TSLexer.lookahead, hinput, parse_star]⟩
  obtain ⟨list_type, hdisp⟩ := hdisp
  have hparse := parse_list_marker_or_thematic_break_both s1 lexer1 valid_symbols c marker_type
    list_type thematic_break_type rest hvm hvt hinput
  have hscan := scan_of_reaches_dispatch hreach
  simp only [cascade, hdisp, hparse] at hscan
  have hyes : ((∀ x ∈ rest.takeWhile (fun x => decide (x ≠ 10)), x = c ∨ x = 32 ∨ x = 9) ∧
        2 ≤ (rest.takeWhile (fun x => decide (x ≠ 10))).count c) →
      tree_sitter_djot_external_scanner_scan s lexer valid_symbols =
        some (true, { s with whitespace := (consume_whitespace lexer.mark_end).1 },
          { input := rest.dropWhile (fun x => decide (x ≠ 10)),
            marked := rest.dropWhile (fun x => decide (x ≠ 10)),
            result_symbol := thematic_break_type }) := by
    rintro ⟨hall, h2⟩
    have hl := consume_line_loop_ok c hc10 rest 0 (by decide) hall
    have hmod : (0 + (rest.takeWhile (fun x => decide (x ≠ 10))).count c) % 256 =
        (rest.takeWhile (fun x => decide (x ≠ 10))).count c := by omega
    rw [hl, hmod] at hscan
    simp only [h2, ↓reduceIte] at hscan
    rw [hscan, hs1]
    rfl
  refine ⟨⟨?_, fun h => ⟨_, _, hyes h, rfl⟩⟩, hyes⟩
  rintro ⟨s2, lexer2, hsc, hsym⟩
  by_contra hcond
  have hlow : ¬ 2 ≤ (consume_line_with_char_or_whitespace_loop c rest 0).1 := by
    by_cases hall : ∀ x ∈ rest.takeWhile (fun x => decide (x ≠ 10)), x = c ∨ x = 32 ∨ x = 9
    · have hl := consume_line_loop_ok c hc10 rest 0 (by decide) hall
      rw [hl]
      simp only [Nat.zero_add]
      intro h2
      apply hcond
      refine ⟨hall, ?_⟩
      omega
    · rw [consume_line_loop_bad c rest 0 hall]
      omega
  simp only [hlow, ↓reduceIte] at hscan
  rw [hsc] at hscan
  split_ifs at hscan
  · simp only [Option.some.injEq, Prod.mk.injEq, true_and] at hscan
    rw [hscan.2] at hsym
    exact hth.2.2 hsym.symm
  · simp only [] at hscan
    have htail : scan_ordered_and_lists valid_symbols (scan_entry s lexer).2.2 s1
        { lexer1 with input := (consume_line_with_char_or_whitespace_loop c rest 0).2 } =
        some (true, s2, lexer2) := by
      cases ht : scan_ordered_and_lists valid_symbols (scan_entry s lexer).2.2 s1
          { lexer1 with input := (consume_line_with_char_or_whitespace_loop c rest 0).2 } with
      | none => simp [ht] at hscan
      | some r =>
        obtain ⟨ok, s3, lexer3⟩ := r
        cases ok
        · simp [ht] at hscan
        · simp only [ht, Option.some.injEq, Prod.mk.injEq, true_and] at hscan
          rw [hscan.1, hscan.2]
    have := scan_ordered_and_lists_symbol htail
    rw [hsym] at this
    rcases this with h | h
    · exact hth.2.1 h
    · simp [hth.1] at h

/-- C8, at the line `- - -` with both the dash list marker and the dash thematic
break acceptable: the call returns `THEMATIC_BREAK_DASH`, not
`LIST_MARKER_DASH`, and opens no list. -/
theorem thematic_break_precedence_witness :
    reaches AT_DISPATCH init (TSLexer.start [45, 32, 45, 32, 45])
        (fun t => decide (t = .LIST_MARKER_DASH ∨ t = .THEMATIC_BREAK_DASH))
        init (TSLexer.start [45, 32, 45, 32, 45])
    ∧ tree_sitter_djot_external_scanner_scan init (TSLexer.start [45, 32, 45, 32, 45])
        (fun t => decide (t = .LIST_MARKER_DASH ∨ t = .THEMATIC_BREAK_DASH))
      = some (true, init,
          { input := [], marked := [], result_symbol := .THEMATIC_BREAK_DASH }) :=
  ⟨by decide,
   (thematic_break_precedence init (TSLexer.start [45, 32, 45, 32, 45])
      (fun t => decide (t = .LIST_MARKER_DASH ∨ t = .THEMATIC_BREAK_DASH))
      init (TSLexer.start [45, 32, 45, 32, 45]) 45 .LIST_MARKER_DASH .THEMATIC_BREAK_DASH
      [32, 45, 32, 45] (by decide) (Or.inl ⟨rfl, rfl, rfl⟩) rfl (by decide) (by decide)
      (by decide)).2 (by decide)⟩

/-! ## C9 -/

theorem scan_ordered_list_enumerator_loop_run (type : OrderedListType) (run rest : List Nat)
    (scanned : Nat) (hscanned : scanned < 256)
    (hrun : ∀ x ∈ run, matches_ordered_list type (to_char x) = true)
    (hrest : ∀ x, rest.head? = some x → matches_ordered_list type (to_char x) = false) :
    scan_ordered_list_enumerator_loop type (run ++ rest) scanned =
      ((scanned + run.length) % 256, rest) := by
  induction run generalizing scanned with
  | nil =>
    simp only [List.nil_append, List.length_nil, Nat.add_zero, Nat.mod_eq_of_lt hscanned]
    cases rest with
    | nil => rfl
    | cons x xs =>
      have := hrest x rfl
      simp [scan_ordered_list_enumerator_loop, this]
  | cons y ys ih =>
    have hy := hrun y (List.mem_cons_self _ _)
    have hys : ∀ x ∈ ys, matches_ordered_list type (to_char x) = true :=
      fun x hx => hrun x (List.mem_cons_of_mem _ hx)
    rw [List.cons_append, scan_ordered_list_enumerator_loop, if_pos hy,
      ih _ (Nat.mod_lt _ (by decide)) hys]
    simp only [List.length_cons]
    congr 1
    omega

theorem scan_ordered_list_enumerator_loop_none (type : OrderedListType) (l : List Nat)
    (scanned : Nat)
    (hl : ∀ x, l.head? = some x → matches_ordered_list type (to_char x) = false) :
    scan_ordered_list_enumerator_loop type l scanned = (scanned, l) := by
  cases l with
  | nil => rfl
  | cons x xs =>
    have := hl x rfl
    simp [scan_ordered_list_enumerator_loop, this]

/-- C9. Enumerator priority: for every non-empty run, shorter than 256
characters, of lower-case roman-numeral letters (i, v, x, l, c, d, m) directly
followed by `.`, `scan_ordered_list_marker_token` returns
`LIST_MARKER_LOWER_ROMAN_PERIOD` (so not the lower-alpha marker) and stops at
the `.`; likewise `LIST_MARKER_UPPER_ROMAN_PERIOD` for a run of upper-case
roman-numeral letters; while `a.` gives `LIST_MARKER_LOWER_ALPHA_PERIOD` and
`A.` gives `LIST_MARKER_UPPER_ALPHA_PERIOD`. -/
theorem enumerator_priority (lexer : TSLexer) (run text : List Nat)
    (hinput : lexer.input = run ++ 46 :: text) (hne : run ≠ []) (hlen : run.length < 256) :
    ((∀ x ∈ run, x ∈ [105, 118, 120, 108, 99, 100, 109]) →
      scan_ordered_list_marker_token lexer =
        (.LIST_MARKER_LOWER_ROMAN_PERIOD, { lexer with input := 46 :: text })) ∧
    ((∀ x ∈ run, x ∈ [73, 86, 88, 76, 67, 68, 77]) →
      scan_ordered_list_marker_token lexer =
        (.LIST_MARKER_UPPER_ROMAN_PERIOD, { lexer with input := 46 :: text })) ∧
    (scan_ordered_list_marker_token (TSLexer.start [97, 46])).1
      = .LIST_MARKER_LOWER_ALPHA_PERIOD ∧
    (scan_ordered_list_marker_token (TSLexer.start [65, 46])).1
      = .LIST_MARKER_UPPER_ALPHA_PERIOD := by
  obtain ⟨input, marked, sym⟩ := lexer
  simp only [] at hinput
  subst hinput
  obtain ⟨y, ys, rfl⟩ : ∃ y ys, run = y :: ys := by
    cases run with
    | nil => exact absurd rfl hne
    | cons y ys => exact ⟨y, ys, rfl⟩
  have hlenpos : ((0 + (y :: ys).length) % 256 > 0) := by
    simp only [List.length_cons] at hlen ⊢
    omega
  have hdot : ∀ type x, (46 :: text).head? = some x →
      matches_ordered_list type (to_char x) = false := by
    intro type x hx
    simp only [List.head?_cons, Option.some.injEq] at hx
    subst hx
    cases type <;> rfl
  refine ⟨?_, ?_, by decide, by decide⟩
  · intro hall
    have hy : y ∈ [105, 118, 120, 108, 99, 100, 109] := hall y (List.mem_cons_self _ _)
    have hrun : ∀ x ∈ y :: ys, matches_ordered_list .LOWER_ROMAN (to_char x) = true := by
      intro x hx
      have := hall x hx
      simp only [List.mem_cons, List.mem_singleton, List.not_mem_nil, or_false] at this
      rcases this with h | h | h | h | h | h | h <;> subst h <;> rfl
    have hdec : ∀ x, ((y :: ys) ++ 46 :: text).head? = some x →
        matches_ordered_list .DECIMAL (to_char x) = false := by
      intro x hx
      simp only [List.cons_append, List.head?_cons, Option.some.injEq] at hx
      subst hx
      simp only [List.mem_cons, List.mem_singleton, List.not_mem_nil, or_false] at hy
      rcases hy with h | h | h | h | h | h | h <;> subst h <;> rfl
    have hpar : ¬ (y = 40) := by
      simp only [List.mem_cons, List.mem_singleton, List.not_mem_nil, or_false] at hy
      omega
    have h1 := scan_ordered_list_enumerator_loop_none .DECIMAL _ 0 hdec
    have h2 := scan_ordered_list_enumerator_loop_run .LOWER_ROMAN (y :: ys) (46 :: text) 0
      (by decide) hrun (hdot _)
    simp only [scan_ordered_list_marker_token, TSLexer.lookahead, List.cons_append,
      List.headD_cons, hpar, decide_False, Bool.false_eq_true, ↓reduceIte,
      scan_ordered_list_type, scan_ordered_list_enumerator]
    simp only [List.cons_append] at h1 h2
    simp only [h1, h2, gt_iff_lt, lt_self_iff_false, decide_False, Bool.false_eq_true,
      ↓reduceIte, hlenpos, decide_True, List.headD_cons]
    norm_num [marker_period]
  · intro hall
    have hy : y ∈ [73, 86, 88, 76, 67, 68, 77] := hall y (List.mem_cons_self _ _)
    have hrun : ∀ x ∈ y :: ys, matches_ordered_list .UPPER_ROMAN (to_char x) = true := by
      intro x hx
      have := hall x hx
      simp only [List.mem_cons, List.mem_singleton, List.not_mem_nil, or_false] at this
      rcases this with h | h | h | h | h | h | h <;> subst h <;> rfl
    have hdec : ∀ x, ((y :: ys) ++ 46 :: text).head? = some x →
        matches_ordered_list .DECIMAL (to_char x) = false := by
      intro x hx
      simp only [List.cons_append, List.head?_cons, Option.some.injEq] at hx
      subst hx
      simp only [List.mem_cons, List.mem_singleton, List.not_mem_nil, or_false] at hy
      rcases hy with h | h | h | h | h | h | h <;> subst h <;> rfl
    have hlow : ∀ x, ((y :: ys) ++ 46 :: text).head? = some x →
        matches_ordered_list .LOWER_ROMAN (to_char x) = false := by
      intro x hx
      simp only [List.cons_append, List.head?_cons, Option.some.injEq] at hx
      subst hx
      simp only [List.mem_cons, List.mem_singleton, List.not_mem_nil, or_false] at hy
      rcases hy with h | h | h | h | h | h | h <;> subst h <;> rfl
    have hpar : ¬ (y = 40) := by
      simp only [List.mem_cons, List.mem_singleton, List.not_mem_nil, or_false] at hy
      omega
    have h1 := scan_ordered_list_enumerator_loop_none .DECIMAL _ 0 hdec
    have h2 := scan_ordered_list_enumerator_loop_none .LOWER_ROMAN _ 0 hlow
    have h3 := scan_ordered_list_enumerator_loop_run .UPPER_ROMAN (y :: ys) (46 :: text) 0
      (by decide) hrun (hdot _)
    simp only [scan_ordered_list_marker_token, TSLexer.lookahead, List.cons_append,
      List.headD_cons, hpar, decide_False, Bool.false_eq_true, ↓reduceIte,
      scan_ordered_list_type, scan_ordered_list_enumerator]
    simp only [List.cons_append] at h1 h2 h3
    simp only [h1, h2, h3, gt_iff_lt, lt_self_iff_false, decide_False, Bool.false_eq_true,
      ↓reduceIte, hlenpos, decide_True, List.headD_cons]
    norm_num [marker_period]

/-- C9, at `i.`: the lower-roman marker. -/
theorem enumerator_priority_witness :
    scan_ordered_list_marker_token (TSLexer.start [105, 46]) =
      (.LIST_MARKER_LOWER_ROMAN_PERIOD,
        { input := [46], marked := [105, 46], result_symbol := .IGNORED }) :=
  (enumerator_priority (TSLexer.start [105, 46]) [105] [] rfl (by decide) (by decide)).1
    (by decide)

/-! ## The list-item-end rule -/

theorem scan_of_reaches_list_item_end {s s1 : Scanner} {lexer lexer1 : TSLexer}
    {valid_symbols : TokenType → Bool}
    (h : reaches AT_LIST_ITEM_END s lexer valid_symbols s1 lexer1) :
    tree_sitter_djot_external_scanner_scan s lexer valid_symbols =
      cascade [guarded (valid_symbols .LIST_ITEM_END)
          (fun s lexer => parse_list_item_end s lexer valid_symbols),
        scan_dispatch valid_symbols,
        scan_ordered_and_lists valid_symbols (scan_entry s lexer).2.2] s1 lexer1 := by
  rw [scan_of_reaches h]
  rfl

/-- A scan call that has no delayed token and returns `LIST_ITEM_END` has a
list block on top whose level is above the whitespace of the call. -/
theorem scan_list_item_end_only_below_level {s s2 : Scanner} {lexer lexer2 : TSLexer}
    {valid_symbols : TokenType → Bool} (hd : s.delayed_token = .IGNORED)
    (h : tree_sitter_djot_external_scanner_scan s lexer valid_symbols = some (true, s2, lexer2))
    (hsym : lexer2.result_symbol = .LIST_ITEM_END) :
    ∃ list rest, s.open_blocks = list :: rest ∧ is_list list.type = true ∧
      (consume_whitespace lexer.mark_end).1 < list.level := by
  have he := scan_true_effect h
  generalize lexer2.result_symbol = t at he hsym
  cases he with
  | delayed hne => exact absurd hd hne
  | list_item_end list rest hv hs hl hw => exact ⟨list, rest, hs, hl, hw⟩
  | list_item_end_closing list rest hv hs hl hw => exact ⟨list, rest, hs, hl, hw⟩
  | thematic_break t ht hv => rcases ht with rfl | rfl <;> simp at hsym
  | list_marker t ty hv hm => subst hsym; simp [list_marker_to_block] at hm
  | _ => simp at hsym

/-- The list-item-end rule as the code branches: when a scan call arrives at the
rule with `LIST_ITEM_END` acceptable, then, if the top of the stack is a list
block of level `L`: (a) with whitespace `≥ L` the rule declines and the call
does not return `LIST_ITEM_END`; (b) with whitespace `< L` and `scan_list_marker`
finding no marker from the cursor that the rule receives, the call returns a
zero-width `LIST_ITEM_END`, leaves the stack as it was and sets
`blocks_to_close` to 1, so that the next call with `BLOCK_CLOSE` acceptable
returns `BLOCK_CLOSE` and removes that list; (c) with whitespace `< L` and
`scan_list_marker` finding a marker from that cursor, the call returns a
zero-width `LIST_ITEM_END` with the scanner unchanged and `blocks_to_close` 0.
If the stack is empty or its top is not a list the rule declines and the call
does not return `LIST_ITEM_END`. The marker that `scan_list_marker` finds need
not stand at the cursor where the call started. -/
theorem parse_list_item_end_at_rule (s : Scanner) (lexer : TSLexer)
    (valid_symbols : TokenType → Bool) (s1 : Scanner) (lexer1 : TSLexer)
    (hreach : reaches AT_LIST_ITEM_END s lexer valid_symbols s1 lexer1)
    (hv : valid_symbols .LIST_ITEM_END = true) :
    (∀ list rest, s1.open_blocks = list :: rest → is_list list.type = true →
      (s1.whitespace ≥ list.level →
        parse_list_item_end s1 lexer1 valid_symbols = some (false, s1, lexer1) ∧
        ∀ s2 lexer2, tree_sitter_djot_external_scanner_scan s lexer valid_symbols =
          some (true, s2, lexer2) → lexer2.result_symbol ≠ .LIST_ITEM_END) ∧
      (s1.whitespace < list.level → (scan_list_marker lexer1).1 = false →
        tree_sitter_djot_external_scanner_scan s lexer valid_symbols =
          some (true, { s1 with blocks_to_close := 1 },
            { input := (scan_list_marker lexer1).2.input, marked := lexer.input,
              result_symbol := .LIST_ITEM_END }) ∧
        ∀ (lexer3 : TSLexer) (v : TokenType → Bool), v .BLOCK_CLOSE = true →
          tree_sitter_djot_external_scanner_scan { s1 with blocks_to_close := 1 } lexer3 v =
            some (true,
              { s1 with open_blocks := rest, blocks_to_close := 0,
                        whitespace := (consume_whitespace lexer3.mark_end).1 },
              (consume_whitespace lexer3.mark_end).2.set_result .BLOCK_CLOSE)) ∧
      (s1.whitespace < list.level → (scan_list_marker lexer1).1 = true →
        tree_sitter_djot_external_scanner_scan s lexer valid_symbols =
          some (true, s1,
            { input := (scan_list_marker lexer1).2.input, marked := lexer.input,
              result_symbol := .LIST_ITEM_END }) ∧
        s1.blocks_to_close = 0)) ∧
    ((s1.open_blocks = [] ∨ ∃ top rest, s1.open_blocks = top :: rest ∧ is_list top.type = false) →
      parse_list_item_end s1 lexer1 valid_symbols = some (false, s1, lexer1) ∧
      ∀ s2 lexer2, tree_sitter_djot_external_scanner_scan s lexer valid_symbols =
        some (true, s2, lexer2) → lexer2.result_symbol ≠ .LIST_ITEM_END) := by
  obtain ⟨hs1, hb, hdel⟩ := reaches_facts (by decide) hreach
  obtain ⟨hmarked, _⟩ := reaches_cursor (by decide) hreach
  have hscan := scan_of_reaches_list_item_end hreach
  have hws : s1.whitespace = (consume_whitespace lexer.mark_end).1 := by rw [hs1]; rfl
  have hob : s1.open_blocks = s.open_blocks := by rw [hs1]; rfl
  have hb1 : s1.blocks_to_close = 0 := by rw [hs1]; exact hb
  have hframe := scan_list_marker_token_frame lexer1
  have hlx : ∀ t, (scan_list_marker lexer1).2.set_result t =
      { input := (scan_list_marker lexer1).2.input, marked := lexer.input, result_symbol := t } := by
    intro t
    simp only [scan_list_marker, TSLexer.set_result, hframe.1, hmarked]
  refine ⟨fun list rest hstack hlist => ⟨fun hge => ⟨?_, ?_⟩, fun hlt hno => ⟨?_, ?_⟩,
    fun hlt hyes => ⟨?_, hb1⟩⟩, fun hnot => ⟨?_, ?_⟩⟩
  · have : ¬ s1.whitespace < list.level := by omega
    simp [parse_list_item_end, hstack, hlist, hge]
  · intro s2 lexer2 h hsym
    obtain ⟨list2, rest2, h1, _, h3⟩ := scan_list_item_end_only_below_level hdel h hsym
    rw [← hob, hstack] at h1
    simp only [List.cons.injEq] at h1
    rw [← h1.1, ← hws] at h3
    omega
  · have hge : ¬ s1.whitespace ≥ list.level := by omega
    rw [hscan]
    simp only [cascade, guarded, hv, ↓reduceIte, parse_list_item_end, hstack, hlist,
      Bool.not_true, Bool.false_eq_true, hge, hno, hlx]
  · intro lexer3 v hvc
    exact scan_with_debt { s1 with blocks_to_close := 1 } lexer3 v list rest hvc hstack
      Nat.zero_lt_one
  · have hge : ¬ s1.whitespace ≥ list.level := by omega
    rw [hscan]
    simp only [cascade, guarded, hv, ↓reduceIte, parse_list_item_end, hstack, hlist,
      Bool.not_true, Bool.false_eq_true, hge, hyes, hlx]
  · rcases hnot with h0 | ⟨top, rest, h0, h1⟩
    · simp [parse_list_item_end, h0]
    · simp [parse_list_item_end, h0, h1]
  · intro s2 lexer2 h hsym
    obtain ⟨list2, rest2, h1, h2, _⟩ := scan_list_item_end_only_below_level hdel h hsym
    rw [← hob] at h1
    rcases hnot with h0 | ⟨top, rest, h0, h3⟩
    · rw [h0] at h1
      simp at h1
    · rw [h0] at h1
      simp only [List.cons.injEq] at h1
      rw [h1.1, h2] at h3
      simp at h3

/-- From `parse_list_item_end_at_rule` at an open dash list of level 3 and the
text `x` with no leading whitespace: the call returns `LIST_ITEM_END` with
`blocks_to_close` set to 1. -/
theorem parse_list_item_end_at_rule_example :
    reaches AT_LIST_ITEM_END { init with open_blocks := [⟨.LIST_DASH, 3⟩] }
        (TSLexer.start [120]) (fun t => decide (t = .LIST_ITEM_END))
        { init with open_blocks := [⟨.LIST_DASH, 3⟩] } (TSLexer.start [120])
    ∧ tree_sitter_djot_external_scanner_scan { init with open_blocks := [⟨.LIST_DASH, 3⟩] }
        (TSLexer.start [120]) (fun t => decide (t = .LIST_ITEM_END))
      = some (true, { init with open_blocks := [⟨.LIST_DASH, 3⟩], blocks_to_close := 1 },
          { input := [], marked := [120], result_symbol := .LIST_ITEM_END }) :=
  ⟨by decide,
   ((((parse_list_item_end_at_rule { init with open_blocks := [⟨.LIST_DASH, 3⟩] }
      (TSLexer.start [120]) (fun t => decide (t = .LIST_ITEM_END))
      { init with open_blocks := [⟨.LIST_DASH, 3⟩] } (TSLexer.start [120])
      (by decide) (by decide)).1 ⟨.LIST_DASH, 3⟩ [] rfl rfl).2.1 (by decide) (by decide)).1)⟩

/-! ## Serialization format and the empty byte sequence -/

/-- The block bytes are the type byte and the level byte of each block in turn. -/
theorem serialize_blocks_eq (l : List Block) :
    serialize_blocks l = (l.map (fun b => [b.type.toNat % 256, b.level % 256])).flatten := by
  induction l with
  | nil => rfl
  | cons b rest ih => simp [serialize_blocks, ih]

/-- Two bytes are written per block. -/
theorem serialize_blocks_length (l : List Block) :
    (serialize_blocks l).length = 2 * l.length := by
  induction l with
  | nil => rfl
  | cons b rest ih => simp [serialize_blocks, ih]; omega

/-- C18: for every state with d open blocks, serialize writes exactly 5 + 2*d
bytes: the five scalar bytes blocks_to_close, delayed token kind, delayed token
width, verbatim_tick_count and whitespace (each field is a `uint8_t`, the byte
is its low eight bits), and then, for each open block from the bottom of the
stack (the last of `open_blocks`) to the top, its type byte followed by its
level byte. -/
theorem serialize_format (s : Scanner) :
    (tree_sitter_djot_external_scanner_serialize s).length = 5 + 2 * s.open_blocks.length ∧
    tree_sitter_djot_external_scanner_serialize s =
      [s.blocks_to_close % 256, s.delayed_token.toNat % 256, s.delayed_token_width % 256,
       s.verbatim_tick_count % 256, s.whitespace % 256] ++
      (s.open_blocks.reverse.map (fun b => [b.type.toNat % 256, b.level % 256])).flatten := by
  constructor
  · simp [tree_sitter_djot_external_scanner_serialize, serialize_blocks_length]; omega
  · simp [tree_sitter_djot_external_scanner_serialize, serialize_blocks_eq]

/-- C19: deserializing an empty byte sequence gives, whatever the scanner held
before, the initial state: empty block stack, blocks_to_close 0, delayed token
IGNORED with width 0, verbatim_tick_count 0 and whitespace 0, which is the
state that create returns. -/
theorem deserialize_empty (payload : Scanner) :
    tree_sitter_djot_external_scanner_deserialize payload [] =
      some { open_blocks := [], blocks_to_close := 0, delayed_token := TokenType.IGNORED,
             delayed_token_width := 0, verbatim_tick_count := 0, whitespace := 0 } ∧
    tree_sitter_djot_external_scanner_deserialize payload [] =
      some tree_sitter_djot_external_scanner_create :=
  ⟨rfl, rfl⟩

/-! ## List level and continuation -/

/-- The `uint8_t` count of `consume_whitespace` is the column count modulo 256. -/
theorem consume_whitespace_loop_columns (l : List Nat) (indent : Nat) :
    (consume_whitespace_loop l indent).1 % 256 = (indent + leading_columns l) % 256 := by
  induction l generalizing indent with
  | nil => simp [consume_whitespace_loop, leading_columns]
  | cons x xs ih =>
    unfold consume_whitespace_loop leading_columns
    split_ifs with h1 h2
    · rw [ih]; omega
    · rw [ih]; omega
    · simp

/-- The count of `consume_whitespace` stays a `uint8_t`. -/
theorem consume_whitespace_loop_lt (l : List Nat) (indent : Nat) (h : indent < 256) :
    (consume_whitespace_loop l indent).1 < 256 := by
  induction l generalizing indent with
  | nil => simpa [consume_whitespace_loop] using h
  | cons x xs ih =>
    unfold consume_whitespace_loop
    split_ifs with h1 h2
    · exact ih _ (Nat.mod_lt _ (by norm_num))
    · exact ih _ (Nat.mod_lt _ (by norm_num))
    · simpa using h

/-- The `whitespace` a scan call stores is the column count of the leading
whitespace modulo 256. -/
theorem scan_entry_whitespace (s : Scanner) (lexer : TSLexer) :
    (scan_entry s lexer).1.whitespace = leading_columns lexer.input % 256 := by
  have h1 := consume_whitespace_loop_columns lexer.input 0
  have h2 := consume_whitespace_loop_lt lexer.input 0 (by norm_num)
  simp only [scan_entry, consume_whitespace, TSLexer.mark_end]
  rw [Nat.zero_add] at h1
  rw [← h1, Nat.mod_eq_of_lt h2]

/-- Every state that scan calls produce from the state of `create` has a
delayed token of a buffered kind, or none. -/
theorem reachable_delayed_token_ok {s : Scanner} (h : Reachable s) : delayed_token_ok s := by
  induction h with
  | create => exact Or.inl rfl
  | scan s lexer valid_symbols ok s1 lexer1 _ hscan ih => exact (scan_stack_step ih hscan).1

/-- C11: whenever a scan call, on a state that scan calls produce from the
state of create, emits a list-marker token of kind K with w columns of leading
whitespace (w < 255), afterwards the top of the stack is a block of the list
type of K with level w + 1; the stack is left unchanged if its top already was
a block of exactly that type and level, and otherwise exactly one such block is
pushed on top of the unchanged previous stack. -/
theorem list_marker_level (s s1 : Scanner) (lexer lexer1 : TSLexer)
    (valid_symbols : TokenType → Bool) (type : BlockType)
    (hs : Reachable s)
    (hscan : tree_sitter_djot_external_scanner_scan s lexer valid_symbols =
      some (true, s1, lexer1))
    (hk : list_marker_to_block lexer1.result_symbol = some type)
    (hw : leading_columns lexer.input < 255) :
    s1.open_blocks.head? = some { type := type, level := leading_columns lexer.input + 1 } ∧
    (s.open_blocks.head? = some { type := type, level := leading_columns lexer.input + 1 } →
      s1.open_blocks = s.open_blocks) ∧
    (s.open_blocks.head? ≠ some { type := type, level := leading_columns lexer.input + 1 } →
      s1.open_blocks =
        { type := type, level := leading_columns lexer.input + 1 } :: s.open_blocks) := by
  have hd := reachable_delayed_token_ok hs
  have he := scan_true_effect hscan
  have hws : (scan_entry s lexer).1.whitespace = leading_columns lexer.input := by
    rw [scan_entry_whitespace, Nat.mod_eq_of_lt (by omega)]
  have hob : (scan_entry s lexer).1.open_blocks = s.open_blocks := by simp
  have hdt : (scan_entry s lexer).1.delayed_token = s.delayed_token := by simp
  generalize (scan_entry s lexer).1 = e at he hws hob hdt
  generalize lexer1.result_symbol = t at he hk
  cases he with
  | delayed hne =>
    unfold delayed_token_ok at hd
    rw [hdt] at hk hne
    rcases hd with h1 | h1 | h1 | h1 <;> rw [h1] at hk <;> simp [list_marker_to_block] at hk
  | thematic_break t ht hv =>
    rcases ht with rfl | rfl <;> simp [list_marker_to_block] at hk
  | list_marker t ty hv hm =>
    rw [hm] at hk
    cases hk
    have hl : (e.whitespace + 1) % 256 = leading_columns lexer.input + 1 := by
      rw [hws, Nat.mod_eq_of_lt (by omega)]
    rw [hl]
    unfold ensure_list_open push_block create_block
    rw [← hob]
    cases hst : e.open_blocks with
    | nil => simp
    | cons top rest =>
      obtain ⟨tt, tl⟩ := top
      by_cases hc : tt = type ∧ tl = leading_columns lexer.input + 1
      · obtain ⟨rfl, rfl⟩ := hc
        simp [hst]
      · simp only [hc, if_false]
        simp [hst]
        intro h1 h2
        exact absurd ⟨h1, h2⟩ hc
  | _ => simp [list_marker_to_block] at hk

/-- C11 at the text `  - ` (two spaces, a dash, a space) on the state of create
with LIST_MARKER_DASH acceptable: the stack becomes a LIST_DASH block of level 3. -/
theorem list_marker_level_witness :
    ([] : List Block).head? ≠ some { type := BlockType.LIST_DASH, level := 3 } ∧
    (ensure_list_open { init with whitespace := 2 } .LIST_DASH 3).open_blocks =
      [{ type := BlockType.LIST_DASH, level := 3 }] :=
  ⟨by decide,
   (list_marker_level init _ (TSLexer.start [32, 32, 45, 32]) _
      (fun t => decide (t = .LIST_MARKER_DASH)) .LIST_DASH Reachable.create
      (by decide : tree_sitter_djot_external_scanner_scan init (TSLexer.start [32, 32, 45, 32])
        (fun t => decide (t = .LIST_MARKER_DASH)) =
        some (true, ensure_list_open { init with whitespace := 2 } .LIST_DASH 3,
              { input := [32], marked := [32], result_symbol := .LIST_MARKER_DASH }))
      (by decide) (by decide)).2.2 (by decide)⟩

/-! ## The level of a dash list at column 1 -/

/-- A scan call that returns a list-marker token, on a scanner whose delayed
token is of a buffered kind, has made sure that a list of that kind is open at
the level `whitespace + 1`. -/
theorem scan_list_marker_state {s s1 : Scanner} {lexer lexer1 : TSLexer}
    {valid_symbols : TokenType → Bool} {type : BlockType} (hd : delayed_token_ok s)
    (hscan : tree_sitter_djot_external_scanner_scan s lexer valid_symbols =
      some (true, s1, lexer1))
    (hk : list_marker_to_block lexer1.result_symbol = some type) :
    s1 = ensure_list_open (scan_entry s lexer).1 type
      (((scan_entry s lexer).1.whitespace + 1) % 256) := by
  have he := scan_true_effect hscan
  have hdt : (scan_entry s lexer).1.delayed_token = s.delayed_token := by simp
  generalize (scan_entry s lexer).1 = e at he hdt
  generalize lexer1.result_symbol = t at he hk
  cases he with
  | delayed hne =>
    unfold delayed_token_ok at hd
    rw [hdt] at hk hne
    rcases hd with h1 | h1 | h1 | h1 <;> rw [h1] at hk <;> simp [list_marker_to_block] at hk
  | thematic_break t ht hv =>
    rcases ht with rfl | rfl <;> simp [list_marker_to_block] at hk
  | list_marker t ty hv hm =>
    rw [hm] at hk
    cases hk
    rfl
  | _ => simp [list_marker_to_block] at hk

/-- C12 fails as stated: the text `- x` on the state of create, with
LIST_MARKER_DASH acceptable, opens a LIST_DASH block of level 1, not 3; and on
that stack the line ` x`, whose content is at column 2, does not end the item
(the call with LIST_ITEM_END acceptable returns `false`). -/
theorem dash_marker_level_not_three :
    tree_sitter_djot_external_scanner_scan init (TSLexer.start [45, 32, 120])
        (fun t => decide (t = .LIST_MARKER_DASH)) =
      some (true, { init with open_blocks := [{ type := .LIST_DASH, level := 1 }] },
            { input := [32, 120], marked := [32, 120], result_symbol := .LIST_MARKER_DASH }) ∧
    ({ type := .LIST_DASH, level := 1 } : Block) ≠ { type := .LIST_DASH, level := 3 } ∧
    tree_sitter_djot_external_scanner_scan
        { init with open_blocks := [{ type := .LIST_DASH, level := 1 }] }
        (TSLexer.start [32, 120]) (fun t => decide (t = .LIST_ITEM_END)) =
      some (false,
            { init with open_blocks := [{ type := .LIST_DASH, level := 1 }], whitespace := 1 },
            { input := [], marked := [32, 120], result_symbol := .IGNORED }) := by
  decide

/-- C12, amended: a dash list marker `- ` at column 1 (no leading whitespace)
on an empty stack opens a LIST_DASH block whose level is 1, the leading
whitespace plus one; so a following line (of fewer than 256 columns of leading
whitespace) for which the scan arrives at the list-item-end rule with
LIST_ITEM_END acceptable stays inside the item, that is the call does not
return LIST_ITEM_END, exactly when it has at least 1 column of leading
whitespace. -/
theorem dash_marker_level (s s1 : Scanner) (lexer lexer1 : TSLexer)
    (valid_symbols : TokenType → Bool) (text : List Nat)
    (hs : Reachable s) (hempty : s.open_blocks = [])
    (htext : lexer.input = 45 :: 32 :: text)
    (hscan : tree_sitter_djot_external_scanner_scan s lexer valid_symbols =
      some (true, s1, lexer1))
    (hsym : lexer1.result_symbol = .LIST_MARKER_DASH) :
    s1.open_blocks = [{ type := .LIST_DASH, level := 1 }] ∧
    ∀ (lexer2 : TSLexer) (valid2 : TokenType → Bool) (s3 : Scanner) (lexer3 : TSLexer),
      reaches AT_LIST_ITEM_END s1 lexer2 valid2 s3 lexer3 →
      valid2 .LIST_ITEM_END = true → leading_columns lexer2.input < 256 →
      ((∀ s4 lexer4, tree_sitter_djot_external_scanner_scan s1 lexer2 valid2 =
          some (true, s4, lexer4) → lexer4.result_symbol ≠ .LIST_ITEM_END) ↔
        1 ≤ leading_columns lexer2.input) := by
  have hk : list_marker_to_block lexer1.result_symbol = some .LIST_DASH := by
    rw [hsym]; rfl
  have h1 := scan_list_marker_state (reachable_delayed_token_ok hs) hscan hk
  have hws : (scan_entry s lexer).1.whitespace = 0 := by
    rw [scan_entry_whitespace, htext]; rfl
  have hstack : s1.open_blocks = [{ type := .LIST_DASH, level := 1 }] := by
    rw [h1, hws]
    simp [ensure_list_open, push_block, create_block, hempty]
  refine ⟨hstack, ?_⟩
  intro lexer2 valid2 s3 lexer3 hreach hv hcols
  obtain ⟨hs3, hb, hdel⟩ := reaches_facts (by decide) hreach
  have hscan2 := scan_of_reaches_list_item_end hreach
  have hws3 : s3.whitespace = leading_columns lexer2.input := by
    rw [hs3, scan_entry_whitespace, Nat.mod_eq_of_lt hcols]
  have hob3 : s3.open_blocks = [{ type := .LIST_DASH, level := 1 }] := by
    rw [hs3]; simpa using hstack
  constructor
  · intro hno
    by_contra hlt
    have hz : s3.whitespace = 0 := by omega
    rw [hscan2] at hno
    cases hm : (scan_list_marker lexer3).1
    · exact hno _ _ (by
        simp only [cascade, guarded, hv, ↓reduceIte, parse_list_item_end, hob3, is_list,
          Bool.not_true, Bool.false_eq_true, hz, hm]
        rfl) rfl
    · exact hno _ _ (by
        simp only [cascade, guarded, hv, ↓reduceIte, parse_list_item_end, hob3, is_list,
          Bool.not_true, Bool.false_eq_true, hz, hm]
        rfl) rfl
  · intro hge s4 lexer4 h hsym4
    obtain ⟨list, rest, h2, _, h3⟩ := scan_list_item_end_only_below_level hdel h hsym4
    rw [hstack] at h2
    simp only [List.cons.injEq] at h2
    have h4 : (consume_whitespace lexer2.mark_end).1 = s3.whitespace := by rw [hs3]; rfl
    rw [← h2.1, h4, hws3] at h3
    simp at h3
    omega

/-- C12 amended, at the text `- x` on the state of create with LIST_MARKER_DASH
acceptable: the call returns LIST_MARKER_DASH and the stack is one LIST_DASH
block of level 1. -/
theorem dash_marker_level_witness :
    tree_sitter_djot_external_scanner_scan init (TSLexer.start [45, 32, 120])
        (fun t => decide (t = .LIST_MARKER_DASH)) =
      some (true, { init with open_blocks := [{ type := .LIST_DASH, level := 1 }] },
            { input := [32, 120], marked := [32, 120], result_symbol := .LIST_MARKER_DASH }) ∧
    ({ init with open_blocks := [{ type := .LIST_DASH, level := 1 }] } : Scanner).open_blocks =
      [{ type := .LIST_DASH, level := 1 }] :=
  ⟨by decide,
   (dash_marker_level init _ (TSLexer.start [45, 32, 120])
      { input := [32, 120], marked := [32, 120], result_symbol := .LIST_MARKER_DASH }
      (fun t => decide (t = .LIST_MARKER_DASH)) [120] Reachable.create rfl rfl
      (by decide) rfl).1⟩

/-! ## The delayed token flush -/

/-- C13 at a state the scanner reaches: the calls at `:::` with DIV_START and
then with DIV_END acceptable open a division and close it, which buffers the
delayed token (DIV_END, width 3). The next call, at `:::` followed by a
newline, returns DIV_END with the token end three characters on, the stack,
close-debt and verbatim count as they were and the delayed token kind IGNORED,
but it leaves `delayed_token_width` at 255 where the initial state has 0: the
loop `while (s->delayed_token_width--)` decrements the `uint8_t` once more when
it reads 0. -/
theorem delayed_token_flush_width :
    (scan_calls init
        [{ input := [58, 58, 58, 10], valid_symbols := fun t => decide (t = .DIV_START) },
         { input := [58, 58, 58, 10], valid_symbols := fun t => decide (t = .DIV_END) }]).map
        Prod.fst =
      some { init with delayed_token := .DIV_END, delayed_token_width := 3 } ∧
    tree_sitter_djot_external_scanner_scan
        { init with delayed_token := .DIV_END, delayed_token_width := 3 }
        (TSLexer.start [58, 58, 58, 10]) (fun _ => false) =
      some (true, { init with delayed_token := .IGNORED, delayed_token_width := 255 },
            { input := [10], marked := [10], result_symbol := .DIV_END }) ∧
    init.delayed_token_width = 0 := by
  decide

/-! ## The verbatim close of scanner.c line 983 -/

/-- A scan call that arrives at the statement of scanner.c line 983 inside a
verbatim span, with VERBATIM_END acceptable, returns VERBATIM_END and clears
the tick count whatever the text at the cursor: the condition `lexer->eof` of
that line is the function pointer and not a call. -/
theorem scan_verbatim_end_anywhere {s s1 : Scanner} {lexer lexer1 : TSLexer}
    {valid_symbols : TokenType → Bool}
    (hreach : reaches AT_VERBATIM_END s lexer valid_symbols s1 lexer1)
    (hv : valid_symbols .VERBATIM_END = true) (hk : 0 < s.verbatim_tick_count) :
    tree_sitter_djot_external_scanner_scan s lexer valid_symbols =
      some (true, { s1 with verbatim_tick_count := 0 }, lexer1.set_result .VERBATIM_END) := by
  obtain ⟨hs1, _, _⟩ := reaches_facts (by decide) hreach
  have hk1 : s1.verbatim_tick_count > 0 := by rw [hs1]; simpa using hk
  rw [scan_of_reaches hreach]
  simp [AT_VERBATIM_END, scan_rules, cascade, guarded, hv, try_close_verbatim, hk1]

/-- C16 at a state the scanner reaches: the call at a backtick with
VERBATIM_START acceptable opens a verbatim span of one backtick. The next call,
at the text `x` (not the end of input, no newline, no backtick) with
VERBATIM_END the only acceptable token, returns VERBATIM_END and sets
verbatim_tick_count to 0. -/
theorem verbatim_end_before_end_of_input :
    (scan_calls init
        [{ input := [96, 120], valid_symbols := fun t => decide (t = .VERBATIM_START) }]).map
        Prod.fst =
      some { init with verbatim_tick_count := 1 } ∧
    ({ init with verbatim_tick_count := 1 } : Scanner).blocks_to_close = 0 ∧
    ({ init with verbatim_tick_count := 1 } : Scanner).delayed_token = .IGNORED ∧
    (TSLexer.start [120]).eof = false ∧
    tree_sitter_djot_external_scanner_scan { init with verbatim_tick_count := 1 }
        (TSLexer.start [120]) (fun t => decide (t = .VERBATIM_END)) =
      some (true, { init with verbatim_tick_count := 0 },
            { input := [120], marked := [120], result_symbol := .VERBATIM_END }) := by
  decide

/-! ## The implicit paragraph close at a definition-list marker -/

/-- The paragraph-close rule where the lookahead of `should_close_paragraph`
does find its marker: when a scan call arrives at the rule with CLOSE_PARAGRAPH
acceptable and the text at the cursor is a fence of 3 to 255 colons, or does
not begin with a colon and has a list marker for `scan_list_marker`, the call
returns a zero-width CLOSE_PARAGRAPH and leaves the scanner as it was. -/
theorem scan_close_paragraph_at_marker {s s1 : Scanner} {lexer lexer1 : TSLexer}
    {valid_symbols : TokenType → Bool}
    (hreach : reaches AT_CLOSE_PARAGRAPH s lexer valid_symbols s1 lexer1)
    (hv : valid_symbols .CLOSE_PARAGRAPH = true)
    (hmark : (∃ n text, lexer1.input = List.replicate n 58 ++ text ∧ text.head? ≠ some 58 ∧
        3 ≤ n ∧ n ≤ 255) ∨
      (lexer1.lookahead ≠ 58 ∧ (scan_list_marker lexer1).1 = true)) :
    ∃ lexer2, tree_sitter_djot_external_scanner_scan s lexer valid_symbols =
        some (true, s1, lexer2) ∧
      lexer2.result_symbol = .CLOSE_PARAGRAPH ∧ lexer2.marked = lexer.input ∧
      s1 = { s with whitespace := (consume_whitespace lexer.mark_end).1 } := by
  obtain ⟨hs1, _, _⟩ := reaches_facts (by decide) hreach
  obtain ⟨hmarked, _⟩ := reaches_cursor (by decide) hreach
  have hclose : (should_close_paragraph s1 lexer1).1 = true := by
    rcases hmark with ⟨n, text, hin, htext, h3, h255⟩ | ⟨hl, hm⟩
    · have hc := consume_chars_loop_replicate 58 n text 0 htext (by norm_num)
      rw [← hin, Nat.zero_add, Nat.mod_eq_of_lt (by omega)] at hc
      have hn : ¬ n < 3 := by omega
      simp [should_close_paragraph, scan_div_marker, consume_chars, hc, hn]
    · have hc : consume_chars_loop 58 lexer1.input 0 = (0, lexer1.input) := by
        cases hi : lexer1.input with
        | nil => rfl
        | cons x xs =>
          have : x ≠ 58 := by simpa [TSLexer.lookahead, hi] using hl
          simp [consume_chars_loop, this]
      have he : ({ lexer1 with input := lexer1.input } : TSLexer) = lexer1 := rfl
      simp [should_close_paragraph, scan_div_marker, consume_chars, hc, he, hm]
  have hframe := (should_close_paragraph_frame s1 lexer1)
  refine ⟨(should_close_paragraph s1 lexer1).2.set_result .CLOSE_PARAGRAPH, ?_, rfl, ?_, ?_⟩
  · rw [scan_of_reaches hreach]
    simp [AT_CLOSE_PARAGRAPH, scan_rules, cascade, guarded, hv, parse_close_paragraph, hclose]
  · simp only [TSLexer.set_result_marked]
    rw [hframe.1, hmarked]
  · rw [hs1]
    rfl

/-- C14 at the text `: x` on the state of create with CLOSE_PARAGRAPH the only
acceptable token: the scan arrives at the paragraph-close rule with the cursor
at the colon, and `scan_list_marker_token` on that cursor finds the
definition-list marker, but the call returns `false` and no CLOSE_PARAGRAPH:
`should_close_paragraph` first runs `scan_div_marker`, which consumes the
colon, and looks for the list marker from the space on. With
LIST_MARKER_DEFINITION acceptable the colon dispatch (`parse_colon`) does
recognise the marker at the same text. -/
theorem close_paragraph_misses_definition_marker :
    reaches AT_CLOSE_PARAGRAPH init (TSLexer.start [58, 32, 120])
      (fun t => decide (t = .CLOSE_PARAGRAPH)) init (TSLexer.start [58, 32, 120]) ∧
    (scan_list_marker_token (TSLexer.start [58, 32, 120])).1 = .LIST_MARKER_DEFINITION ∧
    should_close_paragraph init (TSLexer.start [58, 32, 120]) =
      (false, { input := [32, 120], marked := [58, 32, 120], result_symbol := .IGNORED }) ∧
    tree_sitter_djot_external_scanner_scan init (TSLexer.start [58, 32, 120])
        (fun t => decide (t = .CLOSE_PARAGRAPH)) =
      some (false, init,
            { input := [32, 120], marked := [58, 32, 120], result_symbol := .IGNORED }) ∧
    tree_sitter_djot_external_scanner_scan init (TSLexer.start [58, 32, 120])
        (fun t => decide (t = .LIST_MARKER_DEFINITION)) =
      some (true, { init with open_blocks := [{ type := .LIST_DEFINITION, level := 1 }] },
            { input := [32, 120], marked := [32, 120],
              result_symbol := .LIST_MARKER_DEFINITION }) := by
  decide

/-! ## Opening a division -/

/-- From `scan_ordered_list_type` at a non-empty run (shorter than 256) of
characters of the alphabet `type`, whose first character is in none of the
alphabets tried before `type`, and which ends before a character outside
`type` or at the end of input: the type found is `type` and the cursor is
behind the run. -/
theorem scan_ordered_list_type_run (type : OrderedListType) (run tail : List Nat)
    (marked : List Nat) (sym : TokenType)
    (hne : run ≠ []) (hlen : run.length < 256)
    (hrun : ∀ c ∈ run, matches_ordered_list type (to_char c) = true)
    (hfirst : ∀ t ∈ tried_before type, matches_ordered_list t (to_char (run.headD 0)) = false)
    (hstop : ∀ x, tail.head? = some x → matches_ordered_list type (to_char x) = false) :
    scan_ordered_list_type { input := run ++ tail, marked := marked, result_symbol := sym } =
      (some type, { input := tail, marked := marked, result_symbol := sym }) := by
  obtain ⟨y, ys, rfl⟩ : ∃ y ys, run = y :: ys := by
    cases run with
    | nil => exact absurd rfl hne
    | cons y ys => exact ⟨y, ys, rfl⟩
  have hlenpos : ((0 + (y :: ys).length) % 256 > 0) := by
    simp only [List.length_cons] at hlen ⊢
    omega
  have hrunl := scan_ordered_list_enumerator_loop_run type (y :: ys) tail 0 (by decide) hrun hstop
  have hnone : ∀ t ∈ tried_before type,
      scan_ordered_list_enumerator_loop t ((y :: ys) ++ tail) 0 = (0, (y :: ys) ++ tail) := by
    intro t ht
    apply scan_ordered_list_enumerator_loop_none
    intro x hx
    simp only [List.cons_append, List.head?_cons, Option.some.injEq] at hx
    subst hx
    simpa using hfirst t ht
  simp only [List.cons_append] at hrunl hnone
  cases type
  · simp only [scan_ordered_list_type, scan_ordered_list_enumerator, List.cons_append, hrunl,
      hlenpos, decide_True, ↓reduceIte]
  · have h1 := hnone .DECIMAL (by simp [tried_before])
    have h2 := hnone .LOWER_ROMAN (by simp [tried_before])
    have h3 := hnone .UPPER_ROMAN (by simp [tried_before])
    simp only [scan_ordered_list_type, scan_ordered_list_enumerator, List.cons_append, hrunl,
      h1, h2, h3, hlenpos, decide_True, ↓reduceIte, gt_iff_lt, lt_self_iff_false, decide_False,
      Bool.false_eq_true]
  · have h1 := hnone .DECIMAL (by simp [tried_before])
    have h2 := hnone .LOWER_ROMAN (by simp [tried_before])
    have h3 := hnone .UPPER_ROMAN (by simp [tried_before])
    have h4 := hnone .LOWER_ALPHA (by simp [tried_before])
    simp only [scan_ordered_list_type, scan_ordered_list_enumerator, List.cons_append, hrunl,
      h1, h2, h3, h4, hlenpos, decide_True, ↓reduceIte, gt_iff_lt, lt_self_iff_false,
      decide_False, Bool.false_eq_true]
  · have h1 := hnone .DECIMAL (by simp [tried_before])
    simp only [scan_ordered_list_type, scan_ordered_list_enumerator, List.cons_append, hrunl,
      h1, hlenpos, decide_True, ↓reduceIte, gt_iff_lt, lt_self_iff_false, decide_False,
      Bool.false_eq_true]
  · have h1 := hnone .DECIMAL (by simp [tried_before])
    have h2 := hnone .LOWER_ROMAN (by simp [tried_before])
    simp only [scan_ordered_list_type, scan_ordered_list_enumerator, List.cons_append, hrunl,
      h1, h2, hlenpos, decide_True, ↓reduceIte, gt_iff_lt, lt_self_iff_false, decide_False,
      Bool.false_eq_true]

/-- The token of `scan_ordered_list_marker_token` at an optional `(`, a run of
the alphabet `type` as in `scan_ordered_list_type_run` and then the text
`tail`. -/
theorem scan_ordered_list_marker_token_run (paren : Bool) (type : OrderedListType)
    (run tail : List Nat) (lexer : TSLexer)
    (hinput : lexer.input = (if paren then [40] else []) ++ (run ++ tail))
    (hne : run ≠ []) (hlen : run.length < 256)
    (hrun : ∀ c ∈ run, matches_ordered_list type (to_char c) = true)
    (hfirst : ∀ t ∈ tried_before type, matches_ordered_list t (to_char (run.headD 0)) = false)
    (hstop : matches_ordered_list type (to_char (tail.headD 0)) = false) :
    (scan_ordered_list_marker_token lexer).1 =
      if tail.headD 0 = 41 then (if paren then marker_parens type else marker_paren type)
      else if tail.headD 0 = 46 then marker_period type
      else .IGNORED := by
  obtain ⟨input, marked, sym⟩ := lexer
  simp only [] at hinput
  subst hinput
  have hstop2 : ∀ x, tail.head? = some x → matches_ordered_list type (to_char x) = false := by
    intro x hx
    cases tail with
    | nil => simp at hx
    | cons y ys =>
      simp only [List.head?_cons, Option.some.injEq] at hx
      subst hx
      simpa using hstop
  have htype := scan_ordered_list_type_run type run tail marked sym hne hlen hrun hfirst hstop2
  cases paren
  · obtain ⟨y, ys, rfl⟩ : ∃ y ys, run = y :: ys := by
      cases run with
      | nil => exact absurd rfl hne
      | cons y ys => exact ⟨y, ys, rfl⟩
    have hy : y ≠ 40 := by
      intro h
      have := hrun y (List.mem_cons_self _ _)
      subst h
      cases type <;> simp [matches_ordered_list, to_char, is_decimal, is_lower_alpha,
        is_upper_alpha, is_lower_roman, is_upper_roman] at this
    simp only [scan_ordered_list_marker_token, TSLexer.lookahead, Bool.false_eq_true,
      ↓reduceIte, List.nil_append, List.cons_append, List.headD_cons, hy, decide_False]
    simp only [List.cons_append] at htype
    rw [htype]
    simp only []
    split_ifs <;> rfl
  · simp only [scan_ordered_list_marker_token, TSLexer.lookahead, ↓reduceIte,
      List.singleton_append, List.headD_cons, decide_True, TSLexer.advance, List.tail_cons]
    rw [htype]
    simp only []
    split_ifs <;> rfl

/-- The count of `consume_chars` at backticks is the length of the run modulo
256, and the cursor is behind the run. -/
theorem consume_chars_loop_backtick_run (l : List Nat) (count : Nat) (hcount : count < 256) :
    consume_chars_loop 96 l count =
      ((count + backtick_run l) % 256, l.drop (backtick_run l)) := by
  induction l generalizing count with
  | nil => simp [consume_chars_loop, backtick_run, Nat.mod_eq_of_lt hcount]
  | cons x xs ih =>
    unfold consume_chars_loop backtick_run
    split_ifs with h
    · rw [ih _ (Nat.mod_lt _ (by norm_num))]
      simp only [List.drop_succ_cons, Prod.mk.injEq, and_true]
      omega
    · simp [Nat.mod_eq_of_lt hcount]

/-- The run a text begins with is no longer than its longest run. -/
theorem backtick_run_le_longest (l : List Nat) : backtick_run l ≤ longest_backtick_run l := by
  cases l with
  | nil => simp [backtick_run, longest_backtick_run]
  | cons x xs => simp [longest_backtick_run]

/-- Dropping characters from the front does not lengthen the longest run. -/
theorem longest_backtick_run_drop (n : Nat) (l : List Nat) :
    longest_backtick_run (l.drop n) ≤ longest_backtick_run l := by
  induction n generalizing l with
  | zero => simp
  | succ n ih =>
    cases l with
    | nil => simp
    | cons x xs =>
      simp only [List.drop_succ_cons]
      exact le_trans (ih xs) (by simp [longest_backtick_run])

/-- The content end of the specification lies in the text. -/
theorem verbatim_content_end_loop_length (k fuel : Nat) (l : List Nat) :
    (verbatim_content_end_loop k fuel l).1.length ≤ l.length := by
  induction fuel generalizing l with
  | zero => simp [verbatim_content_end_loop]
  | succ fuel ih =>
    cases l with
    | nil => simp [verbatim_content_end_loop]
    | cons x xs =>
      unfold verbatim_content_end_loop
      split_ifs with h1 h2 h3
      · simp
      · simp
      · exact le_trans (ih _) (by simp)
      · exact le_trans (ih _) (by simp)

/-- The loop of `parse_verbatim_content` against the content end of the
specification: with enough fuel and all backtick runs shorter than 256, the
cursor stops at the content end (behind the closing run when there is one),
the scanner buffers VERBATIM_END exactly when a closing run is found, and the
marked token end is the content end unless no character was taken. -/
theorem parse_verbatim_content_loop_spec (fuel : Nat) (s : Scanner) (l marked : List Nat)
    (sym : TokenType) (hfuel : l.length ≤ fuel) (hruns : longest_backtick_run l < 256) :
    parse_verbatim_content_loop fuel s { input := l, marked := marked, result_symbol := sym } =
      (if (verbatim_content_end_loop s.verbatim_tick_count fuel l).2 then
          set_delayed_token { s with verbatim_tick_count := 0 } TokenType.VERBATIM_END
            s.verbatim_tick_count
        else s,
       { input :=
           if (verbatim_content_end_loop s.verbatim_tick_count fuel l).2 then
             (verbatim_content_end_loop s.verbatim_tick_count fuel l).1.drop
               s.verbatim_tick_count
           else (verbatim_content_end_loop s.verbatim_tick_count fuel l).1,
         marked :=
           if (verbatim_content_end_loop s.verbatim_tick_count fuel l).1 = l then marked
           else (verbatim_content_end_loop s.verbatim_tick_count fuel l).1,
         result_symbol := sym }) := by
  induction fuel generalizing l marked with
  | zero =>
    have : l = [] := List.length_eq_zero.mp (Nat.le_zero.mp hfuel)
    subst this
    simp [parse_verbatim_content_loop, verbatim_content_end_loop]
  | succ fuel ih =>
    cases l with
    | nil => simp [parse_verbatim_content_loop, verbatim_content_end_loop, TSLexer.eof]
    | cons x xs =>
      have hlen : xs.length ≤ fuel := by simpa using hfuel
      by_cases h10 : x = 10
      · subst h10
        simp [parse_verbatim_content_loop, verbatim_content_end_loop, TSLexer.eof,
          TSLexer.lookahead]
      · by_cases h96 : x = 96
        · subst h96
          have hrun := consume_chars_loop_backtick_run (96 :: xs) 0 (by norm_num)
          have hrl : backtick_run (96 :: xs) < 256 :=
            lt_of_le_of_lt (backtick_run_le_longest _) hruns
          have hpos : 1 ≤ backtick_run (96 :: xs) := by simp [backtick_run]
          rw [Nat.zero_add, Nat.mod_eq_of_lt hrl] at hrun
          by_cases hk : backtick_run (96 :: xs) = s.verbatim_tick_count
          · simp [parse_verbatim_content_loop, verbatim_content_end_loop, TSLexer.eof,
              TSLexer.lookahead, consume_chars, hrun, hk]
          · have hdl : ((96 :: xs).drop (backtick_run (96 :: xs))).length ≤ fuel := by
              simp only [List.length_drop, List.length_cons]
              omega
            have hdr : longest_backtick_run ((96 :: xs).drop (backtick_run (96 :: xs))) < 256 :=
              lt_of_le_of_lt (longest_backtick_run_drop _ _) hruns
            have hi := ih ((96 :: xs).drop (backtick_run (96 :: xs)))
              ((96 :: xs).drop (backtick_run (96 :: xs))) hdl hdr
            have hle := verbatim_content_end_loop_length s.verbatim_tick_count fuel
              ((96 :: xs).drop (backtick_run (96 :: xs)))
            have hne : (verbatim_content_end_loop s.verbatim_tick_count fuel
                ((96 :: xs).drop (backtick_run (96 :: xs)))).1 ≠ 96 :: xs := by
              intro he
              rw [he] at hle
              simp only [List.length_drop, List.length_cons] at hle
              omega
            have hstep : parse_verbatim_content_loop (fuel + 1) s
                { input := 96 :: xs, marked := marked, result_symbol := sym } =
                parse_verbatim_content_loop fuel s
                  { input := (96 :: xs).drop (backtick_run (96 :: xs)),
                    marked := (96 :: xs).drop (backtick_run (96 :: xs)),
                    result_symbol := sym } := by
              simp [parse_verbatim_content_loop, TSLexer.eof, TSLexer.lookahead, consume_chars,
                hrun, hk, TSLexer.mark_end]
            have hspec : verbatim_content_end_loop s.verbatim_tick_count (fuel + 1) (96 :: xs) =
                verbatim_content_end_loop s.verbatim_tick_count fuel
                  ((96 :: xs).drop (backtick_run (96 :: xs))) := by
              simp [verbatim_content_end_loop, hk]
            rw [hstep, hi, hspec, if_neg hne]
            congr 2
            split_ifs with h1
            · exact h1.symm
            · rfl
        · have hdr : longest_backtick_run xs < 256 :=
            lt_of_le_of_lt (by simp [longest_backtick_run]) hruns
          have hi := ih xs xs hlen hdr
          have hle := verbatim_content_end_loop_length s.verbatim_tick_count fuel xs
          have hne : (verbatim_content_end_loop s.verbatim_tick_count fuel xs).1 ≠ x :: xs := by
            intro he
            rw [he] at hle
            simp at hle
          have hstep : parse_verbatim_content_loop (fuel + 1) s
              { input := x :: xs, marked := marked, result_symbol := sym } =
              parse_verbatim_content_loop fuel s
                { input := xs, marked := xs, result_symbol := sym } := by
            simp [parse_verbatim_content_loop, TSLexer.eof, TSLexer.lookahead, h10, h96,
              TSLexer.mark_end, TSLexer.advance]
          have hspec : verbatim_content_end_loop s.verbatim_tick_count (fuel + 1) (x :: xs) =
              verbatim_content_end_loop s.verbatim_tick_count fuel xs := by
            simp [verbatim_content_end_loop, h10, h96]
          rw [hstep, hi, hspec, if_neg hne]
          congr 2
          split_ifs with h1
          · exact h1.symm
          · rfl

/-- C15 fails as stated: inside a verbatim span of one backtick, at the text of
a space and a newline with VERBATIM_CONTENT acceptable, the scan arrives at the
verbatim-content rule with the cursor at the newline, which is where the
content ends, and returns VERBATIM_CONTENT; but the token does not end at the
newline: no character was taken, so the token end is still the mark that the
call set at its start, before the space. -/
theorem verbatim_content_empty_token :
    reaches AT_VERBATIM_CONTENT { init with verbatim_tick_count := 1 } (TSLexer.start [32, 10])
      (fun t => decide (t = .VERBATIM_CONTENT))
      { init with verbatim_tick_count := 1, whitespace := 1 }
      { input := [10], marked := [32, 10], result_symbol := .IGNORED } ∧
    verbatim_content_end 1 [10] = ([10], false) ∧
    tree_sitter_djot_external_scanner_scan { init with verbatim_tick_count := 1 }
        (TSLexer.start [32, 10]) (fun t => decide (t = .VERBATIM_CONTENT)) =
      some (true, { init with verbatim_tick_count := 1, whitespace := 1 },
            { input := [10], marked := [32, 10], result_symbol := .VERBATIM_CONTENT }) ∧
    ([32, 10] : List Nat) ≠ [10] := by
  decide

/-- C15, amended: inside a verbatim span opened with k backticks
(verbatim_tick_count = k > 0), when the verbatim-content rule is reached with
VERBATIM_CONTENT acceptable and all backtick runs are shorter than 256, the
scan always emits VERBATIM_CONTENT. The content ends at the first of: a newline
(not consumed), the end of input, or the start of the first maximal backtick
run of length exactly k; backtick runs of any other length are part of the
content. The token ends at that point when at least one character was taken,
and otherwise it is empty and ends where the call started, before the leading
whitespace. If the content ended at a run of length k, the cursor is behind
that run, verbatim_tick_count becomes 0 and the delayed token becomes
(VERBATIM_END, width k); otherwise verbatim_tick_count and the delayed token
are unchanged. -/
theorem verbatim_content_rule (s : Scanner) (lexer : TSLexer)
    (valid_symbols : TokenType → Bool) (s1 : Scanner) (lexer1 : TSLexer) (k : Nat)
    (hreach : reaches AT_VERBATIM_CONTENT s lexer valid_symbols s1 lexer1)
    (hv : valid_symbols .VERBATIM_CONTENT = true)
    (hk : s.verbatim_tick_count = k) (hpos : 0 < k)
    (hruns : longest_backtick_run lexer1.input < 256) :
    tree_sitter_djot_external_scanner_scan s lexer valid_symbols =
      some (true,
        (if (verbatim_content_end k lexer1.input).2 then
          { s with
            whitespace := (consume_whitespace lexer.mark_end).1
            verbatim_tick_count := 0
            delayed_token := .VERBATIM_END
            delayed_token_width := k }
         else { s with whitespace := (consume_whitespace lexer.mark_end).1 }),
        { input :=
            if (verbatim_content_end k lexer1.input).2 then
              (verbatim_content_end k lexer1.input).1.drop k
            else (verbatim_content_end k lexer1.input).1,
          marked :=
            if (verbatim_content_end k lexer1.input).1 = lexer1.input then lexer.input
            else (verbatim_content_end k lexer1.input).1,
          result_symbol := .VERBATIM_CONTENT }) := by
  obtain ⟨hs1, _, _⟩ := reaches_facts (by decide) hreach
  obtain ⟨hmarked, _⟩ := reaches_cursor (by decide) hreach
  have hk1 : s1.verbatim_tick_count = k := by rw [hs1]; simpa using hk
  have hne : ¬ (s1.verbatim_tick_count = 0) := by omega
  obtain ⟨input, marked, sym⟩ := lexer1
  simp only [] at hmarked hruns
  subst hmarked
  have hloop := parse_verbatim_content_loop_spec input.length s1 input lexer.input sym
    (le_refl _) hruns
  rw [hk1] at hloop
  rw [scan_of_reaches hreach]
  simp only [AT_VERBATIM_CONTENT, scan_rules, List.drop_succ_cons, List.drop_zero, cascade,
    guarded, hv, ↓reduceIte, parse_verbatim_content, hne, hloop, verbatim_content_end,
    TSLexer.set_result]
  subst hs1
  split_ifs <;> simp [scan_entry, set_delayed_token, hk]

/-- C15 amended, inside a verbatim span of one backtick at the text `x` , two
backticks, `y`, one backtick, `z`: the content is `x` , the two backticks and
`y`; the token ends before the closing backtick, the cursor is behind it, and
the delayed token is (VERBATIM_END, 1). -/
theorem verbatim_content_rule_witness :
    tree_sitter_djot_external_scanner_scan { init with verbatim_tick_count := 1 }
        (TSLexer.start [120, 96, 96, 121, 96, 122]) (fun t => decide (t = .VERBATIM_CONTENT)) =
      some (true,
        { init with delayed_token := .VERBATIM_END, delayed_token_width := 1 },
        { input := [122], marked := [96, 122], result_symbol := .VERBATIM_CONTENT }) :=
  verbatim_content_rule { init with verbatim_tick_count := 1 }
    (TSLexer.start [120, 96, 96, 121, 96, 122]) (fun t => decide (t = .VERBATIM_CONTENT))
    { init with verbatim_tick_count := 1 } (TSLexer.start [120, 96, 96, 121, 96, 122]) 1
    (by decide) (by decide) rfl (by decide) (by decide)

/-! ## The distance of a block from the top -/

/-- The loop of `number_of_blocks_from_top` started at distance `k ≥ 1`: it
returns 0 exactly when no block matches, and `k + i` exactly when the block at
index `i` from the top is the first that matches. -/
theorem number_of_blocks_from_top_loop_spec (type : BlockType) (level : Nat)
    (l : List Block) (k : Nat) (hk : 1 ≤ k) :
    (number_of_blocks_from_top_loop type level l k = 0 ↔
      ∀ b ∈ l, ¬ (b.type = type ∧ b.level = level)) ∧
    ∀ i, (number_of_blocks_from_top_loop type level l k = k + i ↔
      ((∃ b, l[i]? = some b ∧ b.type = type ∧ b.level = level) ∧
       ∀ j, j < i → ∀ b, l[j]? = some b → ¬ (b.type = type ∧ b.level = level))) := by
  induction l generalizing k with
  | nil =>
    refine ⟨by simp [number_of_blocks_from_top_loop], fun i => ?_⟩
    simp [number_of_blocks_from_top_loop]
    omega
  | cons b rest ih =>
    by_cases hb : b.type = type ∧ b.level = level
    · have hl : number_of_blocks_from_top_loop type level (b :: rest) k = k := by
        simp [number_of_blocks_from_top_loop, hb]
      rw [hl]
      refine ⟨⟨fun h => by omega, fun h => absurd hb (h b (List.mem_cons_self _ _))⟩,
        fun i => ⟨fun h => ?_, fun h => ?_⟩⟩
      · have hi : i = 0 := by omega
        subst hi
        exact ⟨⟨b, by simp, hb⟩, fun j hj => by omega⟩
      · cases i with
        | zero => rfl
        | succ i => exact absurd hb (h.2 0 (by omega) b (by simp))
    · have hl : number_of_blocks_from_top_loop type level (b :: rest) k =
          number_of_blocks_from_top_loop type level rest (k + 1) := by
        simp only [number_of_blocks_from_top_loop, hb, if_false]
      rw [hl]
      obtain ⟨ih0, ihi⟩ := ih (k + 1) (by omega)
      refine ⟨?_, fun i => ?_⟩
      · rw [ih0]
        constructor
        · intro h x hx
          rcases List.mem_cons.mp hx with rfl | hx
          · exact hb
          · exact h x hx
        · intro h x hx
          exact h x (List.mem_cons_of_mem _ hx)
      · cases i with
        | zero =>
          constructor
          · intro h
            rcases number_of_blocks_from_top_loop_bound type level rest (k + 1) with h0 | h1
            · omega
            · omega
          · rintro ⟨⟨x, hx, hm⟩, _⟩
            simp only [List.getElem?_cons_zero, Option.some.injEq] at hx
            subst hx
            exact absurd hm hb
        | succ i =>
          have he : k + (i + 1) = k + 1 + i := by omega
          rw [he, ihi i]
          constructor
          · rintro ⟨⟨x, hx, hm⟩, hall⟩
            refine ⟨⟨x, by simpa using hx, hm⟩, fun j hj y hy => ?_⟩
            cases j with
            | zero =>
              simp only [List.getElem?_cons_zero, Option.some.injEq] at hy
              subst hy
              exact hb
            | succ j => exact hall j (by omega) y (by simpa using hy)
          · rintro ⟨⟨x, hx, hm⟩, hall⟩
            exact ⟨⟨x, by simpa using hx, hm⟩,
              fun j hj y hy => hall (j + 1) (by omega) y (by simpa using hy)⟩

/-- C24: `number_of_blocks_from_top(type, level)` returns the smallest d >= 1
such that the block at distance d from the top of the stack (d = 1 being the
top, which is index d - 1 of `open_blocks`) has exactly that type and that
level, and returns 0 if and only if no block on the stack has both. The
function reads the scanner and returns the number only, so the stack is as
before. -/
theorem number_of_blocks_from_top_spec (s : Scanner) (type : BlockType) (level : Nat) :
    (number_of_blocks_from_top s type level = 0 ↔
      ∀ b ∈ s.open_blocks, ¬ (b.type = type ∧ b.level = level)) ∧
    ∀ d, 1 ≤ d → (number_of_blocks_from_top s type level = d ↔
      ((∃ b, s.open_blocks[d - 1]? = some b ∧ b.type = type ∧ b.level = level) ∧
       ∀ j, j < d - 1 → ∀ b, s.open_blocks[j]? = some b →
         ¬ (b.type = type ∧ b.level = level))) := by
  obtain ⟨h0, hi⟩ := number_of_blocks_from_top_loop_spec type level s.open_blocks 1 (le_refl 1)
  refine ⟨h0, fun d hd => ?_⟩
  have he : d = 1 + (d - 1) := by omega
  unfold number_of_blocks_from_top
  conv_lhs => rw [he]
  exact hi (d - 1)

/-! ## Calls that recognise no token -/

/-- C26: for every state, input and valid-symbol set, if scan returns false (no
token recognised) then the block stack, blocks_to_close, the delayed token kind
and width, and verbatim_tick_count are all unchanged; only the whitespace field
may differ. -/
theorem no_token_no_state_change (s s1 : Scanner) (lexer lexer1 : TSLexer)
    (valid_symbols : TokenType → Bool)
    (h : tree_sitter_djot_external_scanner_scan s lexer valid_symbols =
      some (false, s1, lexer1)) :
    s1.open_blocks = s.open_blocks ∧ s1.blocks_to_close = s.blocks_to_close ∧
    s1.delayed_token = s.delayed_token ∧ s1.delayed_token_width = s.delayed_token_width ∧
    s1.verbatim_tick_count = s.verbatim_tick_count ∧
    s1 = { s with whitespace := s1.whitespace } := by
  have h1 := scan_false_state h
  subst h1
  exact ⟨rfl, rfl, rfl, rfl, rfl, rfl⟩

/-- C26 at the text of two spaces and `x` on a state with one open division and
no acceptable token: the call returns `false` and only whitespace changes. -/
theorem no_token_no_state_change_witness :
    ({ init with open_blocks := [{ type := .DIV, level := 3 }], whitespace := 2 } : Scanner) =
      { ({ init with open_blocks := [{ type := .DIV, level := 3 }] } : Scanner) with
        whitespace := 2 } :=
  (no_token_no_state_change { init with open_blocks := [{ type := .DIV, level := 3 }] }
    { init with open_blocks := [{ type := .DIV, level := 3 }], whitespace := 2 }
    (TSLexer.start [32, 32, 120]) { input := [], marked := [32, 32, 120], result_symbol := .IGNORED }
    (fun _ => false) (by decide)).2.2.2.2.2

/-! ## Whitespace accounting -/

/-- No `return true` of the scan writes the `whitespace` field. -/
theorem effect_keeps_whitespace {valid_symbols : TokenType → Bool} {s s1 : Scanner}
    {t : TokenType} (he : Effect valid_symbols s s1 t) : s1.whitespace = s.whitespace := by
  cases he with
  | close s1 hv hp => exact (pop_block_fields hp).2.2.2
  | list_marker t ty hv hm => exact (ensure_list_open_fields s ty _).2.2.2.2
  | _ => rfl

/-- The column count is the number of spaces plus four times the number of tabs
of the leading run of spaces and tabs. -/
theorem leading_columns_eq_count (l : List Nat) :
    leading_columns l =
      (l.takeWhile (fun c => decide (c = 32) || decide (c = 9))).count 32 +
      4 * (l.takeWhile (fun c => decide (c = 32) || decide (c = 9))).count 9 := by
  induction l with
  | nil => rfl
  | cons x xs ih =>
    unfold leading_columns
    by_cases h32 : x = 32
    · subst h32
      simp [List.takeWhile_cons, ih]
      omega
    · by_cases h9 : x = 9
      · subst h9
        simp [List.takeWhile_cons, ih]
        omega
      · simp [List.takeWhile_cons, h32, h9]

/-- C25: after every scan call the whitespace field equals (number of spaces +
4 * number of tabs in the maximal run of spaces and tabs at the cursor where
the call started) modulo 256, whatever value the field held before the call;
and the result of the scan and its resulting state do not depend on the
previous value of whitespace. -/
theorem whitespace_accounting (s : Scanner) (lexer : TSLexer)
    (valid_symbols : TokenType → Bool) :
    (∀ (ok : Bool) (s1 : Scanner) (lexer1 : TSLexer),
      tree_sitter_djot_external_scanner_scan s lexer valid_symbols = some (ok, s1, lexer1) →
      s1.whitespace =
        ((lexer.input.takeWhile (fun c => decide (c = 32) || decide (c = 9))).count 32 +
         4 * (lexer.input.takeWhile (fun c => decide (c = 32) || decide (c = 9))).count 9)
          % 256) ∧
    ∀ w : Nat, tree_sitter_djot_external_scanner_scan { s with whitespace := w } lexer
        valid_symbols = tree_sitter_djot_external_scanner_scan s lexer valid_symbols := by
  refine ⟨fun ok s1 lexer1 h => ?_, fun w => rfl⟩
  rw [← leading_columns_eq_count, ← scan_entry_whitespace s lexer]
  cases ok with
  | false => rw [scan_false_state h]
  | true => exact effect_keeps_whitespace (scan_true_effect h)

/-- C25 at the text of a space, a tab, a space and `- ` on a state whose
whitespace field held 77: the field becomes 6. -/
theorem whitespace_accounting_witness :
    (ensure_list_open { init with whitespace := 6 } .LIST_DASH 7).whitespace = (2 + 4 * 1) % 256 :=
  (whitespace_accounting { init with whitespace := 77 } (TSLexer.start [32, 9, 32, 45, 32])
    (fun t => decide (t = .LIST_MARKER_DASH))).1 true
    (ensure_list_open { init with whitespace := 6 } .LIST_DASH 7)
    { input := [32], marked := [32], result_symbol := .LIST_MARKER_DASH } (by decide)

/-! ## Invariants of the states that scan calls produce -/

/-- A list marker maps to a list block type, never to DIV or CODE_BLOCK. -/
theorem list_marker_to_block_is_list {t : TokenType} {type : BlockType}
    (h : list_marker_to_block t = some type) : is_list type = true := by
  cases t <;> simp [list_marker_to_block] at h <;> subst h <;> rfl

/-- No `return true` of the scan puts a second DIV block of a level that is
already on the stack. -/
theorem effect_keeps_div_levels {valid_symbols : TokenType → Bool} {s s1 : Scanner}
    {t : TokenType} (he : Effect valid_symbols s s1 t)
    (hs : s.open_blocks.Pairwise
      (fun a b => ¬ (a.type = .DIV ∧ b.type = .DIV ∧ a.level = b.level))) :
    s1.open_blocks.Pairwise
      (fun a b => ¬ (a.type = .DIV ∧ b.type = .DIV ∧ a.level = b.level)) := by
  cases he with
  | close s1 hv hp =>
    obtain ⟨top, rest, h1, h2⟩ := pop_block_some hp
    rw [h1] at hs
    rw [h2]
    exact hs.tail
  | list_marker t ty hv hm =>
    rcases ensure_list_open_open_blocks s ty ((s.whitespace + 1) % 256) with h1 | h1
    · rw [h1]; exact hs
    · rw [h1]
      refine List.Pairwise.cons (fun b _ hb => ?_) hs
      have := list_marker_to_block_is_list hm
      simp only at hb
      rw [hb.1] at this
      simp [is_list] at this
  | div_close colons top rest hv h3 h256 hpos hb heq =>
    rw [heq] at hs
    exact hs.tail
  | code_close ticks top rest hv h3 hb heq htop =>
    rw [heq] at hs
    exact hs.tail
  | div_open colons hv h3 h256 h0 =>
    refine List.Pairwise.cons (fun b hb hc => ?_) hs
    have hnone := (number_of_blocks_from_top_loop_spec .DIV colons s.open_blocks 1
      (le_refl 1)).1.mp h0
    exact hnone b hb ⟨hc.2.1, hc.2.2.symm⟩
  | code_open ticks hv =>
    refine List.Pairwise.cons (fun b _ hb => ?_) hs
    simp [create_block] at hb
  | _ => exact hs

/-- A state that scan calls produce within the capacity of the stack is a state
that scan calls produce. -/
theorem reachable_of_in_capacity {s : Scanner} (h : ReachableInCapacity s) : Reachable s := by
  induction h with
  | create => exact Reachable.create
  | scan s lexer valid_symbols ok s1 lexer1 _ hscan _ ih =>
    exact Reachable.scan s lexer valid_symbols ok s1 lexer1 ih hscan

/-- The DIV blocks that scan calls from the state of `create` leave on the list
of the model have distinct levels. -/
theorem reachable_div_levels {s : Scanner} (hs : Reachable s) :
    s.open_blocks.Pairwise
      (fun a b => ¬ (a.type = .DIV ∧ b.type = .DIV ∧ a.level = b.level)) := by
  induction hs with
  | create => exact List.Pairwise.nil
  | scan s lexer valid_symbols ok s1 lexer1 _ hscan ih =>
    cases ok with
    | false =>
      rw [scan_false_state hscan]
      exact ih
    | true => exact effect_keeps_div_levels (scan_true_effect hscan) (by simpa using ih)

/-- C27: in every state reachable from the initial state by scan calls during
which the stack never holds more than `STACK_SIZE` blocks (so that no push has
stored outside the array), no two DIV blocks on the stack have the same level;
and a scan call on such a state that returns DIV_START and stays within
`STACK_SIZE` pushes a DIV block whose level none of the open DIV blocks has, so
a colon fence whose count matches an open division never opens a second
division of the same width. -/
theorem div_levels_distinct (s : Scanner) (hs : ReachableInCapacity s) :
    s.open_blocks.Pairwise
      (fun a b => ¬ (a.type = .DIV ∧ b.type = .DIV ∧ a.level = b.level)) ∧
    ∀ (lexer : TSLexer) (valid_symbols : TokenType → Bool) (s1 : Scanner) (lexer1 : TSLexer),
      tree_sitter_djot_external_scanner_scan s lexer valid_symbols = some (true, s1, lexer1) →
      lexer1.result_symbol = .DIV_START →
      s1.open_blocks.length ≤ STACK_SIZE →
      ∃ n, s1.open_blocks = { type := .DIV, level := n } :: s.open_blocks ∧
        ∀ b ∈ s.open_blocks, ¬ (b.type = .DIV ∧ b.level = n) := by
  have hr := reachable_of_in_capacity hs
  refine ⟨reachable_div_levels hr, ?_⟩
  intro lexer valid_symbols s1 lexer1 hscan hsym _
  have hd := reachable_delayed_token_ok hr
  have he := scan_true_effect hscan
  have hob : (scan_entry s lexer).1.open_blocks = s.open_blocks := by simp
  have hdt : (scan_entry s lexer).1.delayed_token = s.delayed_token := by simp
  generalize (scan_entry s lexer).1 = e at he hob hdt
  generalize lexer1.result_symbol = t at he hsym
  cases he with
  | delayed hne =>
    unfold delayed_token_ok at hd
    rw [hdt] at hsym
    rcases hd with h1 | h1 | h1 | h1 <;> rw [h1] at hsym <;> simp at hsym
  | thematic_break t ht hv => rcases ht with rfl | rfl <;> simp at hsym
  | list_marker t ty hv hm => subst hsym; simp [list_marker_to_block] at hm
  | div_open colons hv h3 h256 h0 =>
    refine ⟨colons, by rw [← hob]; rfl, ?_⟩
    rw [← hob]
    exact (number_of_blocks_from_top_loop_spec .DIV colons e.open_blocks 1 (le_refl 1)).1.mp h0
  | _ => simp at hsym

/-- C27 at the state after `:::` and `::::` with DIV_START acceptable, a run
with never more than two blocks open: the two open divisions have the levels 4
and 3. -/
theorem div_levels_distinct_witness :
    ([{ type := .DIV, level := 4 }, { type := .DIV, level := 3 }] : List Block).Pairwise
      (fun a b => ¬ (a.type = .DIV ∧ b.type = .DIV ∧ a.level = b.level)) :=
  (div_levels_distinct
    { init with open_blocks := [{ type := .DIV, level := 4 }, { type := .DIV, level := 3 }] }
    (ReachableInCapacity.scan { init with open_blocks := [{ type := .DIV, level := 3 }] }
      (TSLexer.start [58, 58, 58, 58]) (fun t => decide (t = .DIV_START)) true _
      { input := [], marked := [], result_symbol := .DIV_START }
      (ReachableInCapacity.scan init (TSLexer.start [58, 58, 58])
        (fun t => decide (t = .DIV_START)) true _
        { input := [], marked := [], result_symbol := .DIV_START } ReachableInCapacity.create
        (by decide) (by decide))
      (by decide) (by decide))).1

/-! ## Assertions -/

/-- No `return true` of the scan leaves more blocks to close than are open. -/
theorem effect_keeps_debt_bound {valid_symbols : TokenType → Bool} {s s1 : Scanner}
    {t : TokenType} (he : Effect valid_symbols s s1 t)
    (hs : s.blocks_to_close ≤ s.open_blocks.length) :
    s1.blocks_to_close ≤ s1.open_blocks.length := by
  cases he with
  | close s1 hv hp =>
    unfold pop_block at hp
    cases hst : s.open_blocks with
    | nil => simp [hst] at hp
    | cons top rest =>
      simp only [hst, Option.some.injEq] at hp
      subst hp
      simp only [hst, List.length_cons] at hs ⊢
      split_ifs <;> omega
  | list_marker t ty hv hm =>
    rw [(ensure_list_open_fields s ty _).1]
    rcases ensure_list_open_open_blocks s ty ((s.whitespace + 1) % 256) with h1 | h1
    · rw [h1]; exact hs
    · rw [h1]; simp only [List.length_cons]; omega
  | list_item_end_closing list rest hv hst hl hw =>
    simp only [hst, List.length_cons]
    omega
  | div_close colons top rest hv h3 h256 hpos hb heq =>
    have hle := number_of_blocks_from_top_le s .DIV colons
    simp only [heq, List.length_cons] at hle
    simp only
    omega
  | code_close ticks top rest hv h3 hb heq htop => simp
  | div_open colons hv => simp only [push_block, List.length_cons]; omega
  | code_open ticks hv => simp only [push_block, List.length_cons]; omega
  | _ => exact hs

/-- Every state that scan calls produce from the state of `create` has no more
blocks to close than are open. -/
theorem reachable_debt_bound {s : Scanner} (h : Reachable s) :
    s.blocks_to_close ≤ s.open_blocks.length := by
  induction h with
  | create => exact Nat.le_refl 0
  | scan s lexer valid_symbols ok s1 lexer1 _ hscan ih =>
    cases ok with
    | false =>
      rw [scan_false_state hscan]
      exact ih
    | true => exact effect_keeps_debt_bound (scan_true_effect hscan) (by simpa using ih)

/-- A guarded statement is safe when the statement is, under its condition. -/
theorem guarded_safe {cond : Bool} {rule : Rule} {s : Scanner}
    (h : cond = true → RuleSafe rule s) : RuleSafe (guarded cond rule) s := by
  intro lexer
  unfold guarded
  cases cond
  · exact ⟨_, rfl⟩
  · simpa using h rfl lexer

/-- Statements that are each safe on `s`, and that leave the scanner as it is
when they let the scan go on, are safe in sequence. -/
theorem cascade_safe (valid_symbols : TokenType → Bool) {rules : List Rule} {s : Scanner}
    (hok : ∀ rule ∈ rules, RuleOk valid_symbols rule)
    (hsafe : ∀ rule ∈ rules, RuleSafe rule s) : RuleSafe (cascade rules) s := by
  induction rules with
  | nil => exact fun lexer => ⟨_, rfl⟩
  | cons rule rest ih =>
    intro lexer
    obtain ⟨r, hr⟩ := hsafe rule (List.mem_cons_self _ _) lexer
    obtain ⟨ok, s1, lexer1⟩ := r
    cases ok with
    | true => exact ⟨(true, s1, lexer1), by simp [cascade, hr]⟩
    | false =>
      have hs1 := (hok rule (List.mem_cons_self _ _) s lexer s1 lexer1).2 hr
      subst hs1
      obtain ⟨r2, hr2⟩ := ih (fun x hx => hok x (List.mem_cons_of_mem _ hx))
        (fun x hx => hsafe x (List.mem_cons_of_mem _ hx)) lexer1
      exact ⟨r2, by simp [cascade, hr, hr2]⟩

/-- The token of `scan_ordered_list_marker_token` is IGNORED or a list marker. -/
theorem scan_ordered_list_marker_token_kind (lexer : TSLexer) :
    (scan_ordered_list_marker_token lexer).1 = .IGNORED ∨
    ∃ type, list_marker_to_block (scan_ordered_list_marker_token lexer).1 = some type := by
  simp only [scan_ordered_list_marker_token]
  split
  · exact Or.inl rfl
  · rename_i list_type _
    split_ifs
    all_goals first
      | exact Or.inl rfl
      | (right; cases list_type <;> exact ⟨_, rfl⟩)

/-- The token of `scan_list_marker_token` is IGNORED or a list marker. -/
theorem scan_list_marker_token_kind (lexer : TSLexer) :
    (scan_list_marker_token lexer).1 = .IGNORED ∨
    ∃ type, list_marker_to_block (scan_list_marker_token lexer).1 = some type := by
  simp only [scan_list_marker_token]
  split_ifs
  · exact Or.inr ⟨_, rfl⟩
  · exact Or.inr ⟨_, rfl⟩
  · exact Or.inr ⟨_, rfl⟩
  · exact Or.inr ⟨_, rfl⟩
  · exact scan_ordered_list_marker_token_kind _

/-- With a block on the stack `close_different_list_if_needed` fails no
assertion on a marker that is IGNORED or a list marker. -/
theorem close_different_list_if_needed_safe (s : Scanner) (lexer : TSLexer) (list : Block)
    (marker : TokenType) (hs : s.open_blocks ≠ [])
    (hm : marker = .IGNORED ∨ ∃ type, list_marker_to_block marker = some type) :
    ∃ r, close_different_list_if_needed s lexer list marker = some r := by
  obtain ⟨top, rest, hst⟩ : ∃ top rest, s.open_blocks = top :: rest := by
    cases h : s.open_blocks with
    | nil => exact absurd h hs
    | cons top rest => exact ⟨top, rest, rfl⟩
  rcases hm with rfl | ⟨type, hty⟩
  · exact ⟨(false, s, lexer), by simp [close_different_list_if_needed]⟩
  · simp only [close_different_list_if_needed, hty, pop_block, hst]
    split_ifs <;> exact ⟨_, rfl⟩

/-- From `close_blocks_with_final_token` with no blocks to close and a block
on the stack: the assertion holds and the pop succeeds. -/
theorem close_blocks_with_final_token_safe (s : Scanner) (lexer : TSLexer) (count : Nat)
    (final : TokenType) (width : Nat) (hb : s.blocks_to_close = 0) (hs : s.open_blocks ≠ []) :
    ∃ r, close_blocks_with_final_token s lexer count final width = some r := by
  cases hst : s.open_blocks with
  | nil => exact absurd hst hs
  | cons top rest =>
    simp only [close_blocks_with_final_token, hb, ne_eq, not_true_eq_false, ↓reduceIte,
      pop_block, set_delayed_token, hst]
    exact ⟨_, rfl⟩

/-- The colon dispatch fails no assertion when no blocks are left to close. -/
theorem parse_colon_safe (s : Scanner) (lexer : TSLexer) (valid_symbols : TokenType → Bool)
    (hb : s.blocks_to_close = 0) (hl : lexer.lookahead = 58) :
    ∃ r, parse_colon s lexer valid_symbols = some r := by
  simp only [parse_colon, hl, ne_eq, not_true_eq_false, ↓reduceIte]
  split_ifs with h1 h2 h3 h4 h5 h6
  all_goals first
    | exact ⟨_, rfl⟩
    | skip
  have hne : s.open_blocks ≠ [] := by
    intro he
    have hle := number_of_blocks_from_top_le s .DIV
      (((consume_chars lexer.advance 58).1 + 1) % 256)
    rw [he] at hle
    simp only [List.length_nil, Nat.le_zero] at hle
    omega
  obtain ⟨r, hr⟩ := close_blocks_with_final_token_safe s (consume_chars lexer.advance 58).2
    (number_of_blocks_from_top s .DIV (((consume_chars lexer.advance 58).1 + 1) % 256))
    .DIV_END 3 hb hne
  rw [hr]
  exact ⟨_, rfl⟩

/-- From `parse_code_block` with no blocks left to close: no assertion fails. -/
theorem parse_code_block_safe (s : Scanner) (lexer : TSLexer) (ticks : Nat)
    (hb : s.blocks_to_close = 0) : ∃ r, parse_code_block s lexer ticks = some r := by
  unfold parse_code_block
  split_ifs with h3
  · exact ⟨_, rfl⟩
  · cases hst : s.open_blocks with
    | nil => exact ⟨_, rfl⟩
    | cons top rest =>
      simp only
      split_ifs with h4 h5
      · obtain ⟨r, hr⟩ := close_blocks_with_final_token_safe s lexer.mark_end 1
          .CODE_BLOCK_END 3 hb (by rw [hst]; simp)
        rw [hr]
        exact ⟨_, rfl⟩
      · exact ⟨_, rfl⟩
      · exact ⟨_, rfl⟩

/-- The backtick dispatch fails no assertion when no blocks are left to close. -/
theorem parse_backtick_safe (s : Scanner) (valid_symbols : TokenType → Bool)
    (hb : s.blocks_to_close = 0) :
    RuleSafe (fun s lexer => parse_backtick s lexer valid_symbols) s := by
  intro lexer
  simp only [parse_backtick]
  split_ifs with h0
  · exact ⟨_, rfl⟩
  · refine cascade_safe valid_symbols ?_ ?_ _
    · intro rule hrule
      simp only [List.mem_cons, List.mem_singleton, List.not_mem_nil, or_false] at hrule
      have hlt := consume_chars_lt lexer 96
      rcases hrule with rfl | rfl | rfl
      · refine guarded_ok (fun hg => RuleOk.of_true_false ?_ ?_)
        · intro s2 lx2 s3 lx3 h
          exact parse_code_block_true (by simpa using hg) hlt h
        · intro s2 lx2 s3 lx3 h
          exact (parse_code_block_false h).1
      · refine guarded_ok (fun hg => RuleOk.of_true_false ?_ ?_)
        · intro s2 lx2 s3 lx3 h
          unfold parse_verbatim_end at h
          split_ifs at h with hz
          · simp at h
          · simp only [Option.some.injEq, Prod.mk.injEq, true_and] at h
            obtain ⟨rfl, rfl⟩ := h
            exact Effect.verbatim_end hg hz
        · intro s2 lx2 s3 lx3 h
          unfold parse_verbatim_end at h
          split_ifs at h with hz
          · simp at h; exact h.1.symm
          · simp at h
      · refine guarded_ok (fun hg => RuleOk.of_true_false ?_ ?_)
        · intro s2 lx2 s3 lx3 h
          unfold parse_verbatim_start at h
          simp only [Option.some.injEq, Prod.mk.injEq, true_and] at h
          obtain ⟨rfl, rfl⟩ := h
          have hpos : 0 < (consume_chars lexer 96).1 := Nat.pos_of_ne_zero h0
          exact Effect.verbatim_start _ hg hpos hlt
        · intro s2 lx2 s3 lx3 h
          unfold parse_verbatim_start at h
          simp at h
    · intro rule hrule
      simp only [List.mem_cons, List.mem_singleton, List.not_mem_nil, or_false] at hrule
      rcases hrule with rfl | rfl | rfl
      · exact guarded_safe (fun _ lx => parse_code_block_safe s lx _ hb)
      · refine guarded_safe (fun _ lx => ?_)
        unfold parse_verbatim_end
        split_ifs <;> exact ⟨_, rfl⟩
      · exact guarded_safe (fun _ lx => ⟨_, rfl⟩)

/-- The character dispatch fails no assertion when no blocks are left to close. -/
theorem scan_dispatch_safe (s : Scanner) (valid_symbols : TokenType → Bool)
    (hb : s.blocks_to_close = 0) : RuleSafe (scan_dispatch valid_symbols) s := by
  intro lexer
  unfold scan_dispatch
  split_ifs with h1 h2 h3 h4 h5 h6
  · simp only [parse_dash, parse_list_marker_or_thematic_break, h1, ne_eq, not_true_eq_false,
      ↓reduceIte]
    split_ifs <;> exact ⟨_, rfl⟩
  · simp only [parse_star, parse_list_marker_or_thematic_break, h2, ne_eq, not_true_eq_false,
      ↓reduceIte]
    split_ifs <;> exact ⟨_, rfl⟩
  · refine guarded_safe (fun _ lx => ?_) lexer
    simp only [parse_list_marker_plus, parse_bullet_list_marker]
    split_ifs <;> exact ⟨_, rfl⟩
  · exact parse_colon_safe s lexer valid_symbols hb h4
  · exact parse_backtick_safe s valid_symbols hb lexer
  · unfold try_close_verbatim
    split_ifs <;> exact ⟨_, rfl⟩
  · exact ⟨_, rfl⟩

/-- From `close_lists_if_needed` on a marker that is IGNORED or a list marker:
no assertion fails. -/
theorem close_lists_if_needed_safe (s : Scanner) (lexer : TSLexer) (non_newline : Bool)
    (marker : TokenType)
    (hm : marker = .IGNORED ∨ ∃ type, list_marker_to_block marker = some type) :
    ∃ r, close_lists_if_needed s lexer non_newline marker = some r := by
  unfold close_lists_if_needed
  split_ifs with h0
  · exact ⟨_, rfl⟩
  · have hne : s.open_blocks ≠ [] := by
      intro he
      rw [he] at h0
      exact h0 rfl
    split
    · exact ⟨_, rfl⟩
    · rename_i k list _
      split_ifs with h1
      · obtain ⟨top, rest, hst⟩ : ∃ top rest, s.open_blocks = top :: rest := by
          cases h : s.open_blocks with
          | nil => exact absurd h hne
          | cons top rest => exact ⟨top, rest, rfl⟩
        simp only [pop_block, hst]
        exact ⟨_, rfl⟩
      · obtain ⟨r, hr⟩ := close_different_list_if_needed_safe s lexer list marker hne hm
        obtain ⟨ok, s1, lexer1⟩ := r
        rw [hr]
        cases ok with
        | true => exact ⟨_, rfl⟩
        | false =>
          simp only
          have hs1 : s1 = s := by
            simp only [close_different_list_if_needed] at hr
            split_ifs at hr
            · split at hr
              · simp at hr
              · split_ifs at hr
                · split at hr <;> simp at hr
                · simp at hr
                  exact hr.1.symm
            · simp at hr
              exact hr.1.symm
          subst hs1
          exact close_different_list_if_needed_safe s1 _ list _ hne
            (scan_list_marker_token_kind lexer1)

/-- The ordered marker scan and the list closing that follows it fail no
assertion. -/
theorem scan_ordered_and_lists_safe (s : Scanner) (valid_symbols : TokenType → Bool)
    (non_newline : Bool) : RuleSafe (scan_ordered_and_lists valid_symbols non_newline) s := by
  intro lexer
  simp only [scan_ordered_and_lists]
  have hkind := scan_ordered_list_marker_token_kind lexer
  refine cascade_safe valid_symbols ?_ ?_ _
  · intro rule hrule
    simp only [List.mem_cons, List.mem_singleton, List.not_mem_nil, or_false] at hrule
    rcases hrule with rfl | rfl
    · exact guarded_ok (fun _ => handle_ordered_list_marker_ok valid_symbols _)
    · exact guarded_ok (fun hv => close_lists_if_needed_ok hv _ _)
  · intro rule hrule
    simp only [List.mem_cons, List.mem_singleton, List.not_mem_nil, or_false] at hrule
    rcases hrule with rfl | rfl
    · refine guarded_safe (fun hg lx => ?_)
      simp only [decide_eq_true_eq] at hg
      rcases hkind with h | ⟨type, hty⟩
      · exact absurd h hg
      · simp only [handle_ordered_list_marker, hty]
        split_ifs <;> exact ⟨_, rfl⟩
    · exact guarded_safe (fun _ lx => close_lists_if_needed_safe s lx _ _ hkind)

/-- The statements of the scan behind the close cascade fail no assertion on a
scanner with no blocks left to close. -/
theorem scan_rules_safe (s : Scanner) (valid_symbols : TokenType → Bool) (non_newline : Bool)
    (hb : s.blocks_to_close = 0) :
    RuleSafe (cascade ((scan_rules valid_symbols non_newline).drop 1)) s := by
  refine cascade_safe valid_symbols
    (fun rule hrule => scan_rules_ok valid_symbols non_newline rule (List.mem_of_mem_drop hrule))
    ?_
  intro rule hrule
  simp only [scan_rules, List.drop_succ_cons, List.drop_zero, List.mem_cons, List.mem_singleton,
    List.not_mem_nil, or_false] at hrule
  rcases hrule with rfl | rfl | rfl | rfl | rfl | rfl | rfl | rfl | rfl
  · intro lexer
    simp only [assert_no_blocks_to_close, hb, ↓reduceIte]
    exact ⟨_, rfl⟩
  · intro lexer
    simp only [output_delayed_token]
    split_ifs <;> exact ⟨_, rfl⟩
  · refine guarded_safe (fun _ lexer => ?_)
    simp only [parse_eof_or_blankline]
    split_ifs <;> exact ⟨_, rfl⟩
  · refine guarded_safe (fun _ lexer => ?_)
    simp only [parse_close_paragraph]
    split_ifs <;> exact ⟨_, rfl⟩
  · refine guarded_safe (fun _ lexer => ?_)
    simp only [parse_verbatim_content]
    split_ifs <;> exact ⟨_, rfl⟩
  · refine guarded_safe (fun _ lexer => ?_)
    simp only [try_close_verbatim]
    split_ifs <;> exact ⟨_, rfl⟩
  · refine guarded_safe (fun _ lexer => ?_)
    simp only [parse_list_item_end]
    split
    · exact ⟨_, rfl⟩
    · split_ifs <;> exact ⟨_, rfl⟩
  · exact scan_dispatch_safe s valid_symbols hb
  · exact scan_ordered_and_lists_safe s valid_symbols non_newline

/-- A scan call with BLOCK_CLOSE acceptable on a scanner that has no more
blocks to close than are open fails no assertion. -/
theorem scan_safe (s : Scanner) (lexer : TSLexer) (valid_symbols : TokenType → Bool)
    (hv : valid_symbols .BLOCK_CLOSE = true)
    (hs : s.blocks_to_close ≤ s.open_blocks.length) :
    ∃ r, tree_sitter_djot_external_scanner_scan s lexer valid_symbols = some r := by
  have hsplit : scan_rules valid_symbols (scan_entry s lexer).2.2 =
      [guarded (valid_symbols .BLOCK_CLOSE) handle_blocks_to_close] ++
        (scan_rules valid_symbols (scan_entry s lexer).2.2).drop 1 := rfl
  unfold tree_sitter_djot_external_scanner_scan
  simp only []
  rw [hsplit, cascade_append]
  have hob : (scan_entry s lexer).1.open_blocks = s.open_blocks := rfl
  have hbc : (scan_entry s lexer).1.blocks_to_close = s.blocks_to_close := rfl
  generalize (scan_entry s lexer).1 = e at hob hbc
  generalize (scan_entry s lexer).2.1 = lx
  generalize (scan_entry s lexer).2.2 = nn
  cases hst : e.open_blocks with
  | nil =>
    have hb0 : e.blocks_to_close = 0 := by
      rw [hbc]; rw [← hob, hst] at hs; simpa using hs
    simp only [cascade, guarded, hv, ↓reduceIte, handle_blocks_to_close, hst, List.length_nil]
    exact scan_rules_safe e valid_symbols nn hb0 lx
  | cons top rest =>
    by_cases heof : lx.eof = true
    · simp only [cascade, guarded, hv, ↓reduceIte, handle_blocks_to_close, hst,
        List.length_cons, Nat.add_one_ne_zero, heof, pop_block]
      exact ⟨_, rfl⟩
    · by_cases hpos : e.blocks_to_close > 0
      · simp only [cascade, guarded, hv, ↓reduceIte, handle_blocks_to_close, hst,
          List.length_cons, Nat.add_one_ne_zero, heof, pop_block, hpos]
        exact ⟨_, rfl⟩
      · have hb0 : e.blocks_to_close = 0 := by omega
        simp only [cascade, guarded, hv, ↓reduceIte, handle_blocks_to_close, hst,
          List.length_cons, Nat.add_one_ne_zero, heof, hpos]
        exact scan_rules_safe e valid_symbols nn hb0 lx

/-- C28: in every state reachable from the initial state by scan calls during
which the stack never holds more than `STACK_SIZE` blocks (so that no push has
stored outside the array), blocks_to_close <= stack depth and the delayed token
kind is one of IGNORED, DIV_END, CODE_BLOCK_END, VERBATIM_END; consequently a
scan call on such a state with BLOCK_CLOSE acceptable fails no assertion,
whatever the text and the other acceptable tokens: it returns `true` or `false`
(the assertion blocks_to_close == 0 after the close cascade, the assertion in
close_blocks_with_final_token and the non-empty-stack assertion in pop_block
are among the assertions whose failure the model shows as no result). -/
theorem assertions_never_fail (s : Scanner) (hs : ReachableInCapacity s) :
    s.blocks_to_close ≤ s.open_blocks.length ∧
    (s.delayed_token = .IGNORED ∨ s.delayed_token = .DIV_END ∨
      s.delayed_token = .CODE_BLOCK_END ∨ s.delayed_token = .VERBATIM_END) ∧
    ∀ (lexer : TSLexer) (valid_symbols : TokenType → Bool),
      valid_symbols .BLOCK_CLOSE = true →
      ∃ ok s1 lexer1,
        tree_sitter_djot_external_scanner_scan s lexer valid_symbols = some (ok, s1, lexer1) := by
  have hr := reachable_of_in_capacity hs
  refine ⟨reachable_debt_bound hr, reachable_delayed_token_ok hr, ?_⟩
  intro lexer valid_symbols hv
  obtain ⟨⟨ok, s1, lexer1⟩, hr2⟩ := scan_safe s lexer valid_symbols hv (reachable_debt_bound hr)
  exact ⟨ok, s1, lexer1, hr2⟩

/-- C28 at the state after `- ` (LIST_MARKER_DASH) and `x` (LIST_ITEM_END), a run
with never more than one block open, which leaves one block open and one block
to close: the call at `x` with BLOCK_CLOSE acceptable returns a result. -/
theorem assertions_never_fail_witness :
    ∃ ok s1 lexer1,
      tree_sitter_djot_external_scanner_scan
        { init with open_blocks := [{ type := .LIST_DASH, level := 1 }], blocks_to_close := 1 }
        (TSLexer.start [120]) (fun t => decide (t = .BLOCK_CLOSE)) = some (ok, s1, lexer1) :=
  (assertions_never_fail
    { init with open_blocks := [{ type := .LIST_DASH, level := 1 }], blocks_to_close := 1 }
    (ReachableInCapacity.scan { init with open_blocks := [{ type := .LIST_DASH, level := 1 }] }
      (TSLexer.start [120]) (fun t => decide (t = .LIST_ITEM_END)) true _
      { input := [], marked := [120], result_symbol := .LIST_ITEM_END }
      (ReachableInCapacity.scan init (TSLexer.start [45, 32])
        (fun t => decide (t = .LIST_MARKER_DASH))
        true _ { input := [32], marked := [32], result_symbol := .LIST_MARKER_DASH }
        ReachableInCapacity.create (by decide) (by decide))
      (by decide) (by decide))).2.2 (TSLexer.start [120]) (fun t => decide (t = .BLOCK_CLOSE))
    (by decide)

/-! ## The width of a buffered fence end -/

/-- A scan call that starts with no delayed token and leaves DIV_END or
CODE_BLOCK_END buffered has recorded the width 3. -/
theorem scan_buffers_width_three {s s1 : Scanner} {lexer lexer1 : TSLexer}
    {valid_symbols : TokenType → Bool} (hd : s.delayed_token = .IGNORED)
    (hscan : tree_sitter_djot_external_scanner_scan s lexer valid_symbols =
      some (true, s1, lexer1))
    (hbuf : s1.delayed_token = .DIV_END ∨ s1.delayed_token = .CODE_BLOCK_END) :
    s1.delayed_token_width = 3 := by
  have he := scan_true_effect hscan
  have hdt : (scan_entry s lexer).1.delayed_token = .IGNORED := by simpa using hd
  generalize (scan_entry s lexer).1 = e at he hdt
  generalize lexer1.result_symbol = t at he
  cases he with
  | close s1 hv hp =>
    rw [(pop_block_fields hp).1, hdt] at hbuf
    simp at hbuf
  | list_marker t ty hv hm =>
    rw [(ensure_list_open_fields e ty _).2.1, hdt] at hbuf
    simp at hbuf
  | div_close colons top rest hv h3 h256 hpos hb heq => rfl
  | code_close ticks top rest hv h3 hb heq htop => rfl
  | _ => simp_all [push_block]

/-- C29: whenever a scan call (starting with no delayed token) buffers DIV_END
or CODE_BLOCK_END as its final token, the recorded delayed-token width is 3,
whatever the number of fence characters of the closing fence; so the later
flush, once no blocks are left to close, at a text with at least three
characters after the leading whitespace, returns that token and advances
exactly 3 characters; for a division fence of n > 3 colons the DIV_END token
therefore ends before the last n - 3 colons of the fence. -/
theorem fence_end_width (s s1 : Scanner) (lexer lexer1 : TSLexer)
    (valid_symbols : TokenType → Bool) (hd : s.delayed_token = .IGNORED)
    (hscan : tree_sitter_djot_external_scanner_scan s lexer valid_symbols =
      some (true, s1, lexer1))
    (hbuf : s1.delayed_token = .DIV_END ∨ s1.delayed_token = .CODE_BLOCK_END) :
    s1.delayed_token_width = 3 ∧
    (∀ (s2 : Scanner) (lexer2 : TSLexer) (v : TokenType → Bool) (a b c : Nat) (rest : List Nat),
      s2.delayed_token = s1.delayed_token →
      s2.delayed_token_width = s1.delayed_token_width → s2.blocks_to_close = 0 →
      (consume_whitespace lexer2.mark_end).2.input = a :: b :: c :: rest →
      ∃ s3 lexer3, tree_sitter_djot_external_scanner_scan s2 lexer2 v = some (true, s3, lexer3) ∧
        lexer3.result_symbol = s1.delayed_token ∧ lexer3.input = rest ∧ lexer3.marked = rest) ∧
    (∀ (s2 : Scanner) (lexer2 : TSLexer) (v : TokenType → Bool) (n : Nat) (text : List Nat),
      s2.delayed_token = s1.delayed_token →
      s2.delayed_token_width = s1.delayed_token_width → s2.blocks_to_close = 0 →
      3 < n → (consume_whitespace lexer2.mark_end).2.input = List.replicate n 58 ++ text →
      ∃ s3 lexer3, tree_sitter_djot_external_scanner_scan s2 lexer2 v = some (true, s3, lexer3) ∧
        lexer3.result_symbol = s1.delayed_token ∧
        lexer3.marked = List.replicate (n - 3) 58 ++ text) := by
  have hw := scan_buffers_width_three hd hscan hbuf
  have hflush : ∀ (s2 : Scanner) (lexer2 : TSLexer) (v : TokenType → Bool) (a b c : Nat)
      (rest : List Nat), s2.delayed_token = s1.delayed_token →
      s2.delayed_token_width = s1.delayed_token_width → s2.blocks_to_close = 0 →
      (consume_whitespace lexer2.mark_end).2.input = a :: b :: c :: rest →
      ∃ s3 lexer3, tree_sitter_djot_external_scanner_scan s2 lexer2 v = some (true, s3, lexer3) ∧
        lexer3.result_symbol = s1.delayed_token ∧ lexer3.input = rest ∧
        lexer3.marked = rest := by
    intro s2 lexer2 v a b c rest hdt hdw hb hin
    have hne : s2.delayed_token ≠ .IGNORED := by
      rw [hdt]
      rcases hbuf with h | h <;> rw [h] <;> simp
    have hfl := scan_flushes_delayed_token s2 lexer2 v hb hne (Or.inl (by rw [hin]; simp))
    have h3 : ∀ lx : TSLexer,
        (output_delayed_token_loop 3 lx).2 = lx.advance.advance.advance := fun _ => rfl
    refine ⟨_, _, hfl, ?_, ?_, ?_⟩
    · rw [hdw, hw, h3]
      simp only [TSLexer.mark_end_result_symbol, TSLexer.advance_result_symbol,
        TSLexer.set_result_result_symbol, hdt]
    · rw [hdw, hw, h3]
      simp only [TSLexer.mark_end_input, TSLexer.advance_input, TSLexer.set_result_input, hin,
        List.tail_cons]
    · rw [hdw, hw, h3]
      simp only [TSLexer.mark_end_marked, TSLexer.advance_input, TSLexer.set_result_input, hin,
        List.tail_cons]
  refine ⟨hw, hflush, ?_⟩
  intro s2 lexer2 v n text hdt hdw hb hn hin
  obtain ⟨m, rfl⟩ : ∃ m, n = m + 3 := ⟨n - 3, by omega⟩
  have hin2 : (consume_whitespace lexer2.mark_end).2.input =
      58 :: 58 :: 58 :: (List.replicate m 58 ++ text) := by
    rw [hin]
    simp [List.replicate_succ]
  obtain ⟨s3, lexer3, h1, h2, _, h4⟩ := hflush s2 lexer2 v 58 58 58 _ hdt hdw hb hin2
  exact ⟨s3, lexer3, h1, h2, by simpa using h4⟩

/-- C29 at an open division of level 5: the call at five colons returns
BLOCK_CLOSE and buffers the delayed token (DIV_END, width 3). -/
theorem fence_end_width_witness :
    ({ init with delayed_token := .DIV_END, delayed_token_width := 3 } :
      Scanner).delayed_token_width = 3 :=
  (fence_end_width { init with open_blocks := [{ type := .DIV, level := 5 }] }
    { init with delayed_token := .DIV_END, delayed_token_width := 3 }
    (TSLexer.start [58, 58, 58, 58, 58])
    { input := [], marked := [58, 58, 58, 58, 58], result_symbol := .BLOCK_CLOSE }
    (fun t => decide (t = .DIV_END)) rfl (by decide) (Or.inl rfl)).1

/-! ## The alphabet of an enumerator -/

/-- A text with a character outside a class splits at the first such character. -/
theorem split_at_first_outside (P : Nat → Bool) (l : List Nat)
    (h : ¬ ∀ c ∈ l, P c = true) :
    ∃ p y q, l = p ++ y :: q ∧ (∀ c ∈ p, P c = true) ∧ P y = false := by
  induction l with
  | nil => exact absurd (fun c hc => absurd hc (List.not_mem_nil c)) h
  | cons x xs ih =>
    by_cases hx : P x = true
    · have hxs : ¬ ∀ c ∈ xs, P c = true := by
        intro hall
        apply h
        intro c hc
        rcases List.mem_cons.mp hc with rfl | hc
        · exact hx
        · exact hall c hc
      obtain ⟨p, y, q, h1, h2, h3⟩ := ih hxs
      refine ⟨x :: p, y, q, by rw [h1]; rfl, ?_, h3⟩
      intro c hc
      rcases List.mem_cons.mp hc with rfl | hc
      · exact hx
      · exact h2 c hc
    · exact ⟨[], x, xs, rfl, fun c hc => absurd hc (List.not_mem_nil c), by simpa using hx⟩

/-- The token of `scan_ordered_list_marker_token` at a run of letters of the
alphabet `A` followed by `.`, where the alphabet `R` is tried before `A` and
no other alphabet tried before `A` has a letter of the run: the first letter
decides between `R` and `A`. -/
theorem scan_ordered_marker_by_first_letter (R A : OrderedListType) (run text : List Nat)
    (lexer : TSLexer) (hinput : lexer.input = run ++ 46 :: text) (hne : run ≠ [])
    (hlen : run.length < 256)
    (hA : ∀ c ∈ run, matches_ordered_list A (to_char c) = true)
    (hbeforeR : ∀ t ∈ tried_before R, ∀ c ∈ run, matches_ordered_list t (to_char c) = false)
    (hbeforeA : ∀ t ∈ tried_before A,
      t = R ∨ ∀ c ∈ run, matches_ordered_list t (to_char c) = false)
    (hsep : ∀ c ∈ run, c ≠ 41 ∧ c ≠ 46)
    (hdotR : matches_ordered_list R (to_char 46) = false)
    (hdotA : matches_ordered_list A (to_char 46) = false) :
    (matches_ordered_list R (to_char (run.headD 0)) = true →
      (∀ c ∈ run, matches_ordered_list R (to_char c) = true) →
      (scan_ordered_list_marker_token lexer).1 = marker_period R) ∧
    (matches_ordered_list R (to_char (run.headD 0)) = true →
      ¬ (∀ c ∈ run, matches_ordered_list R (to_char c) = true) →
      (scan_ordered_list_marker_token lexer).1 = .IGNORED) ∧
    (matches_ordered_list R (to_char (run.headD 0)) = false →
      (scan_ordered_list_marker_token lexer).1 = marker_period A) := by
  obtain ⟨y0, ys0, hrun0⟩ : ∃ y ys, run = y :: ys := by
    cases run with
    | nil => exact absurd rfl hne
    | cons y ys => exact ⟨y, ys, rfl⟩
  have hhead : run.headD 0 = y0 := by rw [hrun0]; rfl
  have hy0 : y0 ∈ run := by rw [hrun0]; exact List.mem_cons_self _ _
  refine ⟨fun _ hall => ?_, fun hfirst hnot => ?_, fun hfirst => ?_⟩
  · have h := scan_ordered_list_marker_token_run false R run (46 :: text) lexer
      (by simpa using hinput) hne hlen hall
      (fun t ht => by rw [hhead]; exact hbeforeR t ht y0 hy0) (by simpa using hdotR)
    rw [h]
    simp
  · obtain ⟨p, y, q, hsplit, hp, hy⟩ :=
      split_at_first_outside (fun c => matches_ordered_list R (to_char c)) run hnot
    have hpne : p ≠ [] := by
      intro hp0
      subst hp0
      have hh : run.headD 0 = y := by rw [hsplit]; rfl
      rw [hh] at hfirst
      rw [hfirst] at hy
      exact Bool.noConfusion hy
    have hphead : p.headD 0 = y0 := by
      cases p with
      | nil => exact absurd rfl hpne
      | cons a as =>
        rw [hsplit] at hhead
        simpa using hhead
    have hymem : y ∈ run := by rw [hsplit]; simp
    have h := scan_ordered_list_marker_token_run false R p (y :: q ++ 46 :: text) lexer
      (by rw [hinput, hsplit]; simp) hpne
      (by rw [hsplit] at hlen; simp at hlen; omega) hp
      (fun t ht => by rw [hphead]; exact hbeforeR t ht y0 hy0) (by simpa using hy)
    rw [h]
    have := hsep y hymem
    simp [this.1, this.2]
  · have h := scan_ordered_list_marker_token_run false A run (46 :: text) lexer
      (by simpa using hinput) hne hlen hA
      (fun t ht => by
        rw [hhead]
        rcases hbeforeA t ht with rfl | hno
        · rw [← hhead]; exact hfirst
        · exact hno y0 hy0) (by simpa using hdotA)
    rw [h]
    simp

/-- A lower-case letter passes unchanged to a `char` parameter. -/
theorem lower_letter_bounds {c : Nat} (h : is_lower_alpha c = true) :
    to_char c = c ∧ 97 ≤ c ∧ c ≤ 122 := by
  simp only [is_lower_alpha, Bool.and_eq_true, decide_eq_true_eq] at h
  exact ⟨Nat.mod_eq_of_lt (by omega), h.1, h.2⟩

/-- An upper-case letter passes unchanged to a `char` parameter. -/
theorem upper_letter_bounds {c : Nat} (h : is_upper_alpha c = true) :
    to_char c = c ∧ 65 ≤ c ∧ c ≤ 90 := by
  simp only [is_upper_alpha, Bool.and_eq_true, decide_eq_true_eq] at h
  exact ⟨Nat.mod_eq_of_lt (by omega), h.1, h.2⟩

/-- C21 fails as stated: at `ia.` the run `ia` is a maximal run of lower-case
letters followed by `.` and not every letter is a roman-numeral letter, but
`scan_ordered_list_marker_token` returns IGNORED, not
LIST_MARKER_LOWER_ALPHA_PERIOD: the roman alphabet scans `i` and the scan of
the type ends there. Likewise at `IA.`. -/
theorem enumerator_run_not_rescanned :
    scan_ordered_list_marker_token (TSLexer.start [105, 97, 46]) =
      (.IGNORED, { input := [97, 46], marked := [105, 97, 46], result_symbol := .IGNORED }) ∧
    scan_ordered_list_marker_token (TSLexer.start [73, 65, 46]) =
      (.IGNORED, { input := [65, 46], marked := [73, 65, 46], result_symbol := .IGNORED }) ∧
    TokenType.IGNORED ≠ TokenType.LIST_MARKER_LOWER_ALPHA_PERIOD ∧
    TokenType.IGNORED ≠ TokenType.LIST_MARKER_UPPER_ALPHA_PERIOD := by
  decide

/-- C21, amended: for every non-empty run w (shorter than 256) of lower-case
letters immediately followed by `.`, `scan_ordered_list_marker_token` decides
the alphabet by the first letter of w: if the first letter is a roman-numeral
letter it returns LIST_MARKER_LOWER_ROMAN_PERIOD when every letter of w is a
roman-numeral letter and IGNORED otherwise; if the first letter is not a
roman-numeral letter it returns LIST_MARKER_LOWER_ALPHA_PERIOD; likewise for
upper-case runs. -/
theorem enumerator_first_letter (lexer : TSLexer) (run text : List Nat)
    (hinput : lexer.input = run ++ 46 :: text) (hne : run ≠ []) (hlen : run.length < 256) :
    ((∀ c ∈ run, is_lower_alpha c = true) →
      (is_lower_roman (run.headD 0) = true → (∀ c ∈ run, is_lower_roman c = true) →
        (scan_ordered_list_marker_token lexer).1 = .LIST_MARKER_LOWER_ROMAN_PERIOD) ∧
      (is_lower_roman (run.headD 0) = true → ¬ (∀ c ∈ run, is_lower_roman c = true) →
        (scan_ordered_list_marker_token lexer).1 = .IGNORED) ∧
      (is_lower_roman (run.headD 0) = false →
        (scan_ordered_list_marker_token lexer).1 = .LIST_MARKER_LOWER_ALPHA_PERIOD)) ∧
    ((∀ c ∈ run, is_upper_alpha c = true) →
      (is_upper_roman (run.headD 0) = true → (∀ c ∈ run, is_upper_roman c = true) →
        (scan_ordered_list_marker_token lexer).1 = .LIST_MARKER_UPPER_ROMAN_PERIOD) ∧
      (is_upper_roman (run.headD 0) = true → ¬ (∀ c ∈ run, is_upper_roman c = true) →
        (scan_ordered_list_marker_token lexer).1 = .IGNORED) ∧
      (is_upper_roman (run.headD 0) = false →
        (scan_ordered_list_marker_token lexer).1 = .LIST_MARKER_UPPER_ALPHA_PERIOD)) := by
  obtain ⟨y0, ys0, hrun0⟩ : ∃ y ys, run = y :: ys := by
    cases run with
    | nil => exact absurd rfl hne
    | cons y ys => exact ⟨y, ys, rfl⟩
  have hhead : run.headD 0 = y0 := by rw [hrun0]; rfl
  have hy0 : y0 ∈ run := by rw [hrun0]; exact List.mem_cons_self _ _
  constructor
  · intro hlow
    have hc : ∀ c ∈ run, to_char c = c := fun c hc => (lower_letter_bounds (hlow c hc)).1
    have hall : (∀ c ∈ run, matches_ordered_list .LOWER_ROMAN (to_char c) = true) ↔
        ∀ c ∈ run, is_lower_roman c = true := by
      constructor
      · intro h c hm; have := h c hm; rwa [hc c hm] at this
      · intro h c hm; rw [hc c hm]; exact h c hm
    have h := scan_ordered_marker_by_first_letter .LOWER_ROMAN .LOWER_ALPHA run text lexer hinput
      hne hlen (fun c hm => by rw [hc c hm]; exact hlow c hm)
      (fun t ht c hm => by
        obtain ⟨_, h1, h2⟩ := lower_letter_bounds (hlow c hm)
        simp only [tried_before, List.mem_singleton] at ht
        subst ht
        rw [hc c hm]
        simp [matches_ordered_list, is_decimal]
        omega)
      (fun t ht => by
        simp only [tried_before, List.mem_cons, List.mem_singleton, List.not_mem_nil,
          or_false] at ht
        rcases ht with rfl | rfl | rfl
        · right
          intro c hm
          obtain ⟨_, h1, h2⟩ := lower_letter_bounds (hlow c hm)
          rw [hc c hm]
          simp [matches_ordered_list, is_decimal]
          omega
        · exact Or.inl rfl
        · right
          intro c hm
          obtain ⟨_, h1, h2⟩ := lower_letter_bounds (hlow c hm)
          rw [hc c hm]
          simp [matches_ordered_list, is_upper_roman]
          omega)
      (fun c hm => by
        obtain ⟨_, h1, h2⟩ := lower_letter_bounds (hlow c hm)
        omega)
      (by decide) (by decide)
    rw [hhead, hc y0 hy0, hall] at h
    rw [hhead]
    exact h
  · intro hup
    have hc : ∀ c ∈ run, to_char c = c := fun c hc => (upper_letter_bounds (hup c hc)).1
    have hall : (∀ c ∈ run, matches_ordered_list .UPPER_ROMAN (to_char c) = true) ↔
        ∀ c ∈ run, is_upper_roman c = true := by
      constructor
      · intro h c hm; have := h c hm; rwa [hc c hm] at this
      · intro h c hm; rw [hc c hm]; exact h c hm
    have h := scan_ordered_marker_by_first_letter .UPPER_ROMAN .UPPER_ALPHA run text lexer hinput
      hne hlen (fun c hm => by rw [hc c hm]; exact hup c hm)
      (fun t ht c hm => by
        obtain ⟨_, h1, h2⟩ := upper_letter_bounds (hup c hm)
        simp only [tried_before, List.mem_cons, List.mem_singleton, List.not_mem_nil,
          or_false] at ht
        rcases ht with rfl | rfl
        · rw [hc c hm]
          simp [matches_ordered_list, is_decimal]
          omega
        · rw [hc c hm]
          simp [matches_ordered_list, is_lower_roman]
          omega)
      (fun t ht => by
        simp only [tried_before, List.mem_cons, List.mem_singleton, List.not_mem_nil,
          or_false] at ht
        rcases ht with rfl | rfl | rfl | rfl
        · right
          intro c hm
          obtain ⟨_, h1, h2⟩ := upper_letter_bounds (hup c hm)
          rw [hc c hm]
          simp [matches_ordered_list, is_decimal]
          omega
        · right
          intro c hm
          obtain ⟨_, h1, h2⟩ := upper_letter_bounds (hup c hm)
          rw [hc c hm]
          simp [matches_ordered_list, is_lower_roman]
          omega
        · exact Or.inl rfl
        · right
          intro c hm
          obtain ⟨_, h1, h2⟩ := upper_letter_bounds (hup c hm)
          rw [hc c hm]
          simp [matches_ordered_list, is_lower_alpha]
          omega)
      (fun c hm => by
        obtain ⟨_, h1, h2⟩ := upper_letter_bounds (hup c hm)
        omega)
      (by decide) (by decide)
    rw [hhead, hc y0 hy0, hall] at h
    rw [hhead]
    exact h

/-- C21 amended, at `ab.`: the first letter is not a roman-numeral letter, so
the token is LIST_MARKER_LOWER_ALPHA_PERIOD. -/
theorem enumerator_first_letter_witness :
    (scan_ordered_list_marker_token (TSLexer.start [97, 98, 46])).1 =
      .LIST_MARKER_LOWER_ALPHA_PERIOD :=
  ((enumerator_first_letter (TSLexer.start [97, 98, 46]) [97, 98] [] rfl (by decide)
    (by decide)).1 (by decide)).2.2 (by decide)

/-! ## List markers behind the cursor -/

/-- C23 at the texts `-* x` and `-1. `: `scan_list_marker_token` returns
LIST_MARKER_STAR for the first, which begins with a dash and not with a star,
and LIST_MARKER_DECIMAL_PERIOD for the second, which begins with a dash and not
with the enumerator: the failed test for `- ` has consumed the dash and the
next tests run one character further on. On the state of create with
CLOSE_PARAGRAPH acceptable the scan at `-* x` therefore returns
CLOSE_PARAGRAPH. At `* x` the function returns the same token as at `-* x`. -/
theorem list_marker_behind_cursor :
    scan_list_marker_token (TSLexer.start [45, 42, 32, 120]) =
      (.LIST_MARKER_STAR,
        { input := [120], marked := [45, 42, 32, 120], result_symbol := .IGNORED }) ∧
    ([45, 42, 32, 120] : List Nat).head? ≠ some 42 ∧
    scan_list_marker_token (TSLexer.start [45, 49, 46, 32]) =
      (.LIST_MARKER_DECIMAL_PERIOD,
        { input := [46, 32], marked := [45, 49, 46, 32], result_symbol := .IGNORED }) ∧
    (scan_list_marker_token (TSLexer.start [42, 32, 120])).1 = .LIST_MARKER_STAR ∧
    tree_sitter_djot_external_scanner_scan init (TSLexer.start [45, 42, 32, 120])
        (fun t => decide (t = .CLOSE_PARAGRAPH)) =
      some (true, init,
            { input := [120], marked := [45, 42, 32, 120], result_symbol := .CLOSE_PARAGRAPH }) := by
  decide

/-! ## Closing a block at a list mismatch -/

/-- A text whose second character is not a space, not `)` , not `.` and in no
enumerator alphabet, and whose first character is not `(`, begins with no list
marker. -/
theorem not_begins_with_marker (a b : Nat) (rest : List Nat)
    (hb : b ≠ 32 ∧ b ≠ 41 ∧ b ≠ 46)
    (hbn : ∀ t, matches_ordered_list t (to_char b) = false) (ha : a ≠ 40) :
    ∀ m, ¬ BeginsWithMarker (a :: b :: rest) m := by
  intro m hm
  rcases hm with ⟨c, rest1, h, _⟩ | ⟨paren, type, run, x, rest1, h, hne, _, hrun, _, hx⟩
  · simp only [List.cons.injEq] at h
    exact hb.1 h.2.1
  · cases paren with
    | true =>
      simp only [↓reduceIte, List.singleton_append, List.cons.injEq] at h
      exact ha h.1
    | false =>
      simp only [Bool.false_eq_true, ↓reduceIte, List.nil_append] at h
      cases run with
      | nil => exact hne rfl
      | cons y ys =>
        cases ys with
        | nil =>
          simp only [List.singleton_append, List.cons.injEq] at h
          rcases hx with ⟨hx, _⟩ | ⟨hx, _⟩
          · exact hb.2.1 (by rw [h.2.1, hx])
          · exact hb.2.2 (by rw [h.2.1, hx])
        | cons y2 ys2 =>
          simp only [List.cons_append, List.cons.injEq] at h
          have := hrun y2 (by simp)
          rw [← h.2.1, hbn type] at this
          exact Bool.noConfusion this

/-! ## List markers behind the cursor at the list-item-end rule -/

/-- C10 at a dash list of level 3 (the state the call at two spaces and `- x`
with LIST_MARKER_DASH acceptable leaves) and the text `-* x` with no leading
whitespace and LIST_ITEM_END acceptable: the scan arrives at the list-item-end
rule with the cursor at the text, which begins with no list marker, and
returns LIST_ITEM_END, but it leaves blocks_to_close at 0 and not at 1:
`scan_list_marker` finds the `* ` one character behind the cursor, the failed
test for `- ` having consumed the dash. Likewise at `x- y` with LIST_ITEM_END
and CLOSE_PARAGRAPH acceptable, where the paragraph-close rule has consumed
the `x` before the list-item-end rule looks for a marker. -/
theorem list_item_end_marker_behind_cursor :
    (scan_calls init
        [{ input := [32, 32, 45, 32, 120],
           valid_symbols := fun t => decide (t = .LIST_MARKER_DASH) }]).map Prod.fst =
      some { init with open_blocks := [{ type := .LIST_DASH, level := 3 }], whitespace := 2 } ∧
    reaches AT_LIST_ITEM_END
      { init with open_blocks := [{ type := .LIST_DASH, level := 3 }], whitespace := 2 }
      (TSLexer.start [45, 42, 32, 120]) (fun t => decide (t = .LIST_ITEM_END))
      { init with open_blocks := [{ type := .LIST_DASH, level := 3 }] }
      (TSLexer.start [45, 42, 32, 120]) ∧
    (∀ m, ¬ BeginsWithMarker [45, 42, 32, 120] m) ∧
    tree_sitter_djot_external_scanner_scan
        { init with open_blocks := [{ type := .LIST_DASH, level := 3 }], whitespace := 2 }
        (TSLexer.start [45, 42, 32, 120]) (fun t => decide (t = .LIST_ITEM_END)) =
      some (true,
        { init with open_blocks := [{ type := .LIST_DASH, level := 3 }], blocks_to_close := 0 },
        { input := [120], marked := [45, 42, 32, 120], result_symbol := .LIST_ITEM_END }) ∧
    (∀ m, ¬ BeginsWithMarker [120, 45, 32, 121] m) ∧
    tree_sitter_djot_external_scanner_scan
        { init with open_blocks := [{ type := .LIST_DASH, level := 3 }], whitespace := 2 }
        (TSLexer.start [120, 45, 32, 121])
        (fun t => decide (t = .LIST_ITEM_END) || decide (t = .CLOSE_PARAGRAPH)) =
      some (true,
        { init with open_blocks := [{ type := .LIST_DASH, level := 3 }], blocks_to_close := 0 },
        { input := [121], marked := [120, 45, 32, 121], result_symbol := .LIST_ITEM_END }) := by
  refine ⟨by decide, by decide, ?_, by decide, ?_, by decide⟩
  · exact not_begins_with_marker 45 42 [32, 120] (by decide)
      (fun t => by cases t <;> rfl) (by decide)
  · exact not_begins_with_marker 120 45 [32, 121] (by decide)
      (fun t => by cases t <;> rfl) (by decide)

/-! ## The list closing and the marker at the cursor -/

end Djot
